import Mathlib

/-!
# TecnicoFS (tecnicofs-v2): a shallow embedding of `fs/state.c` and `fs/operations.c`

The file system keeps three statically allocated tables (i-nodes, data blocks,
open files), each with a free map.  The embedding keeps every table as a total
function from indices to contents and passes the whole state explicitly.

Conventions of the embedding

* The headers (`config.h`, `state.h`, `operations.h`) are not part of the
  sources at hand: the constants they define are fields of `Config`, and
  `MAX_DIR_ENTRIES` is the number of entries that fit one block.
* `size_t` is 64 bits wide: subtraction, addition and multiplication on it wrap
  modulo `2 ^ 64` (`usub`, `uadd`, `umul`).  `int` is 32 bits, stored in memory
  in little-endian two's complement (`readInt`, `writeInt`).
* A pointer into `fs_data` is its byte offset; `NULL` is `none`.
* A call whose C behaviour is undefined (dereferencing `NULL`, a `memcpy` or an
  `int` access that leaves `fs_data`, a store outside `i_data_block`) yields
  `none` in the functions that can reach such a point.
* The loops are recursions on an iteration bound (`walk_fuel` for the walks
  over the block list, the byte count plus such a bound for the copy loops),
  above the length of every run that ends when `BLOCK_SIZE >= 1`; a run that
  exceeds it yields `none`.
* `i_data_block` has `MAX_DIRECT_BLOCKS + 1` slots and `dir_entry_t` is laid out
  as `d_name` followed by `d_inumber`, without padding.
* The model is sequential: the `pthread_rwlock` calls and `insert_delay` have no
  effect on the tables and are left out; `malloc` and `pthread_rwlock_init`
  succeed.
* The lock calls are kept apart: for a function `f` that locks, `f_locks` lists
  its calls of `pthread_rwlock_wrlock`, `pthread_rwlock_rdlock` and
  `pthread_rwlock_unlock` in program order, on the arguments of `f` (`none`
  when the call runs into undefined behaviour).
-/

namespace TecnicoFS

/-- One `char` of memory. -/
abbrev Byte := Fin 256

/-- The enum `allocation_state_t` of `state.h`. -/
inductive allocation_state_t where
  | FREE
  | TAKEN
  deriving DecidableEq, Repr

/-- The enum `inode_type` of `state.h`. -/
inductive inode_type where
  | T_FILE
  | T_DIRECTORY
  deriving DecidableEq, Repr

open allocation_state_t inode_type

/-- Compile-time constants of `config.h`, `state.h` and `operations.h`. -/
structure Config where
  BLOCK_SIZE : Nat
  DATA_BLOCKS : Nat
  INODE_TABLE_SIZE : Nat
  MAX_OPEN_FILES : Nat
  MAX_FILE_NAME : Nat
  MAX_DIRECT_BLOCKS : Nat
  ROOT_DIR_INUM : Int
  TFS_O_CREAT : Nat
  TFS_O_TRUNC : Nat
  TFS_O_APPEND : Nat

/-- The values of the course's base code; the comment at `operations.c:155`
    ("more than 10 blocks") fixes `MAX_DIRECT_BLOCKS`. -/
def stdConfig : Config where
  BLOCK_SIZE := 1024
  DATA_BLOCKS := 1024
  INODE_TABLE_SIZE := 50
  MAX_OPEN_FILES := 20
  MAX_FILE_NAME := 40
  MAX_DIRECT_BLOCKS := 10
  ROOT_DIR_INUM := 0
  TFS_O_CREAT := 1
  TFS_O_TRUNC := 2
  TFS_O_APPEND := 4

/-- The C type `inode_t` (without its lock); `i_data_block` has
    `MAX_DIRECT_BLOCKS + 1` slots, the last one naming the indirect block. -/
structure inode_t where
  i_node_type : inode_type
  i_size : Nat
  i_data_block : Nat → Int

/-- The C type `open_file_entry_t`. -/
structure open_file_entry_t where
  of_inumber : Int
  of_offset : Nat

/-- The static tables of `state.c`. -/
structure State where
  inode_table : Nat → inode_t
  freeinode_ts : Nat → allocation_state_t
  fs_data : Nat → Byte
  free_blocks : Nat → allocation_state_t
  open_file_table : Nat → open_file_entry_t
  free_open_file_entries : Nat → allocation_state_t

/-- Static storage before the first call: all bytes zero. -/
def zeroState : State where
  inode_table := fun _ => ⟨T_FILE, 0, fun _ => 0⟩
  freeinode_ts := fun _ => FREE
  fs_data := fun _ => 0
  free_blocks := fun _ => FREE
  open_file_table := fun _ => ⟨0, 0⟩
  free_open_file_entries := fun _ => FREE

/-! ## Machine arithmetic and memory -/

/-- Number of values of `size_t`. -/
def SIZE_MOD : Nat := 18446744073709551616

/-- Subtraction on `size_t`. -/
def usub (a b : Nat) : Nat := (a % SIZE_MOD + (SIZE_MOD - b % SIZE_MOD)) % SIZE_MOD

/-- Addition on `size_t`. -/
def uadd (a b : Nat) : Nat := (a + b) % SIZE_MOD

/-- Multiplication on `size_t`. -/
def umul (a b : Nat) : Nat := (a * b) % SIZE_MOD

/-- The cast `(ssize_t)` of a `size_t`. -/
def to_ssize (n : Nat) : Int :=
  if n % SIZE_MOD < 9223372036854775808 then ((n % SIZE_MOD : Nat) : Int)
  else ((n % SIZE_MOD : Nat) : Int) - 18446744073709551616

/-- The value of `sizeof(int)`. -/
def sizeof_int : Nat := 4

/-- Array update. -/
def setAt {α : Type} (f : Nat → α) (i : Nat) (v : α) : Nat → α :=
  fun j => if j = i then v else f j

/-- Reads the `int` stored at byte offset `a`. -/
def readInt (m : Nat → Byte) (a : Nat) : Int :=
  let u : Nat := (m a).val + 256 * (m (a + 1)).val + 65536 * (m (a + 2)).val
    + 16777216 * (m (a + 3)).val
  if u < 2147483648 then (u : Int) else (u : Int) - 4294967296

/-- The `k`-th byte of the `int` value `v`. -/
def intByte (v : Int) (k : Nat) : Byte :=
  Fin.ofNat ((v % 4294967296).toNat / 256 ^ k)

/-- Stores the `int` `v` at byte offset `a`. -/
def writeInt (m : Nat → Byte) (a : Nat) (v : Int) : Nat → Byte :=
  fun x => if a ≤ x ∧ x < a + 4 then intByte v (x - a) else m x

/-- The call `memcpy(fs_data + dst, src, n)`. -/
def memcpy_in (m : Nat → Byte) (dst : Nat) (src : Nat → Byte) (n : Nat) : Nat → Byte :=
  fun x => if dst ≤ x ∧ x < dst + n then src (x - dst) else m x

/-- The call `memcpy(buffer, fs_data + src, n)`. -/
def memcpy_out (buffer : Nat → Byte) (m : Nat → Byte) (src : Nat) (n : Nat) : Nat → Byte :=
  fun x => if x < n then m (src + x) else buffer x

/-- Size in bytes of `fs_data`. -/
def fs_size (c : Config) : Nat := c.BLOCK_SIZE * c.DATA_BLOCKS

/-! ## C strings -/

/-- The character `s[k]` of a C string given by its characters; the terminating
    NUL follows the last one. -/
def charAt (s : List Byte) (k : Nat) : Byte := s.getD k 0

/-- The function `strlen`. -/
def strlen : List Byte → Nat
  | [] => 0
  | ch :: rest => if ch = 0 then 0 else strlen rest + 1

/-- The test `strncmp(fs_data + a, s, n) == 0`, comparing from index `k` on. -/
def strncmp_eq (m : Nat → Byte) (a : Nat) (s : List Byte) : Nat → Nat → Bool
  | 0, _ => true
  | n + 1, k =>
    if m (a + k) ≠ charAt s k then false
    else if m (a + k) = 0 then true
    else strncmp_eq m a s n (k + 1)

/-- The call `strncpy(fs_data + a, s, n)`: the characters of `s`, then NULs. -/
def strncpy_in (m : Nat → Byte) (a : Nat) (s : List Byte) (n : Nat) : Nat → Byte :=
  fun x => if a ≤ x ∧ x < a + n then (if x - a < strlen s then charAt s (x - a) else 0) else m x

/-! ## `state.c` -/

/-- The static helper `valid_inumber`. -/
def valid_inumber (c : Config) (inumber : Int) : Bool :=
  decide (0 ≤ inumber ∧ inumber < (c.INODE_TABLE_SIZE : Int))

/-- The static helper `valid_block_number`. -/
def valid_block_number (c : Config) (block_number : Int) : Bool :=
  decide (0 ≤ block_number ∧ block_number < (c.DATA_BLOCKS : Int))

/-- The static helper `valid_file_handle`. -/
def valid_file_handle (c : Config) (file_handle : Int) : Bool :=
  decide (0 ≤ file_handle ∧ file_handle < (c.MAX_OPEN_FILES : Int))

/-- The value of `sizeof(dir_entry_t)`: the field `char d_name[MAX_FILE_NAME]`
    followed by `int d_inumber`. -/
def sizeof_dir_entry (c : Config) : Nat := c.MAX_FILE_NAME + sizeof_int

/-- Modelled from the spec: the macro `MAX_DIR_ENTRIES` of `state.h` is missing;
    the directory's single block holds a fixed-capacity array of entries, as
    many as fit in it. -/
def MAX_DIR_ENTRIES (c : Config) : Nat := c.BLOCK_SIZE / sizeof_dir_entry c

/-- Byte offset of `dir_entry[i].d_name` for the entry array at `base`. -/
def d_name_at (c : Config) (base i : Nat) : Nat := base + i * sizeof_dir_entry c

/-- Byte offset of `dir_entry[i].d_inumber` for the entry array at `base`. -/
def d_inumber_at (c : Config) (base i : Nat) : Nat :=
  base + i * sizeof_dir_entry c + c.MAX_FILE_NAME

/-- The function `state_init`. -/
def state_init (c : Config) (s : State) : State × Int :=
  ({ s with
      freeinode_ts := fun i => if i < c.INODE_TABLE_SIZE then FREE else s.freeinode_ts i
      free_blocks := fun i => if i < c.DATA_BLOCKS then FREE else s.free_blocks i
      free_open_file_entries :=
        fun i => if i < c.MAX_OPEN_FILES then FREE else s.free_open_file_entries i }, 0)

/-- The scan of `data_block_alloc`, from index `i` on with `n` indices left. -/
def data_block_alloc_loop (s : State) : Nat → Nat → State × Int
  | 0, _ => (s, -1)
  | n + 1, i =>
    if s.free_blocks i = FREE then
      ({ s with free_blocks := setAt s.free_blocks i TAKEN }, (i : Int))
    else data_block_alloc_loop s n (i + 1)

/-- The function `data_block_alloc`. -/
def data_block_alloc (c : Config) (s : State) : State × Int :=
  data_block_alloc_loop s c.DATA_BLOCKS 0

/-- The function `data_block_free`. -/
def data_block_free (c : Config) (s : State) (block_number : Int) : State × Int :=
  if valid_block_number c block_number then
    ({ s with free_blocks := setAt s.free_blocks block_number.toNat FREE }, 0)
  else (s, -1)

/-- The function `data_block_get`: the offset of the block in `fs_data`. -/
def data_block_get (c : Config) (block_number : Int) : Option Nat :=
  if valid_block_number c block_number then some (block_number.toNat * c.BLOCK_SIZE)
  else none

/-- The read `pointer[j]` of an `int` through a pointer into `fs_data`. -/
def readIntAt (c : Config) (m : Nat → Byte) (pointer : Option Nat) (j : Nat) : Option Int :=
  match pointer with
  | none => none
  | some p =>
    if p + sizeof_int * j + sizeof_int ≤ fs_size c then some (readInt m (p + sizeof_int * j))
    else none

/-- The store `pointer[j] = v` of an `int` through a pointer into `fs_data`. -/
def writeIntAt (c : Config) (m : Nat → Byte) (pointer : Option Nat) (j : Nat) (v : Int) :
    Option (Nat → Byte) :=
  match pointer with
  | none => none
  | some p =>
    if p + sizeof_int * j + sizeof_int ≤ fs_size c then some (writeInt m (p + sizeof_int * j) v)
    else none

/-- The loop of `inode_create` that labels the directory entries `i`, `i + 1`,
    ... (`n` of them) as empty. -/
def init_dir_entries (c : Config) (base : Nat) : Nat → Nat → (Nat → Byte) → (Nat → Byte)
  | 0, _, m => m
  | n + 1, i, m => init_dir_entries c base n (i + 1) (writeInt m (d_inumber_at c base i) (-1))

/-- The body of `inode_create` once the free entry `inumber` is found. -/
def inode_create_at (c : Config) (s : State) (n_type : inode_type) (inumber : Nat) :
    State × Int :=
  let s1 : State := { s with freeinode_ts := setAt s.freeinode_ts inumber TAKEN }
  let ino := s1.inode_table inumber
  match n_type with
  | T_DIRECTORY =>
    let r := data_block_alloc c { s1 with
      inode_table := setAt s1.inode_table inumber { ino with i_node_type := T_DIRECTORY } }
    let s2 := r.1
    let b := r.2
    if b = -1 then
      ({ s2 with freeinode_ts := setAt s2.freeinode_ts inumber FREE }, -1)
    else
      let ino2 : inode_t :=
        { i_node_type := T_DIRECTORY, i_size := c.BLOCK_SIZE,
          i_data_block := setAt (setAt (s2.inode_table inumber).i_data_block 0 b) 1 (-1) }
      let s3 : State := { s2 with inode_table := setAt s2.inode_table inumber ino2 }
      match data_block_get c b with
      | none => ({ s3 with freeinode_ts := setAt s3.freeinode_ts inumber FREE }, -1)
      | some base =>
        ({ s3 with fs_data := init_dir_entries c base (MAX_DIR_ENTRIES c) 0 s3.fs_data },
          (inumber : Int))
  | T_FILE =>
    let ino2 : inode_t :=
      { i_node_type := T_FILE, i_size := 0, i_data_block := setAt ino.i_data_block 0 (-1) }
    ({ s1 with inode_table := setAt s1.inode_table inumber ino2 }, (inumber : Int))

/-- The scan of `inode_create`, from `inumber` on with `n` entries left. -/
def inode_create_loop (c : Config) (s : State) (n_type : inode_type) : Nat → Nat → State × Int
  | 0, _ => (s, -1)
  | n + 1, inumber =>
    if s.freeinode_ts inumber = FREE then inode_create_at c s n_type inumber
    else inode_create_loop c s n_type n (inumber + 1)

/-- The function `inode_create`. -/
def inode_create (c : Config) (s : State) (n_type : inode_type) : State × Int :=
  inode_create_loop c s n_type c.INODE_TABLE_SIZE 0

/-- The function `inode_get`: the index of the i-node in `inode_table`. -/
def inode_get (c : Config) (inumber : Int) : Option Nat :=
  if valid_inumber c inumber then some inumber.toNat else none

/-- The `while` loop of `inode_delete` over the copy `inode` of the i-node;
    the first argument bounds the number of iterations. -/
def inode_delete_loop (c : Config) (inode : inode_t) :
    Nat → State → Nat → Nat → Option Nat → Option (State × Int)
  | 0, _, _, _, _ => none
  | fuel + 1, s, i, j, pointer =>
    if j < c.BLOCK_SIZE / sizeof_int then
      if i > c.MAX_DIRECT_BLOCKS then
        match readIntAt c s.fs_data pointer j with
        | none => none
        | some v =>
          if v = -1 then some (s, 0)
          else
            let r := data_block_free c s v
            if r.2 = -1 then some (r.1, -1)
            else inode_delete_loop c inode fuel r.1 (i + 1) (j + 1) pointer
      else
        if inode.i_data_block i = -1 then some (s, 0)
        else if i = c.MAX_DIRECT_BLOCKS then
          inode_delete_loop c inode fuel s (i + 1) j (data_block_get c (inode.i_data_block i))
        else
          let r := data_block_free c s (inode.i_data_block i)
          if r.2 = -1 then some (r.1, -1)
          else inode_delete_loop c inode fuel r.1 (i + 1) j pointer
    else some (s, 0)

/-- An iteration bound for the walks over direct slots and indirect entries. -/
def walk_fuel (c : Config) : Nat := c.MAX_DIRECT_BLOCKS + c.BLOCK_SIZE / sizeof_int + 2

/-- The function `inode_delete`. -/
def inode_delete (c : Config) (s : State) (inumber : Int) : Option (State × Int) :=
  if ¬ valid_inumber c inumber ∨ s.freeinode_ts inumber.toNat = FREE then some (s, -1)
  else
    let inode := s.inode_table inumber.toNat
    let s1 : State := { s with freeinode_ts := setAt s.freeinode_ts inumber.toNat FREE }
    if (s1.inode_table inumber.toNat).i_size > 0 then
      inode_delete_loop c inode (walk_fuel c) s1 0 0 none
    else some (s1, 0)

/-- The scan of `add_dir_entry` for the first empty entry, from `i` on. -/
def add_dir_entry_loop (c : Config) (s : State) (base : Nat) (sub_inumber : Int)
    (sub_name : List Byte) : Nat → Nat → State × Int
  | 0, _ => (s, -1)
  | n + 1, i =>
    if readInt s.fs_data (d_inumber_at c base i) = -1 then
      let m1 := writeInt s.fs_data (d_inumber_at c base i) sub_inumber
      let m2 := strncpy_in m1 (d_name_at c base i) sub_name (c.MAX_FILE_NAME - 1)
      let m3 := setAt m2 (d_name_at c base i + (c.MAX_FILE_NAME - 1)) 0
      ({ s with fs_data := m3 }, 0)
    else add_dir_entry_loop c s base sub_inumber sub_name n (i + 1)

/-- The function `add_dir_entry`. -/
def add_dir_entry (c : Config) (s : State) (inumber sub_inumber : Int)
    (sub_name : List Byte) : State × Int :=
  if ¬ valid_inumber c inumber ∨ ¬ valid_inumber c sub_inumber then (s, -1)
  else if (s.inode_table inumber.toNat).i_node_type ≠ T_DIRECTORY then (s, -1)
  else if strlen sub_name = 0 then (s, -1)
  else
    match data_block_get c ((s.inode_table inumber.toNat).i_data_block 0) with
    | none => (s, -1)
    | some base => add_dir_entry_loop c s base sub_inumber sub_name (MAX_DIR_ENTRIES c) 0

/-- The scan of `find_in_dir`, from entry `i` on. -/
def find_in_dir_loop (c : Config) (m : Nat → Byte) (base : Nat) (sub_name : List Byte) :
    Nat → Nat → Int
  | 0, _ => -1
  | n + 1, i =>
    if readInt m (d_inumber_at c base i) ≠ -1 ∧
        strncmp_eq m (d_name_at c base i) sub_name c.MAX_FILE_NAME 0 = true then
      readInt m (d_inumber_at c base i)
    else find_in_dir_loop c m base sub_name n (i + 1)

/-- The function `find_in_dir`. -/
def find_in_dir (c : Config) (s : State) (inumber : Int) (sub_name : List Byte) : Int :=
  if ¬ valid_inumber c inumber ∨ (s.inode_table inumber.toNat).i_node_type ≠ T_DIRECTORY then -1
  else
    match data_block_get c ((s.inode_table inumber.toNat).i_data_block 0) with
    | none => -1
    | some base => find_in_dir_loop c s.fs_data base sub_name (MAX_DIR_ENTRIES c) 0

/-- The scan of `add_to_open_file_table`, from handle `i` on. -/
def add_to_open_file_table_loop (s : State) (inumber : Int) (offset : Nat) :
    Nat → Nat → State × Int
  | 0, _ => (s, -1)
  | n + 1, i =>
    if s.free_open_file_entries i = FREE then
      ({ s with
          free_open_file_entries := setAt s.free_open_file_entries i TAKEN
          open_file_table := setAt s.open_file_table i ⟨inumber, offset⟩ }, (i : Int))
    else add_to_open_file_table_loop s inumber offset n (i + 1)

/-- The function `add_to_open_file_table`. -/
def add_to_open_file_table (c : Config) (s : State) (inumber : Int) (offset : Nat) :
    State × Int :=
  add_to_open_file_table_loop s inumber offset c.MAX_OPEN_FILES 0

/-- The function `remove_from_open_file_table`. -/
def remove_from_open_file_table (c : Config) (s : State) (fhandle : Int) : State × Int :=
  if ¬ valid_file_handle c fhandle ∨ s.free_open_file_entries fhandle.toNat ≠ TAKEN then (s, -1)
  else ({ s with free_open_file_entries := setAt s.free_open_file_entries fhandle.toNat FREE }, 0)

/-- The function `get_open_file_entry`: the index of the entry in `open_file_table`. -/
def get_open_file_entry (c : Config) (fhandle : Int) : Option Nat :=
  if valid_file_handle c fhandle then some fhandle.toNat else none

/-- The allocation loop of `to_alloc`: `n` blocks still to reserve, `acc` the
    indices stored so far. -/
def to_alloc_loop (c : Config) : Nat → State → List Int → State × Option (List Int)
  | 0, s, acc => (s, some (acc ++ [-1]))
  | n + 1, s, acc =>
    let r := data_block_alloc c s
    if r.2 = -1 then (r.1, none) else to_alloc_loop c n r.1 (acc ++ [r.2])

/-- The function `to_alloc`; `none` is the `NULL` result. -/
def to_alloc (c : Config) (s : State) (to_write : Nat) : State × Option (List Int) :=
  let divided := if to_write > c.BLOCK_SIZE then to_write / c.BLOCK_SIZE else 1
  let size := if divided % 1 ≠ 0 then divided - divided % 1 + 1 else divided
  if to_write = 0 then (s, some [-1]) else to_alloc_loop c size s []

/-- The function `give_size`: the number of elements before the first `-1`. -/
def give_size : List Int → Nat
  | [] => 0
  | x :: rest => if x = -1 then 0 else give_size rest + 1

/-! ## `operations.c` -/

/-- The function `tfs_init`. -/
def tfs_init (c : Config) (s : State) : State × Int :=
  let r := state_init c s
  if r.2 = -1 then (r.1, -1)
  else
    let r2 := inode_create c r.1 T_DIRECTORY
    if r2.2 ≠ c.ROOT_DIR_INUM then (r2.1, -1) else (r2.1, 0)

/-- The static helper `valid_pathname`; `none` is the `NULL` pointer and `47`
    is the character `'/'`. -/
def valid_pathname (name : Option (List Byte)) : Bool :=
  match name with
  | none => false
  | some str => decide (strlen str > 1 ∧ charAt str 0 = 47)

/-- The function `tfs_lookup`. -/
def tfs_lookup (c : Config) (s : State) (name : Option (List Byte)) : Int :=
  match name with
  | none => -1
  | some str =>
    if ¬ valid_pathname (some str) then -1
    else find_in_dir c s c.ROOT_DIR_INUM (str.drop 1)

/-- The `while` loop of the truncation in `tfs_open`; the result carries the
    final value of `i`. -/
def truncate_loop (c : Config) (inode : inode_t) :
    Nat → State → Nat → Nat → Option Nat → Option (State × Nat)
  | 0, _, _, _, _ => none
  | fuel + 1, s, i, j, pointer =>
    if j < c.BLOCK_SIZE / sizeof_int then
      if i > c.MAX_DIRECT_BLOCKS then
        match readIntAt c s.fs_data pointer j with
        | none => none
        | some v =>
          if v = -1 then some (s, i)
          else truncate_loop c inode fuel (data_block_free c s v).1 (i + 1) (j + 1) pointer
      else
        if inode.i_data_block i = -1 then some (s, i)
        else if i = c.MAX_DIRECT_BLOCKS then
          truncate_loop c inode fuel s (i + 1) j (data_block_get c (inode.i_data_block i))
        else
          truncate_loop c inode fuel (data_block_free c s (inode.i_data_block i)).1 (i + 1) j
            pointer
    else some (s, i)

/-- The truncation block of `tfs_open` (lines 58-80) for the i-node at index `k`. -/
def tfs_truncate (c : Config) (s : State) (k : Nat) : Option State :=
  if (s.inode_table k).i_size > 0 then
    match truncate_loop c (s.inode_table k) (walk_fuel c) s 0 0 none with
    | none => none
    | some (s1, i) =>
      let s2 :=
        if i ≥ c.MAX_DIRECT_BLOCKS then
          (data_block_free c s1 ((s1.inode_table k).i_data_block c.MAX_DIRECT_BLOCKS)).1
        else s1
      some { s2 with
        inode_table := setAt s2.inode_table k { s2.inode_table k with i_size := 0 } }
  else some s

/-- The function `tfs_open`. -/
def tfs_open (c : Config) (s : State) (name : Option (List Byte)) (flags : Nat) :
    Option (State × Int) :=
  match name with
  | none => some (s, -1)
  | some str =>
    if ¬ valid_pathname (some str) then some (s, -1)
    else
      let inum := tfs_lookup c s (some str)
      if inum ≥ 0 then
        match inode_get c inum with
        | none => some (s, -1)
        | some k =>
          match (if flags &&& c.TFS_O_TRUNC ≠ 0 then tfs_truncate c s k else some s) with
          | none => none
          | some s1 =>
            let offset :=
              if flags &&& c.TFS_O_APPEND ≠ 0 then (s1.inode_table k).i_size % c.BLOCK_SIZE
              else 0
            some (add_to_open_file_table c s1 inum offset)
      else if flags &&& c.TFS_O_CREAT ≠ 0 then
        let r := inode_create c s T_FILE
        if r.2 = -1 then some (r.1, -1)
        else
          let r2 := add_dir_entry c r.1 c.ROOT_DIR_INUM r.2 (str.drop 1)
          if r2.2 = -1 then
            match inode_delete c r2.1 r.2 with
            | none => none
            | some r3 => some (r3.1, -1)
          else some (add_to_open_file_table c r2.1 r.2 0)
      else some (s, -1)

/-- The function `tfs_close`. -/
def tfs_close (c : Config) (s : State) (fhandle : Int) : State × Int :=
  remove_from_open_file_table c s fhandle

/-- The `while` loop of `tfs_write` (lines 134-145) counting the blocks in use:
    yields `index_direct`, `index_allocated` and `pointer`. -/
def write_walk (c : Config) (m : Nat → Byte) (inode : inode_t) :
    Nat → Nat → Nat → Option Nat → Option (Nat × Nat × Option Nat)
  | 0, _, _, _ => none
  | fuel + 1, index_direct, index_allocated, pointer =>
    if index_allocated < c.BLOCK_SIZE / sizeof_int then
      if index_direct < c.MAX_DIRECT_BLOCKS then
        if inode.i_data_block index_direct = -1 then some (index_direct, index_allocated, pointer)
        else write_walk c m inode fuel (index_direct + 1) index_allocated pointer
      else if index_direct = c.MAX_DIRECT_BLOCKS then
        write_walk c m inode fuel (index_direct + 1) index_allocated
          (data_block_get c (inode.i_data_block c.MAX_DIRECT_BLOCKS))
      else
        match readIntAt c m pointer index_allocated with
        | none => none
        | some v =>
          if v = -1 then some (index_direct, index_allocated, pointer)
          else write_walk c m inode fuel index_direct (index_allocated + 1) pointer
    else some (index_direct, index_allocated, pointer)

/-- What lines 128-158 of `tfs_write` hand on: the clamped `to_write`, the two
    indices, `pointer`, and the state and array returned by `to_alloc`. -/
structure write_plan where
  to_write : Nat
  index_direct : Nat
  index_allocated : Nat
  pointer : Option Nat
  state : State
  indexes : Option (List Int)

/-- Lines 128-158 of `tfs_write` for the i-node at index `k` and the cursor `off`. -/
def write_prepare (c : Config) (s : State) (k : Nat) (off : Nat) (to_write : Nat) :
    Option write_plan :=
  let size := c.BLOCK_SIZE / sizeof_int
  if (s.inode_table k).i_size = 0 then
    let cap := umul c.BLOCK_SIZE (uadd size c.MAX_DIRECT_BLOCKS)
    let tw := if to_write > cap then cap else to_write
    let r := to_alloc c s tw
    some ⟨tw, 0, 0, none, r.1, r.2⟩
  else
    match write_walk c s.fs_data (s.inode_table k) (walk_fuel c) 0 0 none with
    | none => none
    | some (id, ia, pointer) =>
      let id1 := usub id 1
      let bound := usub (uadd (umul c.BLOCK_SIZE
        (usub (uadd (usub size ia) c.MAX_DIRECT_BLOCKS) id1)) c.BLOCK_SIZE) off
      let tw := if to_write > bound then bound else to_write
      let temp := usub tw (usub c.BLOCK_SIZE off)
      let temp1 :=
        if temp > tw then 0
        else if temp ≥ c.MAX_DIRECT_BLOCKS * c.BLOCK_SIZE ∧ ia = 0 then uadd temp c.BLOCK_SIZE
        else temp
      let r := to_alloc c s temp1
      some ⟨tw, id1, ia, pointer, r.1, r.2⟩

/-- The `for` loop at line 161 of `tfs_write`: yields the slots, `index_direct`
    and `counter`. -/
def assign_direct (c : Config) (indexes : List Int) (size_indexes : Nat) :
    Nat → (Nat → Int) → Nat → Nat → (Nat → Int) × Nat × Nat
  | 0, slots, index_direct, counter => (slots, index_direct, counter)
  | fuel + 1, slots, index_direct, counter =>
    if index_direct < c.MAX_DIRECT_BLOCKS ∧ counter < size_indexes then
      assign_direct c indexes size_indexes fuel
        (setAt slots index_direct (indexes.getD counter 0)) (index_direct + 1) (counter + 1)
    else (slots, index_direct, counter)

/-- The `for` loop at line 168 of `tfs_write`: yields the memory and
    `index_allocated`. -/
def assign_indirect (c : Config) (indexes : List Int) (size_indexes : Nat)
    (pointer : Option Nat) : Nat → (Nat → Byte) → Nat → Nat → Option ((Nat → Byte) × Nat)
  | 0, m, index_allocated, _ => some (m, index_allocated)
  | fuel + 1, m, index_allocated, z =>
    if index_allocated < c.BLOCK_SIZE / sizeof_int ∧ z < size_indexes then
      match writeIntAt c m pointer index_allocated (indexes.getD z 0) with
      | none => none
      | some m1 => assign_indirect c indexes size_indexes pointer fuel m1 (index_allocated + 1) (z + 1)
    else some (m, index_allocated)

/-- What lines 160-175 of `tfs_write` hand on to the copy loop. -/
structure write_link where
  state : State
  index_direct : Nat
  index_allocated : Nat
  pointer : Option Nat

/-- Lines 160-175 of `tfs_write`: stores the new block indices in the i-node `k`. -/
def write_attach (c : Config) (s : State) (k : Nat) (indexes : List Int)
    (index_direct index_allocated : Nat) (pointer : Option Nat) : Option write_link :=
  let size := c.BLOCK_SIZE / sizeof_int
  let size_indexes := give_size indexes
  let a := assign_direct c indexes size_indexes size_indexes
    (s.inode_table k).i_data_block index_direct 0
  let id := a.2.1
  let counter := a.2.2
  if size_indexes ≠ 0 ∧ id ≠ c.MAX_DIRECT_BLOCKS ∧ id > c.MAX_DIRECT_BLOCKS then none
  else
    let slots :=
      if size_indexes ≠ 0 ∧ id ≠ c.MAX_DIRECT_BLOCKS then setAt a.1 id (-1) else a.1
    let s1 : State :=
      { s with inode_table := setAt s.inode_table k { s.inode_table k with i_data_block := slots } }
    let r : Option ((Nat → Byte) × Nat × Option Nat) :=
      if id = c.MAX_DIRECT_BLOCKS then
        let p := data_block_get c (slots c.MAX_DIRECT_BLOCKS)
        match assign_indirect c indexes size_indexes p size_indexes s1.fs_data
            index_allocated counter with
        | none => none
        | some (m, ia) =>
          if ia ≠ size then
            match writeIntAt c m p ia (-1) with
            | none => none
            | some m1 => some (m1, ia, p)
          else some (m, ia, p)
      else some (s1.fs_data, index_allocated, pointer)
    match r with
    | none => none
    | some (m, ia, p) =>
      some ⟨{ s1 with fs_data := m }, (if id > 0 ∧ id < c.MAX_DIRECT_BLOCKS then id - 1 else id),
        (if ia > 0 then ia - 1 else ia), p⟩

/-- The tail of one iteration of the copy loop of `tfs_write` once `block` is
    known: the cursor adjustment, the `memcpy` and the size update.  Yields the
    state and the value of `aux` before `aux -= BLOCK_SIZE`. -/
def write_copy (c : Config) (s : State) (k : Nat) (buffer : Nat → Byte) (to_write off : Nat)
    (aux temp block : Nat) : Option (State × Nat) :=
  let block1 := if aux = to_write then block + off else block
  let temp1 := if aux = to_write then usub temp off else temp
  let aux1 := if aux = to_write then uadd aux off else aux
  if block1 + temp1 ≤ fs_size c then
    some ({ s with
      fs_data := memcpy_in s.fs_data block1 buffer temp1
      inode_table := setAt s.inode_table k
        { s.inode_table k with i_size := uadd (s.inode_table k).i_size temp1 } }, aux1)
  else none

/-- The copy loop of `tfs_write` (lines 179-213); the result is `-1` when a
    block cannot be resolved and `0` when the loop ends. -/
def write_loop (c : Config) (k : Nat) (buffer : Nat → Byte) (to_write off : Nat) :
    Nat → State → Nat → Nat → Nat → Option Nat → Option (State × Int)
  | 0, _, _, _, _, _ => none
  | fuel + 1, s, aux, index_direct, index_allocated, pointer =>
    if aux > 0 ∧ aux ≤ to_write ∧ index_allocated < c.BLOCK_SIZE / sizeof_int then
      let temp := if aux / c.BLOCK_SIZE > 1 then c.BLOCK_SIZE else aux
      if index_direct < c.MAX_DIRECT_BLOCKS then
        match data_block_get c ((s.inode_table k).i_data_block index_direct) with
        | none => some (s, -1)
        | some block =>
          match write_copy c s k buffer to_write off aux temp block with
          | none => none
          | some (s1, aux1) =>
            write_loop c k buffer to_write off fuel s1 (usub aux1 c.BLOCK_SIZE)
              (index_direct + 1) index_allocated pointer
      else
        let pointer1 :=
          if index_direct = c.MAX_DIRECT_BLOCKS then
            data_block_get c ((s.inode_table k).i_data_block c.MAX_DIRECT_BLOCKS)
          else pointer
        match readIntAt c s.fs_data pointer1 index_allocated with
        | none => none
        | some v =>
          match data_block_get c v with
          | none => some (s, -1)
          | some block =>
            match write_copy c s k buffer to_write off aux temp block with
            | none => none
            | some (s1, aux1) =>
              write_loop c k buffer to_write off fuel s1 (usub aux1 c.BLOCK_SIZE)
                (index_direct + 1) (index_allocated + 1) pointer1
    else some (s, 0)

/-- The function `tfs_write`. -/
def tfs_write (c : Config) (s : State) (fhandle : Int) (buffer : Nat → Byte)
    (to_write : Nat) : Option (State × Int) :=
  match get_open_file_entry c fhandle with
  | none => some (s, -1)
  | some h =>
    match inode_get c (s.open_file_table h).of_inumber with
    | none => some (s, -1)
    | some k =>
      if to_write > 0 then
        let off := (s.open_file_table h).of_offset
        match write_prepare c s k off to_write with
        | none => none
        | some plan =>
          match plan.indexes with
          | none => some (plan.state, -1)
          | some indexes =>
            match write_attach c plan.state k indexes plan.index_direct plan.index_allocated
                plan.pointer with
            | none => none
            | some link =>
              match write_loop c k buffer plan.to_write off (plan.to_write + walk_fuel c) link.state
                  plan.to_write link.index_direct link.index_allocated link.pointer with
              | none => none
              | some (s2, r) =>
                if r = -1 then some (s2, -1)
                else
                  some ({ s2 with
                    open_file_table := setAt s2.open_file_table h
                      { s2.open_file_table h with of_offset := plan.to_write % c.BLOCK_SIZE } },
                    to_ssize plan.to_write)
      else some (s, to_ssize to_write)

/-- The copy loop of `tfs_read` (lines 243-268); yields the caller's buffer and
    `-1` when a block cannot be resolved, `0` when the loop ends. -/
def read_loop (c : Config) (s : State) (inode : inode_t) (off to_read : Nat) :
    Nat → (Nat → Byte) → Nat → Nat → Nat → Option Nat → Option Nat →
      Option ((Nat → Byte) × Int)
  | 0, _, _, _, _, _, _ => none
  | fuel + 1, buffer, aux, i, j, pointer, block =>
    if aux > 0 ∧ aux ≤ to_read then
      let temp := if aux / c.BLOCK_SIZE > 1 then c.BLOCK_SIZE else aux
      let pointer1 := if i < c.MAX_DIRECT_BLOCKS then pointer
        else if i = c.MAX_DIRECT_BLOCKS then block else pointer
      let got : Option (Option Nat) :=
        if i < c.MAX_DIRECT_BLOCKS then some (data_block_get c (inode.i_data_block i))
        else
          match readIntAt c s.fs_data pointer1 j with
          | none => none
          | some v => some (data_block_get c v)
      let j1 := if i < c.MAX_DIRECT_BLOCKS then j else j + 1
      match got with
      | none => none
      | some none => some (buffer, -1)
      | some (some b) =>
        let block1 := if aux = to_read then b + off else b
        let temp1 := if aux = to_read then usub temp off else temp
        let aux1 := if aux = to_read then uadd aux off else aux
        if block1 + temp1 ≤ fs_size c then
          read_loop c s inode off to_read fuel (memcpy_out buffer s.fs_data block1 temp1)
            (usub aux1 c.BLOCK_SIZE) (i + 1) j1 pointer1 (some block1)
        else none
    else some (buffer, 0)

/-- The function `tfs_read`: yields the caller's buffer after the call and the
    returned count; no table is written. -/
def tfs_read (c : Config) (s : State) (fhandle : Int) (buffer : Nat → Byte) (len : Nat) :
    Option ((Nat → Byte) × Int) :=
  match get_open_file_entry c fhandle with
  | none => some (buffer, -1)
  | some h =>
    match inode_get c (s.open_file_table h).of_inumber with
    | none => some (buffer, -1)
    | some k =>
      let inode := s.inode_table k
      let off := (s.open_file_table h).of_offset
      let to_read0 := usub inode.i_size off
      let to_read := if to_read0 > len then len else to_read0
      if to_read > 0 then
        match read_loop c s inode off to_read (to_read + fs_size c + walk_fuel c) buffer to_read 0 0 none
            none with
        | none => none
        | some (buffer1, r) =>
          if r = -1 then some (buffer1, -1) else some (buffer1, to_ssize to_read)
      else some (buffer, to_ssize to_read)

/-- The function `tfs_copy_to_external_fs`.  The host file system is outside the
    model: `fopen_ok` says whether `fopen(dest_path, "w")` succeeds and `array`
    is the content of the freshly allocated buffer; `fwrite` and `fclose`
    succeed.  The third component is what was written to the host file. -/
def tfs_copy_to_external_fs (c : Config) (s : State) (source_path : Option (List Byte))
    (fopen_ok : Bool) (array : Nat → Byte) : Option (State × Int × Option (List Byte)) :=
  if ¬ valid_pathname source_path then some (s, -1, none)
  else
    let file_inum := tfs_lookup c s source_path
    if file_inum = -1 then some (s, -1, none)
    else if ¬ fopen_ok then some (s, -1, none)
    else
      match inode_get c file_inum with
      | none => some (s, -1, none)
      | some k =>
        let to_write := (s.inode_table k).i_size
        match tfs_open c s source_path 0 with
        | none => none
        | some (s1, sourcefhandle) =>
          if sourcefhandle = -1 then some (s1, -1, none)
          else
            match tfs_read c s1 sourcefhandle array to_write with
            | none => none
            | some (array1, r) =>
              if r = -1 then some (s1, -1, none)
              else
                let written := (List.range to_write).map array1
                let r2 := tfs_close c s1 sourcefhandle
                if r2.2 = -1 then some (r2.1, -1, some written)
                else some (r2.1, 0, some written)

/-! ## The lock calls of `state.c` and `operations.c` -/

/-- A `pthread_rwlock_t` of the program: one of the three global locks of
    `state.c`, or the field `rwlock` of the i-node at an index of `inode_table`. -/
inductive lock_name where
  | lock_inodetable
  | lock_datablocks
  | lock_openfiletable
  | rwlock (inumber : Nat)
  deriving DecidableEq, Repr

/-- A call of `pthread_rwlock_wrlock`, `pthread_rwlock_rdlock` or
    `pthread_rwlock_unlock` on a lock. -/
inductive lock_call where
  | wrlock (l : lock_name)
  | rdlock (l : lock_name)
  | unlock (l : lock_name)
  deriving DecidableEq, Repr

open lock_name lock_call

/-- The lock calls of `data_block_alloc`, the same on both of its paths. -/
def data_block_alloc_locks : List lock_call :=
  [wrlock lock_datablocks, unlock lock_datablocks]

/-- The lock calls of `find_in_dir`: none on the early returns, the pair around
    the scan otherwise. -/
def find_in_dir_locks (c : Config) (s : State) (inumber : Int) : List lock_call :=
  if ¬ valid_inumber c inumber ∨ (s.inode_table inumber.toNat).i_node_type ≠ T_DIRECTORY then []
  else
    match data_block_get c ((s.inode_table inumber.toNat).i_data_block 0) with
    | none => []
    | some _ => [wrlock lock_datablocks, unlock lock_datablocks]

/-- The lock calls of `tfs_lookup`. -/
def tfs_lookup_locks (c : Config) (s : State) (name : Option (List Byte)) : List lock_call :=
  if ¬ valid_pathname name then [] else find_in_dir_locks c s c.ROOT_DIR_INUM

/-- The lock calls of `add_dir_entry`: none on the early returns, the pair
    around the scan otherwise. -/
def add_dir_entry_locks (c : Config) (s : State) (inumber sub_inumber : Int)
    (sub_name : List Byte) : List lock_call :=
  if ¬ valid_inumber c inumber ∨ ¬ valid_inumber c sub_inumber then []
  else if (s.inode_table inumber.toNat).i_node_type ≠ T_DIRECTORY then []
  else if strlen sub_name = 0 then []
  else
    match data_block_get c ((s.inode_table inumber.toNat).i_data_block 0) with
    | none => []
    | some _ => [wrlock lock_datablocks, unlock lock_datablocks]

/-- The lock calls of `add_to_open_file_table`, the same on both of its paths. -/
def add_to_open_file_table_locks : List lock_call :=
  [wrlock lock_openfiletable, unlock lock_openfiletable]

/-- The lock calls of `inode_delete`: both locks are taken at lines 169-170 and
    released on each of the three ways out (lines 177-178, 186-187, 194-195). -/
def inode_delete_locks (c : Config) (s : State) (inumber : Int) : Option (List lock_call) :=
  if ¬ valid_inumber c inumber ∨ s.freeinode_ts inumber.toNat = FREE then some []
  else
    match inode_delete c s inumber with
    | none => none
    | some _ =>
      some [wrlock lock_datablocks, wrlock (rwlock inumber.toNat), unlock lock_datablocks,
        unlock (rwlock inumber.toNat)]

/-- The lock calls of the allocation loop of `to_alloc`: one pair for each call
    of `data_block_alloc`, the failing one included. -/
def to_alloc_locks_loop (c : Config) : Nat → State → List lock_call
  | 0, _ => []
  | n + 1, s =>
    let r := data_block_alloc c s
    data_block_alloc_locks ++ (if r.2 = -1 then [] else to_alloc_locks_loop c n r.1)

/-- The lock calls of `to_alloc`. -/
def to_alloc_locks (c : Config) (s : State) (to_write : Nat) : List lock_call :=
  let divided := if to_write > c.BLOCK_SIZE then to_write / c.BLOCK_SIZE else 1
  let size := if divided % 1 ≠ 0 then divided - divided % 1 + 1 else divided
  if to_write = 0 then [] else to_alloc_locks_loop c size s

/-- The lock calls of `tfs_open`.  With `TFS_O_TRUNC` the two locks are taken
    inside `if (inode->i_size > 0)` (lines 61-62) and released after it (lines
    78-79); `inode_create(T_FILE)` makes no lock call. -/
def tfs_open_locks (c : Config) (s : State) (name : Option (List Byte)) (flags : Nat) :
    Option (List lock_call) :=
  match name with
  | none => some []
  | some str =>
    if ¬ valid_pathname (some str) then some []
    else
      let inum := tfs_lookup c s (some str)
      let looked := tfs_lookup_locks c s (some str)
      if inum ≥ 0 then
        match inode_get c inum with
        | none => some looked
        | some k =>
          let truncation : Option (List lock_call) :=
            if flags &&& c.TFS_O_TRUNC ≠ 0 then
              if (s.inode_table k).i_size > 0 then
                match tfs_truncate c s k with
                | none => none
                | some _ =>
                  some [wrlock lock_datablocks, wrlock (rwlock k), unlock (rwlock k),
                    unlock lock_datablocks]
              else some [unlock (rwlock k), unlock lock_datablocks]
            else some []
          match truncation with
          | none => none
          | some t => some (looked ++ t ++ add_to_open_file_table_locks)
      else if flags &&& c.TFS_O_CREAT ≠ 0 then
        let r := inode_create c s T_FILE
        if r.2 = -1 then some looked
        else
          let r2 := add_dir_entry c r.1 c.ROOT_DIR_INUM r.2 (str.drop 1)
          let added := add_dir_entry_locks c r.1 c.ROOT_DIR_INUM r.2 (str.drop 1)
          if r2.2 = -1 then
            match inode_delete_locks c r2.1 r.2 with
            | none => none
            | some d => some (looked ++ added ++ d)
          else some (looked ++ added ++ add_to_open_file_table_locks)
      else some looked

/-- The argument of `to_alloc` in `tfs_write` (lines 131 and 153-157), from the
    clamped `to_write`, the cursor and `index_allocated`. -/
def to_alloc_argument (c : Config) (s : State) (k : Nat) (off : Nat) (plan : write_plan) : Nat :=
  if (s.inode_table k).i_size = 0 then plan.to_write
  else
    let temp := usub plan.to_write (usub c.BLOCK_SIZE off)
    if temp > plan.to_write then 0
    else if temp ≥ c.MAX_DIRECT_BLOCKS * c.BLOCK_SIZE ∧ plan.index_allocated = 0 then
      uadd temp c.BLOCK_SIZE
    else temp

/-- The lock calls of `tfs_write`: the i-node's lock (line 127), the read lock
    around the walk (lines 133-146), those of `to_alloc`, the pair around the
    stores into the indirect block (lines 166-172), and the block-pool lock of
    the copy loop (line 178), released with the i-node's lock on both ways out
    of the loop.  The return at line 176 makes no call. -/
def tfs_write_locks (c : Config) (s : State) (fhandle : Int) (buffer : Nat → Byte)
    (to_write : Nat) : Option (List lock_call) :=
  match get_open_file_entry c fhandle with
  | none => some []
  | some h =>
    match inode_get c (s.open_file_table h).of_inumber with
    | none => some []
    | some k =>
      if to_write > 0 then
        let off := (s.open_file_table h).of_offset
        match write_prepare c s k off to_write with
        | none => none
        | some plan =>
          let walked :=
            if (s.inode_table k).i_size = 0 then []
            else [rdlock lock_datablocks, unlock lock_datablocks]
          let allocated := to_alloc_locks c s (to_alloc_argument c s k off plan)
          match plan.indexes with
          | none => some ([wrlock (rwlock k)] ++ walked ++ allocated)
          | some indexes =>
            let size_indexes := give_size indexes
            let a := assign_direct c indexes size_indexes size_indexes
              (plan.state.inode_table k).i_data_block plan.index_direct 0
            let stored :=
              if a.2.1 = c.MAX_DIRECT_BLOCKS then [wrlock lock_datablocks, unlock lock_datablocks]
              else []
            match tfs_write c s fhandle buffer to_write with
            | none => none
            | some _ =>
              some ([wrlock (rwlock k)] ++ walked ++ allocated ++ stored ++
                [wrlock lock_datablocks, unlock lock_datablocks, unlock (rwlock k)])
      else some []

/-- The lock calls of `tfs_read`: both locks are taken at lines 241-242 and
    released on each of the three ways out of the loop. -/
def tfs_read_locks (c : Config) (s : State) (fhandle : Int) (buffer : Nat → Byte) (len : Nat) :
    Option (List lock_call) :=
  match get_open_file_entry c fhandle with
  | none => some []
  | some h =>
    match inode_get c (s.open_file_table h).of_inumber with
    | none => some []
    | some k =>
      let to_read0 := usub (s.inode_table k).i_size (s.open_file_table h).of_offset
      let to_read := if to_read0 > len then len else to_read0
      if to_read > 0 then
        match tfs_read c s fhandle buffer len with
        | none => none
        | some _ =>
          some [wrlock (rwlock k), wrlock lock_datablocks, unlock lock_datablocks,
            unlock (rwlock k)]
      else some []

/-- The locks the caller holds after one lock call, from those it held before;
    `none` when the call unlocks a lock the caller does not hold. -/
def lock_step (held : List lock_name) : lock_call → Option (List lock_name)
  | wrlock l => some (l :: held)
  | rdlock l => some (l :: held)
  | unlock l => if l ∈ held then some (held.erase l) else none

/-- The locks the caller holds after the lock calls of the list. -/
def run_locks : List lock_call → List lock_name → Option (List lock_name)
  | [], held => some held
  | call :: rest, held =>
    match lock_step held call with
    | none => none
    | some held1 => run_locks rest held1

/-- The pairs `(a, b)` such that the lock `b` is acquired while `a` is held, in
    the order of the acquisitions. -/
def nested_locks : List lock_call → List lock_name → List (lock_name × lock_name)
  | [], _ => []
  | wrlock l :: rest, held => held.map (fun a => (a, l)) ++ nested_locks rest (l :: held)
  | rdlock l :: rest, held => held.map (fun a => (a, l)) ++ nested_locks rest (l :: held)
  | unlock l :: rest, held => nested_locks rest (held.erase l)

/-! ## Vocabulary of the statements -/

/-- The entry array of the root directory: the offset of the block named by slot
    `0` of the i-node `ROOT_DIR_INUM`, when that i-node is a directory. -/
def root_dir_base (c : Config) (s : State) : Option Nat :=
  if valid_inumber c c.ROOT_DIR_INUM = true ∧
      (s.inode_table c.ROOT_DIR_INUM.toNat).i_node_type = T_DIRECTORY then
    data_block_get c ((s.inode_table c.ROOT_DIR_INUM.toNat).i_data_block 0)
  else none

/-- Entry `i` of the entry array at `base` is in use and its stored name
    compares equal to `sub_name`. -/
def entry_matches (c : Config) (m : Nat → Byte) (base : Nat) (sub_name : List Byte)
    (i : Nat) : Prop :=
  readInt m (d_inumber_at c base i) ≠ -1 ∧
    strncmp_eq m (d_name_at c base i) sub_name c.MAX_FILE_NAME 0 = true

/-- Some entry of the root directory is in use under the name `sub_name`. -/
def name_in_root (c : Config) (s : State) (sub_name : List Byte) : Prop :=
  ∃ base, root_dir_base c s = some base ∧
    ∃ i, i < MAX_DIR_ENTRIES c ∧ entry_matches c s.fs_data base sub_name i

/-- The memory after `add_dir_entry` fills entry `i` of the array at `base`. -/
def filled_entry (c : Config) (m : Nat → Byte) (base i : Nat) (sub_inumber : Int)
    (sub_name : List Byte) : Nat → Byte :=
  setAt (strncpy_in (writeInt m (d_inumber_at c base i) sub_inumber) (d_name_at c base i)
    sub_name (c.MAX_FILE_NAME - 1)) (d_name_at c base i + (c.MAX_FILE_NAME - 1)) 0

/-- Block `n` sits in a direct slot `i1 >= i` of the i-node, no slot from `i`
    to `i1` holding the end mark `-1`. -/
def direct_from (c : Config) (inode : inode_t) (i n : Nat) : Prop :=
  ∃ i1, i ≤ i1 ∧ i1 < c.MAX_DIRECT_BLOCKS ∧
    (∀ i2, i ≤ i2 → i2 ≤ i1 → inode.i_data_block i2 ≠ -1) ∧ inode.i_data_block i1 = (n : Int)

/-- Block `n` is listed in entry `j1 >= j` of the index array at offset `p`, no
    entry from `j` to `j1` holding the end mark `-1`. -/
def indirect_from (c : Config) (m : Nat → Byte) (p j n : Nat) : Prop :=
  ∃ j1, j ≤ j1 ∧ j1 < c.BLOCK_SIZE / sizeof_int ∧
    (∀ j2, j ≤ j2 → j2 ≤ j1 → readInt m (p + sizeof_int * j2) ≠ -1) ∧
    readInt m (p + sizeof_int * j1) = (n : Int)

/-- Block `n` belongs to the i-node at index `k`: it sits in a used direct
    slot, or it is the indirect block (slot `MAX_DIRECT_BLOCKS`, all direct slots
    being used), or it is listed in the indirect block. -/
def owns_block (c : Config) (s : State) (k n : Nat) : Prop :=
  direct_from c (s.inode_table k) 0 n ∨
  ((∀ i, i < c.MAX_DIRECT_BLOCKS → (s.inode_table k).i_data_block i ≠ -1) ∧
    (s.inode_table k).i_data_block c.MAX_DIRECT_BLOCKS = (n : Int)) ∨
  ((∀ i, i ≤ c.MAX_DIRECT_BLOCKS → (s.inode_table k).i_data_block i ≠ -1) ∧
    ∃ p, data_block_get c ((s.inode_table k).i_data_block c.MAX_DIRECT_BLOCKS) = some p ∧
      indirect_from c s.fs_data p 0 n)

/-- The free map `fb1` is `fb` with exactly the entries in `P` set to `FREE`. -/
def frees_exactly (P : Nat → Prop) (fb fb1 : Nat → allocation_state_t) : Prop :=
  ∀ n, (P n → fb1 n = FREE) ∧ (¬ P n → fb1 n = fb n)

/-- A build on which scenario A can run: the root is i-node 0, there is room
    for a second i-node, a second block, one handle and one directory entry, the
    name `"f1"` fits `d_name`, a file has at least two direct slots,
    `TFS_O_CREAT` is a non-zero flag, and the table sizes are values of `int`. -/
structure Config.WF (c : Config) : Prop where
  root : c.ROOT_DIR_INUM = 0
  inodes : 2 ≤ c.INODE_TABLE_SIZE
  blocks : 2 ≤ c.DATA_BLOCKS
  handles : 1 ≤ c.MAX_OPEN_FILES
  direct : 2 ≤ c.MAX_DIRECT_BLOCKS
  name : 3 ≤ c.MAX_FILE_NAME
  entry : c.MAX_FILE_NAME + 4 ≤ c.BLOCK_SIZE
  creat : c.TFS_O_CREAT ≠ 0
  fits : c.BLOCK_SIZE * c.DATA_BLOCKS < 2147483648
  inodes_int : c.INODE_TABLE_SIZE < 2147483648
  direct_int : c.MAX_DIRECT_BLOCKS < 2147483648

/-- The tables right after `tfs_init`: only i-node 0, the root directory, and
    only block 0, its entry array, are taken; every directory entry is empty;
    no file is open. -/
structure Fresh (c : Config) (s : State) : Prop where
  inode0 : s.freeinode_ts 0 = TAKEN
  inodes : ∀ i, 0 < i → i < c.INODE_TABLE_SIZE → s.freeinode_ts i = FREE
  block0 : s.free_blocks 0 = TAKEN
  blocks : ∀ i, 0 < i → i < c.DATA_BLOCKS → s.free_blocks i = FREE
  root_type : (s.inode_table 0).i_node_type = T_DIRECTORY
  root_size : (s.inode_table 0).i_size = c.BLOCK_SIZE
  root_block : (s.inode_table 0).i_data_block 0 = 0
  entries : ∀ i, i < MAX_DIR_ENTRIES c → readInt s.fs_data (d_inumber_at c 0 i) = -1
  handles : ∀ i, i < c.MAX_OPEN_FILES → s.free_open_file_entries i = FREE

/-- The path `"/f1"`. -/
def path_f1 : List Byte := [47, 102, 49]

/-- The path `"/f2"`. -/
def path_f2 : List Byte := [47, 102, 50]

/-- A buffer holding the byte `b` everywhere. -/
def const_buffer (b : Byte) : Nat → Byte := fun _ => b

/-- The call `tfs_init` on zeroed storage. -/
def fresh_fs (c : Config) : State := (tfs_init c zeroState).1

/-- The calls `tfs_init` on zeroed storage and `tfs_open("/f1", TFS_O_CREAT)`. -/
def created_f1 (c : Config) : Option (State × Int) :=
  tfs_open c (fresh_fs c) (some path_f1) c.TFS_O_CREAT

/-- The field `i_size` of the i-node behind the open-file entry `fhandle`. -/
def size_of_handle (s : State) (fhandle : Int) : Nat :=
  (s.inode_table (s.open_file_table fhandle.toNat).of_inumber.toNat).i_size

/-- The scenario of `test_battery2.c` with two chunks of one byte, `a` then `b`:
    create `"/f1"`, write both chunks through one handle, close, reopen with
    flags `0`, read twice.  Yields the counts returned by the two writes and the
    two reads and the byte delivered by each read. -/
def two_chunks (c : Config) (a b : Byte) : Option (Int × Int × Int × Int × Byte × Byte) :=
  match created_f1 c with
  | none => none
  | some (s2, h) =>
    match tfs_write c s2 h (const_buffer a) 1 with
    | none => none
    | some (s3, w1) =>
      match tfs_write c s3 h (const_buffer b) 1 with
      | none => none
      | some (s4, w2) =>
        match tfs_open c (tfs_close c s4 h).1 (some path_f1) 0 with
        | none => none
        | some (s6, h2) =>
          match tfs_read c s6 h2 (const_buffer 0) 1 with
          | none => none
          | some (o1, r1) =>
            match tfs_read c s6 h2 o1 1 with
            | none => none
            | some (o2, r2) => some (w1, w2, r1, r2, o1 0, o2 0)

/-- Two writes of `n` bytes through the handle of a new file `"/f1"`: yields
    `i_size` before the second write, the count it returns and `i_size` after it. -/
def second_write (c : Config) (n : Nat) : Option (Nat × Int × Nat) :=
  match created_f1 c with
  | none => none
  | some (s2, h) =>
    match tfs_write c s2 h (const_buffer 65) n with
    | none => none
    | some (s3, _) =>
      match tfs_write c s3 h (const_buffer 66) n with
      | none => none
      | some (s4, w2) => some (size_of_handle s3 h, w2, size_of_handle s4 h)

/-- One write of `n` bytes to a new file `"/f1"`: yields the returned count and
    `i_size` after the call. -/
def first_write (c : Config) (n : Nat) : Option (Int × Nat) :=
  match created_f1 c with
  | none => none
  | some (s2, h) =>
    match tfs_write c s2 h (const_buffer 66) n with
    | none => none
    | some (s3, r) => some (r, size_of_handle s3 h)

/-- Writes `n` bytes to a new file `"/f1"` through the handle `h`, truncates the
    file by `tfs_open("/f1", TFS_O_TRUNC)` and reads `len` bytes through `h`:
    yields the cursor of `h` and `i_size` before the read and the count the read
    returns. -/
def read_after_truncate (c : Config) (n len : Nat) : Option (Nat × Nat × Int) :=
  match created_f1 c with
  | none => none
  | some (s2, h) =>
    match tfs_write c s2 h (const_buffer 65) n with
    | none => none
    | some (s3, _) =>
      match tfs_open c s3 (some path_f1) c.TFS_O_TRUNC with
      | none => none
      | some (s4, _) =>
        match tfs_read c s4 h (const_buffer 0) len with
        | none => none
        | some (_, r) => some ((s4.open_file_table h.toNat).of_offset, size_of_handle s4 h, r)

/-- The path `"/"` followed by 40 times the character `'a'`. -/
def long_path : List Byte := 47 :: List.replicate 40 97

/-- The call `tfs_open(path, TFS_O_CREAT)` right after `tfs_init`: yields the
    result of `tfs_lookup(path)` before the call, the returned handle, the
    i-number in the open-file entry of that handle and the result of
    `tfs_lookup(path)` after the call. -/
def create_then_lookup (c : Config) (path : List Byte) : Option (Int × Int × Int × Int) :=
  match tfs_open c (fresh_fs c) (some path) c.TFS_O_CREAT with
  | none => none
  | some (s, h) =>
    some (tfs_lookup c (fresh_fs c) (some path), h, (s.open_file_table h.toNat).of_inumber,
      tfs_lookup c s (some path))

/-- The file system after `tfs_init`, `tfs_open("/f1", TFS_O_CREAT)` and a
    `tfs_write` of one byte through the returned handle. -/
def written_f1 (c : Config) : State :=
  match created_f1 c with
  | none => fresh_fs c
  | some (s, h) =>
    match tfs_write c s h (const_buffer 65) 1 with
    | none => s
    | some r => r.1

/-- A small build: blocks of 16 bytes, a root directory of one entry and an
    indirect block of four entries. -/
def tinyConfig : Config where
  BLOCK_SIZE := 16
  DATA_BLOCKS := 8
  INODE_TABLE_SIZE := 4
  MAX_OPEN_FILES := 2
  MAX_FILE_NAME := 8
  MAX_DIRECT_BLOCKS := 2
  ROOT_DIR_INUM := 0
  TFS_O_CREAT := 1
  TFS_O_TRUNC := 2
  TFS_O_APPEND := 4

/-- The small build after `tfs_init` and the creation of `"/f1"`, which fills
    its root directory. -/
def full_dir_fs : State :=
  match created_f1 tinyConfig with
  | some r => r.1
  | none => fresh_fs tinyConfig

/-- The walk over the blocks of the i-node comes to an end without leaving the
    pool: a slot up to `MAX_DIRECT_BLOCKS` holds the end mark `-1`, or the last
    slot names a block of the pool (whose index array is then walked). -/
def walk_ends (c : Config) (inode : inode_t) : Prop :=
  (∃ i, i ≤ c.MAX_DIRECT_BLOCKS ∧ inode.i_data_block i = -1) ∨
    valid_block_number c (inode.i_data_block c.MAX_DIRECT_BLOCKS) = true

/-- A call on the i-node table: `inode_create(T_FILE)` or `inode_delete(inumber)`. -/
inductive inode_call where
  | create
  | delete (inumber : Int)

/-- The calls of the list, run one after the other from the state `s`. -/
def inode_calls (c : Config) : List inode_call → State → Option State
  | [], s => some s
  | inode_call.create :: rest, s => inode_calls c rest (inode_create c s T_FILE).1
  | inode_call.delete inumber :: rest, s =>
    match inode_delete c s inumber with
    | none => none
    | some r => inode_calls c rest r.1

/-- The number of entries of `freeinode_ts` that are `TAKEN`. -/
def taken_inodes (c : Config) (s : State) : Nat :=
  ((List.range c.INODE_TABLE_SIZE).filter (fun i => decide (s.freeinode_ts i = TAKEN))).length

/-- Every i-node of the table that is `TAKEN` has size 0. -/
def taken_inodes_empty (c : Config) (s : State) : Prop :=
  ∀ i, i < c.INODE_TABLE_SIZE → s.freeinode_ts i = TAKEN → (s.inode_table i).i_size = 0

/-- The calls `tfs_open(path, flags)`, `m` times one after the other: yields the
    final state and the returned handles in call order. -/
def open_repeat (c : Config) (path : List Byte) (flags : Nat) :
    Nat → State → Option (State × List Int)
  | 0, s => some (s, [])
  | m + 1, s =>
    match tfs_open c s (some path) flags with
    | none => none
    | some (s1, h) =>
      match open_repeat c path flags m s1 with
      | none => none
      | some (s2, hs) => some (s2, h :: hs)

/-- The root directory holds the file `name` as i-node 1 in its entry 0 and no
    other entry; the file is empty; every open handle is on i-node 1. -/
structure OneFile (c : Config) (name : List Byte) (s : State) : Prop where
  root_type : (s.inode_table 0).i_node_type = T_DIRECTORY
  root_block : (s.inode_table 0).i_data_block 0 = 0
  entry0 : entry_matches c s.fs_data 0 name 0
  inum0 : readInt s.fs_data (d_inumber_at c 0 0) = 1
  others : ∀ e, 0 < e → e < MAX_DIR_ENTRIES c → readInt s.fs_data (d_inumber_at c 0 e) = -1
  size : (s.inode_table 1).i_size = 0
  handles : ∀ h, h < c.MAX_OPEN_FILES → s.free_open_file_entries h = TAKEN →
    (s.open_file_table h).of_inumber = 1

/-- Creates `"/f1"`, closes its handle `h` and then uses `h` again: yields `h`,
    the results of `tfs_close(h)`, of a `tfs_read(h, out, 1)` and of a
    `tfs_write(h, "A", 1)` that both follow the close, and `i_size` of the file
    and the state of block 1 after that write. -/
def use_after_close (c : Config) : Option (Int × Int × Int × Int × Nat × allocation_state_t) :=
  match created_f1 c with
  | none => none
  | some (s2, h) =>
    let r := tfs_close c s2 h
    match tfs_read c r.1 h (const_buffer 0) 1 with
    | none => none
    | some (_, rd) =>
      match tfs_write c r.1 h (const_buffer 65) 1 with
      | none => none
      | some (s4, w) => some (h, r.2, rd, w, size_of_handle s4 h, s4.free_blocks 1)

/-- The call `tfs_write(1, "A", 1)` right after `tfs_init` on zeroed storage, the
    handle 1 never having been opened: yields the state of open-file entry 1
    before the call, the returned count, and the first byte of block 0 (the
    entry array of the root directory) and `i_size` of i-node 0 after the call. -/
def write_unopened (c : Config) : Option (allocation_state_t × Int × Byte × Nat) :=
  match tfs_write c (fresh_fs c) 1 (const_buffer 65) 1 with
  | none => none
  | some (s1, w) =>
    some ((fresh_fs c).free_open_file_entries 1, w, s1.fs_data 0, (s1.inode_table 0).i_size)

/-- Two writes of `BLOCK_SIZE` bytes each through the handle of a new file
    `"/f1"`: yields the two returned counts and, for i-node 1 after the calls,
    its state in `freeinode_ts`, `i_size` and the slots 0 and 1. -/
def two_full_writes (c : Config) : Option (Int × Int × allocation_state_t × Nat × Int × Int) :=
  match created_f1 c with
  | none => none
  | some (s2, h) =>
    match tfs_write c s2 h (const_buffer 65) c.BLOCK_SIZE with
    | none => none
    | some (s3, w1) =>
      match tfs_write c s3 h (const_buffer 66) c.BLOCK_SIZE with
      | none => none
      | some (s4, w2) =>
        some (w1, w2, s4.freeinode_ts 1, (s4.inode_table 1).i_size,
          (s4.inode_table 1).i_data_block 0, (s4.inode_table 1).i_data_block 1)

/-- The first `n` entries of a free map. -/
def map_entries (fb : Nat → allocation_state_t) (n : Nat) : List allocation_state_t :=
  (List.range n).map fb

/-- A write of `n1` bytes and then one of `n2` bytes through the handle of a new
    file `"/f1"`: yields the count the second call returns, the block free map
    before and after that call, and `i_size` with the slots of i-node 1 before
    and after it. -/
def exhausting_write (c : Config) (n1 n2 : Nat) :
    Option (Int × List (List allocation_state_t) × List (Nat × List Int)) :=
  match created_f1 c with
  | none => none
  | some (s2, h) =>
    match tfs_write c s2 h (const_buffer 65) n1 with
    | none => none
    | some (s3, _) =>
      match tfs_write c s3 h (const_buffer 66) n2 with
      | none => none
      | some (s4, w2) =>
        some (w2, [map_entries s3.free_blocks c.DATA_BLOCKS, map_entries s4.free_blocks c.DATA_BLOCKS],
          [((s3.inode_table 1).i_size,
              (List.range (c.MAX_DIRECT_BLOCKS + 1)).map (s3.inode_table 1).i_data_block),
            ((s4.inode_table 1).i_size,
              (List.range (c.MAX_DIRECT_BLOCKS + 1)).map (s4.inode_table 1).i_data_block)])

/-- Two calls `tfs_open(path, TFS_O_CREAT)` right after `tfs_init`: yields the
    two handles, the i-numbers in their open-file entries, the i-numbers of the
    directory entries 0 and 1, and whether the `MAX_FILE_NAME` bytes of `d_name`
    are the same in both entries. -/
def create_twice (c : Config) (path : List Byte) :
    Option (List Int × List Int × List Int × Bool) :=
  match tfs_open c (fresh_fs c) (some path) c.TFS_O_CREAT with
  | none => none
  | some (s1, h1) =>
    match tfs_open c s1 (some path) c.TFS_O_CREAT with
    | none => none
    | some (s2, h2) =>
      some ([h1, h2],
        [(s2.open_file_table h1.toNat).of_inumber, (s2.open_file_table h2.toNat).of_inumber],
        [readInt s2.fs_data (d_inumber_at c 0 0), readInt s2.fs_data (d_inumber_at c 0 1)],
        (List.range c.MAX_FILE_NAME).all
          (fun k => s2.fs_data (d_name_at c 0 0 + k) = s2.fs_data (d_name_at c 0 1 + k)))

/-- Tables of the base build in which i-node 1 is a file of 11 blocks: the
    direct slots name the blocks 1 to 10, the last slot names block 11 as the
    indirect block, whose index array lists block 12 and then the end mark; the
    blocks 0 to 12 are `TAKEN`, the others `FREE`. -/
def indirect_file_fs : State :=
  { fresh_fs stdConfig with
    inode_table := setAt (fresh_fs stdConfig).inode_table 1
      ⟨T_FILE, 11264, fun i => if i ≤ 10 then ((i + 1 : Nat) : Int) else 0⟩
    freeinode_ts := setAt (fresh_fs stdConfig).freeinode_ts 1 TAKEN
    free_blocks := fun b => if b ≤ 12 then TAKEN else FREE
    fs_data := writeInt (writeInt (fresh_fs stdConfig).fs_data (11 * 1024) 12) (11 * 1024 + 4) (-1) }

/-- The call `inode_delete(1)` on `indirect_file_fs`: yields the returned value,
    the state of i-node 1 and the block free map (blocks 0 to 13) after it. -/
def delete_indirect_file : Option (Int × allocation_state_t × List allocation_state_t) :=
  match inode_delete stdConfig indirect_file_fs 1 with
  | none => none
  | some (s1, r) => some (r, s1.freeinode_ts 1, map_entries s1.free_blocks 14)

/-- The pairs of `nested_locks` for four calls on the file `"/f1"` (i-node 1):
    `tfs_write` of one byte through the handle of the new file; then, each on
    the state after that write and a second `tfs_open("/f1", 0)`: `tfs_read` of
    one byte through the second handle, `tfs_open("/f1", TFS_O_TRUNC)`, and
    `inode_delete(1)`.  Yields the lists for the truncation, the write, the read
    and the deletion, in this order. -/
def lock_orders (c : Config) : Option (List (List (lock_name × lock_name))) :=
  match created_f1 c with
  | none => none
  | some (s2, h) =>
    match tfs_write_locks c s2 h (const_buffer 65) 1, tfs_write c s2 h (const_buffer 65) 1 with
    | some tw, some (s3, _) =>
      match tfs_open c s3 (some path_f1) 0 with
      | none => none
      | some (s4, h2) =>
        match tfs_read_locks c s4 h2 (const_buffer 0) 1,
            tfs_open_locks c s4 (some path_f1) c.TFS_O_TRUNC, inode_delete_locks c s4 1 with
        | some tr, some tt, some td =>
          some [nested_locks tt [], nested_locks tw [], nested_locks tr [], nested_locks td []]
        | _, _, _ => none
    | _, _ => none

/-- The call `tfs_open("/f1", TFS_O_TRUNC)` on the new, empty file `"/f1"`:
    yields its lock calls and the locks held after them by a caller that held
    none (`none` when one of the calls unlocks a lock that is not held). -/
def truncate_empty_locks (c : Config) : Option (List lock_call × Option (List lock_name)) :=
  match created_f1 c with
  | none => none
  | some (s2, _) =>
    match tfs_open_locks c s2 (some path_f1) c.TFS_O_TRUNC with
    | none => none
    | some t => some (t, run_locks t [])

/-- A write of `n1` bytes and then one of `n2` bytes through the handle of a new
    file `"/f1"`: yields the count the second call returns, its lock calls and
    the locks held after them by a caller that held none. -/
def exhausting_write_locks (c : Config) (n1 n2 : Nat) :
    Option (Int × List lock_call × Option (List lock_name)) :=
  match created_f1 c with
  | none => none
  | some (s2, h) =>
    match tfs_write c s2 h (const_buffer 65) n1 with
    | none => none
    | some (s3, _) =>
      match tfs_write c s3 h (const_buffer 66) n2, tfs_write_locks c s3 h (const_buffer 66) n2 with
      | some (_, w2), some t => some (w2, t, run_locks t [])
      | _, _ => none

/-- One write of `n` bytes `'B'` to a new file `"/f1"`, whose only block is block
    1: yields the returned count, `i_size`, the state of block 2 in `free_blocks`
    and the first byte of block 2 before and after the call. -/
def spilling_write (c : Config) (n : Nat) :
    Option (Int × Nat × allocation_state_t × Byte × Byte) :=
  match created_f1 c with
  | none => none
  | some (s2, h) =>
    match tfs_write c s2 h (const_buffer 66) n with
    | none => none
    | some (s3, r) =>
      some (r, size_of_handle s3 h, s3.free_blocks 2, s2.fs_data (2 * c.BLOCK_SIZE),
        s3.fs_data (2 * c.BLOCK_SIZE))

/-- After `spilling_write`, a read of `n` bytes through a second handle of
    `"/f1"` into a zeroed buffer: yields the returned count and the byte
    delivered at index `BLOCK_SIZE` of the buffer. -/
def spilling_read (c : Config) (n : Nat) : Option (Int × Byte) :=
  match created_f1 c with
  | none => none
  | some (s2, h) =>
    match tfs_write c s2 h (const_buffer 66) n with
    | none => none
    | some (s3, _) =>
      match tfs_open c s3 (some path_f1) 0 with
      | none => none
      | some (s4, h2) =>
        match tfs_read c s4 h2 (const_buffer 0) n with
        | none => none
        | some (out, r) => some (r, out c.BLOCK_SIZE)

/-- A write of `n1` bytes and then one of `n2` bytes through the handle of a new
    file `"/f1"`: yields the cursor before the second call, the byte count
    `temp - of_offset` of its first `memcpy` in `size_t` arithmetic, and whether
    the call ends in undefined behaviour. -/
def short_second_write (c : Config) (n1 n2 : Nat) : Option (Nat × Nat × Bool) :=
  match created_f1 c with
  | none => none
  | some (s2, h) =>
    match tfs_write c s2 h (const_buffer 65) n1 with
    | none => none
    | some (s3, _) =>
      some ((s3.open_file_table h.toNat).of_offset,
        usub n2 (s3.open_file_table h.toNat).of_offset,
        (tfs_write c s3 h (const_buffer 66) n2).isNone)

/-- The file system of `written_f1` after a second `tfs_open("/f1", 0)`, which
    returns the handle 1 with the cursor 0. -/
def reopened_f1 (c : Config) : State :=
  match tfs_open c (written_f1 c) (some path_f1) 0 with
  | some r => r.1
  | none => written_f1 c

/-- The calls `tfs_init`, `tfs_open("/f2", TFS_O_CREAT)`,
    `tfs_open("/f1", TFS_O_CREAT)` (i-node 2), a `tfs_write` of `n` bytes through
    the handle of `"/f1"` and `tfs_open("/f1", TFS_O_TRUNC)`: yields the handle
    the last call returns, `i_size` of i-node 2 before and after it, the slot
    `MAX_DIRECT_BLOCKS` of i-node 2 before it with the slot 0 of i-node 0 after
    it, and the states of i-node 0 after it and of block 0 before and after it. -/
def truncate_shared_block (c : Config) (n : Nat) :
    Option (Int × List Nat × List Int × List allocation_state_t) :=
  match tfs_open c (fresh_fs c) (some path_f2) c.TFS_O_CREAT with
  | none => none
  | some (s1, _) =>
    match tfs_open c s1 (some path_f1) c.TFS_O_CREAT with
    | none => none
    | some (s2, h1) =>
      match tfs_write c s2 h1 (const_buffer 66) n with
      | none => none
      | some (s4, _) =>
        match tfs_open c s4 (some path_f1) c.TFS_O_TRUNC with
        | none => none
        | some (s5, h) =>
          some (h, [(s4.inode_table 2).i_size, (s5.inode_table 2).i_size],
            [(s4.inode_table 2).i_data_block c.MAX_DIRECT_BLOCKS,
              (s5.inode_table 0).i_data_block 0],
            [s5.freeinode_ts 0, s4.free_blocks 0, s5.free_blocks 0])

/-- The stored name of entry `i` equals `name` in the fixed-length comparison of
    the spec, stated on the bytes: `d_name` and `name` agree at every index
    below `MAX_FILE_NAME` that no NUL of `d_name` precedes. -/
def stored_name_equals (c : Config) (m : Nat → Byte) (base i : Nat) (name : List Byte) : Prop :=
  ∀ k, k < c.MAX_FILE_NAME → (∀ j, j < k → m (d_name_at c base i + j) ≠ 0) →
    m (d_name_at c base i + k) = charAt name k

instance stored_name_equals_decidable (c : Config) (m : Nat → Byte) (base i : Nat)
    (name : List Byte) : Decidable (stored_name_equals c m base i name) := by
  unfold stored_name_equals
  infer_instance

/-! ## Lemmas on the directory -/

theorem find_in_dir_loop_none (c : Config) (m : Nat → Byte) (base : Nat) (sub_name : List Byte) :
    ∀ n i, (∀ j, i ≤ j → j < i + n → ¬ entry_matches c m base sub_name j) →
      find_in_dir_loop c m base sub_name n i = -1 := by
  intro n
  induction n with
  | zero => intro i _; rfl
  | succ n ih =>
    intro i h
    have h0 := h i (Nat.le_refl i) (by omega)
    unfold entry_matches at h0
    rw [find_in_dir_loop, if_neg h0]
    exact ih (i + 1) (fun j hj1 hj2 => h j (by omega) (by omega))

theorem find_in_dir_not_in_root (c : Config) (s : State) (sub_name : List Byte)
    (h : ¬ name_in_root c s sub_name) :
    find_in_dir c s c.ROOT_DIR_INUM sub_name = -1 := by
  unfold find_in_dir
  split
  · rfl
  · rename_i hv
    split
    · rfl
    · rename_i base hb
      apply find_in_dir_loop_none
      intro j _ hj2 hm
      apply h
      refine ⟨base, ?_, j, by omega, hm⟩
      unfold root_dir_base
      rw [if_pos]
      · exact hb
      · constructor
        · by_contra hx
          exact hv (Or.inl hx)
        · by_contra hx
          exact hv (Or.inr hx)

theorem tfs_lookup_unresolvable (c : Config) (s : State) (path : Option (List Byte))
    (h : path = none ∨ ∃ str, path = some str ∧
      (strlen str ≤ 1 ∨ charAt str 0 ≠ 47 ∨ ¬ name_in_root c s (str.drop 1))) :
    tfs_lookup c s path = -1 := by
  rcases h with h | ⟨str, hp, h⟩
  · subst h; rfl
  · subst hp
    unfold tfs_lookup
    simp only []
    split
    · rfl
    · rename_i hv
      rcases h with h | h | h
      · exfalso; apply hv; simp [valid_pathname]; intro h'; omega
      · exfalso; apply hv; simp [valid_pathname]; intro _; exact h
      · exact find_in_dir_not_in_root c s _ h

theorem tfs_open_unresolved_no_creat (c : Config) (s : State) (path : Option (List Byte))
    (flags : Nat) (hl : tfs_lookup c s path < 0) (hf : flags &&& c.TFS_O_CREAT = 0) :
    tfs_open c s path flags = some (s, -1) := by
  unfold tfs_open
  cases path with
  | none => rfl
  | some str =>
    simp only []
    split
    · rfl
    · rw [if_neg (by omega), if_neg (by simp [hf])]

theorem tfs_copy_unresolved (c : Config) (s : State) (path : Option (List Byte))
    (fopen_ok : Bool) (array : Nat → Byte) (hl : tfs_lookup c s path = -1) :
    tfs_copy_to_external_fs c s path fopen_ok array = some (s, -1, none) := by
  unfold tfs_copy_to_external_fs
  split
  · rfl
  · simp only []
    rw [if_pos hl]

theorem fresh_fs_f2_absent : ¬ name_in_root stdConfig (fresh_fs stdConfig) (path_f2.drop 1) := by
  rintro ⟨base, hb, i, hi, hm⟩
  have hb' : base = 0 := by
    have : root_dir_base stdConfig (fresh_fs stdConfig) = some 0 := by decide
    rw [this] at hb
    exact (Option.some.inj hb).symm
  subst hb'
  have hall : ∀ j, j < MAX_DIR_ENTRIES stdConfig →
      readInt (fresh_fs stdConfig).fs_data (d_inumber_at stdConfig 0 j) = -1 := by decide
  exact hm.1 (hall i hi)

/-! ## Lemmas on the i-node table -/

theorem setAt_same {α : Type} (f : Nat → α) (i : Nat) (v : α) : setAt f i v i = v := by
  simp [setAt]

theorem setAt_other {α : Type} (f : Nat → α) (i j : Nat) (v : α) (h : j ≠ i) :
    setAt f i v j = f j := by
  simp [setAt, h]

theorem setAt_setAt_restore {α : Type} (f : Nat → α) (i : Nat) (v : α) :
    setAt (setAt f i v) i (f i) = f := by
  funext j
  by_cases h : j = i
  · subst h; simp [setAt]
  · simp [setAt, h]

/-- The scan of `inode_create` either finds no free entry and changes nothing,
    or runs the body at the lowest free entry of the scanned range. -/
theorem inode_create_loop_cases (c : Config) (s : State) (t : inode_type) :
    ∀ n i,
      ((∀ j, i ≤ j → j < i + n → s.freeinode_ts j ≠ FREE) ∧
        inode_create_loop c s t n i = (s, -1)) ∨
      ∃ k, i ≤ k ∧ k < i + n ∧ s.freeinode_ts k = FREE ∧
        (∀ j, i ≤ j → j < k → s.freeinode_ts j ≠ FREE) ∧
        inode_create_loop c s t n i = inode_create_at c s t k := by
  intro n
  induction n with
  | zero =>
    intro i
    left
    exact ⟨fun j h1 h2 => by omega, rfl⟩
  | succ n ih =>
    intro i
    by_cases hf : s.freeinode_ts i = FREE
    · right
      refine ⟨i, Nat.le_refl i, by omega, hf, fun j h1 h2 => by omega, ?_⟩
      rw [inode_create_loop, if_pos hf]
    · rcases ih (i + 1) with ⟨hall, hr⟩ | ⟨k, hk1, hk2, hk3, hk4, hr⟩
      · left
        refine ⟨?_, ?_⟩
        · intro j h1 h2
          by_cases hji : j = i
          · subst hji; exact hf
          · exact hall j (by omega) (by omega)
        · rw [inode_create_loop, if_neg hf]; exact hr
      · right
        refine ⟨k, by omega, by omega, hk3, ?_, ?_⟩
        · intro j h1 h2
          by_cases hji : j = i
          · subst hji; exact hf
          · exact hk4 j (by omega) h2
        · rw [inode_create_loop, if_neg hf]; exact hr

theorem add_dir_entry_loop_full (c : Config) (s : State) (base : Nat) (sub_inumber : Int)
    (sub_name : List Byte) :
    ∀ n i, (∀ j, i ≤ j → j < i + n → readInt s.fs_data (d_inumber_at c base j) ≠ -1) →
      add_dir_entry_loop c s base sub_inumber sub_name n i = (s, -1) := by
  intro n
  induction n with
  | zero => intro i _; rfl
  | succ n ih =>
    intro i h
    rw [add_dir_entry_loop, if_neg (h i (Nat.le_refl i) (by omega))]
    exact ih (i + 1) (fun j h1 h2 => h j (by omega) (by omega))

/-- With a full directory `add_dir_entry` fails and changes nothing. -/
theorem add_dir_entry_full (c : Config) (s : State) (sub_inumber : Int) (sub_name : List Byte)
    (hfull : ∀ base, root_dir_base c s = some base → ∀ i, i < MAX_DIR_ENTRIES c →
      readInt s.fs_data (d_inumber_at c base i) ≠ -1) :
    add_dir_entry c s c.ROOT_DIR_INUM sub_inumber sub_name = (s, -1) := by
  unfold add_dir_entry
  split
  · rfl
  · rename_i hv
    split
    · rfl
    · rename_i ht
      split
      · rfl
      · split
        · rfl
        · rename_i base hb
          apply add_dir_entry_loop_full
          intro j _ hj
          apply hfull base _ j (by omega)
          unfold root_dir_base
          rw [if_pos]
          · exact hb
          · constructor
            · by_contra hx
              exact hv (Or.inl hx)
            · by_contra hx
              exact ht hx

theorem tfs_open_create_full (c : Config) (s : State) (path : Option (List Byte)) (flags : Nat)
    (hfull : ∀ base, root_dir_base c s = some base → ∀ i, i < MAX_DIR_ENTRIES c →
      readInt s.fs_data (d_inumber_at c base i) ≠ -1)
    (hres : tfs_lookup c s path < 0) (hflag : flags &&& c.TFS_O_CREAT ≠ 0) :
    ∃ s1, tfs_open c s path flags = some (s1, -1) ∧
      s1.freeinode_ts = s.freeinode_ts ∧ s1.free_blocks = s.free_blocks ∧
      s1.fs_data = s.fs_data ∧ s1.open_file_table = s.open_file_table ∧
      s1.free_open_file_entries = s.free_open_file_entries := by
  unfold tfs_open
  cases path with
  | none => exact ⟨s, rfl, rfl, rfl, rfl, rfl, rfl⟩
  | some str =>
    simp only []
    split
    · exact ⟨s, rfl, rfl, rfl, rfl, rfl, rfl⟩
    · rw [if_neg (show ¬ (tfs_lookup c s (some str) ≥ 0) by omega)]
      try rw [if_pos hflag]
      unfold inode_create
      rcases inode_create_loop_cases c s T_FILE c.INODE_TABLE_SIZE 0 with
        ⟨_, hr⟩ | ⟨k, _, hk2, hk3, _, hr⟩
      · rw [hr]
        exact ⟨s, by simp, rfl, rfl, rfl, rfl, rfl⟩
      · rw [hr]
        simp only [inode_create_at]
        have hk : ((k : Nat) : Int) ≠ -1 := by omega
        rw [if_neg hk]
        rw [add_dir_entry_full]
        · simp only [if_true]
          have hv : valid_inumber c (k : Int) = true := by
            simp [valid_inumber]; omega
          simp [inode_delete, hv, setAt_same]
          have := setAt_setAt_restore s.freeinode_ts k TAKEN
          rw [hk3] at this
          exact this
        · intro base hb i hi
          simp only []
          apply hfull base _ i hi
          unfold root_dir_base at hb ⊢
          by_cases hroot : c.ROOT_DIR_INUM.toNat = k
          · simp [hroot, setAt_same] at hb
          · simp only [setAt_other _ _ _ _ hroot] at hb
            exact hb

theorem full_dir_fs_root : root_dir_base tinyConfig full_dir_fs = some 0 := by decide

theorem full_dir_fs_full : ∀ i, i < MAX_DIR_ENTRIES tinyConfig →
    readInt full_dir_fs.fs_data (d_inumber_at tinyConfig 0 i) ≠ -1 := by decide

theorem full_dir_fs_lookup_f2 : tfs_lookup tinyConfig full_dir_fs (some path_f2) < 0 := by
  decide

theorem tinyConfig_creat : tinyConfig.TFS_O_CREAT &&& tinyConfig.TFS_O_CREAT ≠ 0 := by decide

/-! ## Lemmas on memory and strings -/

theorem intByte_val (v : Int) (k : Nat) :
    (intByte v k).val = ((v % 4294967296).toNat / 256 ^ k) % 256 := by
  simp [intByte, Fin.ofNat]

theorem readInt_writeInt (m : Nat → Byte) (a : Nat) (v : Int)
    (h1 : -2147483648 ≤ v) (h2 : v < 2147483648) : readInt (writeInt m a v) a = v := by
  have e0 : (writeInt m a v a).val = (v % 4294967296).toNat % 256 := by
    simp [writeInt, intByte_val]
  have e1 : (writeInt m a v (a + 1)).val = ((v % 4294967296).toNat / 256) % 256 := by
    simp [writeInt, intByte_val]
  have e2 : (writeInt m a v (a + 2)).val = ((v % 4294967296).toNat / 65536) % 256 := by
    simp [writeInt, intByte_val]
  have e3 : (writeInt m a v (a + 3)).val = ((v % 4294967296).toNat / 16777216) % 256 := by
    simp [writeInt, intByte_val]
  unfold readInt
  simp only [e0, e1, e2, e3]
  split <;> omega

theorem readInt_congr (m m1 : Nat → Byte) (a : Nat)
    (h : ∀ x, a ≤ x → x < a + 4 → m1 x = m x) : readInt m1 a = readInt m a := by
  unfold readInt
  rw [h a (by omega) (by omega), h (a + 1) (by omega) (by omega),
    h (a + 2) (by omega) (by omega), h (a + 3) (by omega) (by omega)]

theorem strncmp_eq_congr (m m1 : Nat → Byte) (a : Nat) (s : List Byte) :
    ∀ n k, (∀ x, a + k ≤ x → x < a + k + n → m1 x = m x) →
      strncmp_eq m1 a s n k = strncmp_eq m a s n k := by
  intro n
  induction n with
  | zero => intro k _; rfl
  | succ n ih =>
    intro k h
    rw [strncmp_eq, strncmp_eq, h (a + k) (by omega) (by omega)]
    rw [ih (k + 1) (fun x h1 h2 => h x (by omega) (by omega))]

theorem charAt_cons_succ (ch : Byte) (rest : List Byte) (k : Nat) :
    charAt (ch :: rest) (k + 1) = charAt rest k := by
  simp [charAt]

theorem charAt_ne_zero_of_lt_strlen : ∀ (s : List Byte) (k : Nat), k < strlen s → charAt s k ≠ 0 := by
  intro s
  induction s with
  | nil => intro k h; simp [strlen] at h
  | cons ch rest ih =>
    intro k h
    by_cases hc : ch = 0
    · simp [strlen, hc] at h
    · cases k with
      | zero => simpa [charAt] using hc
      | succ k =>
        rw [charAt_cons_succ]
        apply ih
        simp [strlen, hc] at h
        exact h

theorem charAt_strlen : ∀ (s : List Byte), charAt s (strlen s) = 0 := by
  intro s
  induction s with
  | nil => simp [strlen, charAt]
  | cons ch rest ih =>
    by_cases hc : ch = 0
    · simp [strlen, hc, charAt]
    · simp only [strlen, hc, if_false]
      rw [charAt_cons_succ]
      exact ih

theorem strlen_drop_one (str : List Byte) (h : strlen str > 1) :
    strlen (str.drop 1) = strlen str - 1 := by
  cases str with
  | nil => simp [strlen] at h
  | cons ch rest =>
    by_cases hc : ch = 0
    · simp [strlen, hc] at h
    · simp [strlen, hc]

/-- The scan of `find_in_dir` returns the i-number of the first matching entry. -/
theorem find_in_dir_loop_found (c : Config) (m : Nat → Byte) (base : Nat) (sub_name : List Byte)
    (i0 : Nat) (hm : entry_matches c m base sub_name i0) :
    ∀ n i, i ≤ i0 → i0 < i + n → (∀ j, i ≤ j → j < i0 → ¬ entry_matches c m base sub_name j) →
      find_in_dir_loop c m base sub_name n i = readInt m (d_inumber_at c base i0) := by
  intro n
  induction n with
  | zero => intro i h1 h2 _; omega
  | succ n ih =>
    intro i h1 h2 h3
    by_cases hi : i = i0
    · subst hi
      unfold entry_matches at hm
      rw [find_in_dir_loop, if_pos hm]
    · have h0 := h3 i (Nat.le_refl i) (by omega)
      unfold entry_matches at h0
      rw [find_in_dir_loop, if_neg h0]
      exact ih (i + 1) (by omega) (by omega) (fun j hj1 hj2 => h3 j (by omega) hj2)

/-- When the scan of `find_in_dir` returns `-1`, no scanned entry matches. -/
theorem find_in_dir_loop_neg_one (c : Config) (m : Nat → Byte) (base : Nat)
    (sub_name : List Byte) :
    ∀ n i, find_in_dir_loop c m base sub_name n i = -1 →
      ∀ j, i ≤ j → j < i + n → ¬ entry_matches c m base sub_name j := by
  intro n
  induction n with
  | zero => intro i _ j h1 h2; omega
  | succ n ih =>
    intro i h j h1 h2
    rw [find_in_dir_loop] at h
    split at h
    · rename_i hm
      exact absurd h hm.1
    · rename_i hm
      by_cases hji : j = i
      · subst hji; exact hm
      · exact ih (i + 1) h j (by omega) (by omega)

/-- The scan of `add_dir_entry` either finds no empty entry and changes nothing,
    or fills the lowest empty entry of the scanned range. -/
theorem add_dir_entry_loop_cases (c : Config) (s : State) (base : Nat) (sub_inumber : Int)
    (sub_name : List Byte) :
    ∀ n i,
      ((∀ j, i ≤ j → j < i + n → readInt s.fs_data (d_inumber_at c base j) ≠ -1) ∧
        add_dir_entry_loop c s base sub_inumber sub_name n i = (s, -1)) ∨
      ∃ k, i ≤ k ∧ k < i + n ∧ readInt s.fs_data (d_inumber_at c base k) = -1 ∧
        (∀ j, i ≤ j → j < k → readInt s.fs_data (d_inumber_at c base j) ≠ -1) ∧
        add_dir_entry_loop c s base sub_inumber sub_name n i =
          ({ s with fs_data := filled_entry c s.fs_data base k sub_inumber sub_name }, 0) := by
  intro n
  induction n with
  | zero =>
    intro i
    left
    exact ⟨fun j h1 h2 => by omega, rfl⟩
  | succ n ih =>
    intro i
    by_cases hf : readInt s.fs_data (d_inumber_at c base i) = -1
    · right
      refine ⟨i, Nat.le_refl i, by omega, hf, fun j h1 h2 => by omega, ?_⟩
      rw [add_dir_entry_loop, if_pos hf]
      rfl
    · rcases ih (i + 1) with ⟨hall, hr⟩ | ⟨k, hk1, hk2, hk3, hk4, hr⟩
      · left
        refine ⟨?_, ?_⟩
        · intro j h1 h2
          by_cases hji : j = i
          · subst hji; exact hf
          · exact hall j (by omega) (by omega)
        · rw [add_dir_entry_loop, if_neg hf]; exact hr
      · right
        refine ⟨k, by omega, by omega, hk3, ?_, ?_⟩
        · intro j h1 h2
          by_cases hji : j = i
          · subst hji; exact hf
          · exact hk4 j (by omega) h2
        · rw [add_dir_entry_loop, if_neg hf]; exact hr

/-- The scan of `add_to_open_file_table` either finds no free entry and changes
    nothing, or installs the pair in the lowest free entry of the scanned range. -/
theorem add_to_open_file_table_loop_cases (s : State) (inumber : Int) (offset : Nat) :
    ∀ n i,
      ((∀ j, i ≤ j → j < i + n → s.free_open_file_entries j ≠ FREE) ∧
        add_to_open_file_table_loop s inumber offset n i = (s, -1)) ∨
      ∃ k, i ≤ k ∧ k < i + n ∧ s.free_open_file_entries k = FREE ∧
        (∀ j, i ≤ j → j < k → s.free_open_file_entries j ≠ FREE) ∧
        add_to_open_file_table_loop s inumber offset n i =
          ({ s with
              free_open_file_entries := setAt s.free_open_file_entries k TAKEN
              open_file_table := setAt s.open_file_table k ⟨inumber, offset⟩ }, (k : Int)) := by
  intro n
  induction n with
  | zero =>
    intro i
    left
    exact ⟨fun j h1 h2 => by omega, rfl⟩
  | succ n ih =>
    intro i
    by_cases hf : s.free_open_file_entries i = FREE
    · right
      refine ⟨i, Nat.le_refl i, by omega, hf, fun j h1 h2 => by omega, ?_⟩
      rw [add_to_open_file_table_loop, if_pos hf]
    · rcases ih (i + 1) with ⟨hall, hr⟩ | ⟨k, hk1, hk2, hk3, hk4, hr⟩
      · left
        refine ⟨?_, ?_⟩
        · intro j h1 h2
          by_cases hji : j = i
          · subst hji; exact hf
          · exact hall j (by omega) (by omega)
        · rw [add_to_open_file_table_loop, if_neg hf]; exact hr
      · right
        refine ⟨k, by omega, by omega, hk3, ?_, ?_⟩
        · intro j h1 h2
          by_cases hji : j = i
          · subst hji; exact hf
          · exact hk4 j (by omega) h2
        · rw [add_to_open_file_table_loop, if_neg hf]; exact hr

theorem entry_before (c : Config) (base i j : Nat) (h : j < i) :
    d_name_at c base j + sizeof_dir_entry c ≤ d_name_at c base i := by
  unfold d_name_at
  have : (j + 1) * sizeof_dir_entry c ≤ i * sizeof_dir_entry c :=
    Nat.mul_le_mul_right _ (by omega)
  rw [Nat.add_mul, Nat.one_mul] at this
  omega

theorem filled_entry_outside (c : Config) (m : Nat → Byte) (base i : Nat) (v : Int)
    (name : List Byte) (x : Nat)
    (h : x < d_name_at c base i ∨ d_name_at c base i + sizeof_dir_entry c ≤ x) :
    filled_entry c m base i v name x = m x := by
  unfold filled_entry setAt strncpy_in writeInt
  unfold d_inumber_at
  unfold d_name_at sizeof_dir_entry sizeof_int at *
  rw [if_neg (by omega), if_neg (by omega), if_neg (by omega)]

theorem filled_entry_inumber (c : Config) (m : Nat → Byte) (base i : Nat) (v : Int)
    (name : List Byte) (hmax : 1 ≤ c.MAX_FILE_NAME)
    (h1 : -2147483648 ≤ v) (h2 : v < 2147483648) :
    readInt (filled_entry c m base i v name) (d_inumber_at c base i) = v := by
  rw [readInt_congr (writeInt m (d_inumber_at c base i) v) (filled_entry c m base i v name)]
  · exact readInt_writeInt m (d_inumber_at c base i) v h1 h2
  · intro x hx1 hx2
    unfold filled_entry setAt strncpy_in
    unfold d_inumber_at at *
    unfold d_name_at
    rw [if_neg (by omega), if_neg (by omega)]

theorem filled_entry_name (c : Config) (m : Nat → Byte) (base i : Nat) (v : Int)
    (name : List Byte) (k : Nat) (hk : k < c.MAX_FILE_NAME) :
    filled_entry c m base i v name (d_name_at c base i + k) =
      if k < c.MAX_FILE_NAME - 1 ∧ k < strlen name then charAt name k else 0 := by
  unfold filled_entry setAt strncpy_in
  by_cases h1 : k = c.MAX_FILE_NAME - 1
  · rw [if_pos (by omega), if_neg (by omega)]
  · rw [if_neg (by omega), if_pos (by omega)]
    simp only [Nat.add_sub_cancel_left]
    by_cases h2 : k < strlen name
    · rw [if_pos h2, if_pos ⟨by omega, h2⟩]
    · rw [if_neg h2, if_neg (fun h => h2 h.2)]

theorem filled_entry_strncmp (c : Config) (m : Nat → Byte) (base i : Nat) (v : Int)
    (name : List Byte) (hlen : strlen name + 1 ≤ c.MAX_FILE_NAME) :
    ∀ n k, n + k = c.MAX_FILE_NAME → k ≤ strlen name →
      strncmp_eq (filled_entry c m base i v name) (d_name_at c base i) name n k = true := by
  intro n
  induction n with
  | zero => intro k _ _; rfl
  | succ n ih =>
    intro k h1 h2
    rw [strncmp_eq, filled_entry_name c m base i v name k (by omega)]
    by_cases hk : k < strlen name
    · have e : (if k < c.MAX_FILE_NAME - 1 ∧ k < strlen name then charAt name k else 0)
          = charAt name k := if_pos ⟨by omega, hk⟩
      rw [e]
      simp only [ne_eq, not_true_eq_false, if_false]
      rw [if_neg (charAt_ne_zero_of_lt_strlen name k hk)]
      exact ih (k + 1) (by omega) (by omega)
    · have hk2 : k = strlen name := by omega
      have e : (if k < c.MAX_FILE_NAME - 1 ∧ k < strlen name then charAt name k else 0)
          = 0 := if_neg (fun h => hk h.2)
      rw [e, hk2, charAt_strlen]
      simp

theorem filled_entry_matches_self (c : Config) (m : Nat → Byte) (base i : Nat) (v : Int)
    (name : List Byte) (hlen : strlen name + 1 ≤ c.MAX_FILE_NAME)
    (h0 : v ≠ -1) (h1 : -2147483648 ≤ v) (h2 : v < 2147483648) :
    entry_matches c (filled_entry c m base i v name) base name i := by
  unfold entry_matches
  rw [filled_entry_inumber c m base i v name (by omega) h1 h2]
  exact ⟨h0, filled_entry_strncmp c m base i v name hlen c.MAX_FILE_NAME 0 (by omega) (by omega)⟩

theorem filled_entry_matches_other (c : Config) (m : Nat → Byte) (base i j : Nat) (v : Int)
    (name sub_name : List Byte) (hji : j ≠ i) :
    entry_matches c (filled_entry c m base i v name) base sub_name j ↔
      entry_matches c m base sub_name j := by
  have hdis : d_name_at c base j + sizeof_dir_entry c ≤ d_name_at c base i ∨
      d_name_at c base i + sizeof_dir_entry c ≤ d_name_at c base j := by
    rcases Nat.lt_or_gt_of_ne hji with h | h
    · exact Or.inl (entry_before c base i j h)
    · exact Or.inr (entry_before c base j i h)
  have hi : d_inumber_at c base j = d_name_at c base j + c.MAX_FILE_NAME := rfl
  have hs : sizeof_dir_entry c = c.MAX_FILE_NAME + 4 := rfl
  unfold entry_matches
  rw [readInt_congr m (filled_entry c m base i v name) (d_inumber_at c base j)
    (fun x hx1 hx2 => filled_entry_outside c m base i v name x (by omega))]
  rw [strncmp_eq_congr m (filled_entry c m base i v name) (d_name_at c base j) sub_name
    c.MAX_FILE_NAME 0
    (fun x hx1 hx2 => filled_entry_outside c m base i v name x (by omega))]

theorem root_dir_base_congr (c : Config) (s s1 : State)
    (h : s1.inode_table c.ROOT_DIR_INUM.toNat = s.inode_table c.ROOT_DIR_INUM.toNat) :
    root_dir_base c s1 = root_dir_base c s := by
  unfold root_dir_base
  rw [h]

theorem find_in_dir_root (c : Config) (s : State) (name : List Byte) (base : Nat)
    (hb : root_dir_base c s = some base) :
    find_in_dir c s c.ROOT_DIR_INUM name =
      find_in_dir_loop c s.fs_data base name (MAX_DIR_ENTRIES c) 0 := by
  unfold root_dir_base at hb
  split at hb
  · rename_i hc
    unfold find_in_dir
    rw [if_neg (by simp [hc.1, hc.2]), hb]
  · cases hb

theorem add_dir_entry_root_cases (c : Config) (s : State) (inum : Int) (name : List Byte) :
    add_dir_entry c s c.ROOT_DIR_INUM inum name = (s, -1) ∨
    ∃ base k, root_dir_base c s = some base ∧ k < MAX_DIR_ENTRIES c ∧
      readInt s.fs_data (d_inumber_at c base k) = -1 ∧
      (∀ j, j < k → readInt s.fs_data (d_inumber_at c base j) ≠ -1) ∧
      add_dir_entry c s c.ROOT_DIR_INUM inum name =
        ({ s with fs_data := filled_entry c s.fs_data base k inum name }, 0) := by
  unfold add_dir_entry
  split
  · left; rfl
  · rename_i hv
    split
    · left; rfl
    · rename_i ht
      split
      · left; rfl
      · split
        · left; rfl
        · rename_i base hb
          have hroot : root_dir_base c s = some base := by
            unfold root_dir_base
            rw [if_pos]
            · exact hb
            · constructor
              · by_contra hx
                exact hv (Or.inl hx)
              · by_contra hx
                exact ht hx
          rcases add_dir_entry_loop_cases c s base inum name (MAX_DIR_ENTRIES c) 0 with
            ⟨_, hr⟩ | ⟨k, _, hk2, hk3, hk4, hr⟩
          · left; exact hr
          · right
            exact ⟨base, k, hroot, by omega, hk3, fun j hj => hk4 j (by omega) hj, hr⟩

theorem option_pair_of_snd {α β : Type} (o : Option (α × β)) (b : β)
    (h : o.map Prod.snd = some b) : ∃ a, o = some (a, b) := by
  cases o with
  | none => cases h
  | some r =>
    obtain ⟨a, b1⟩ := r
    simp at h
    subst h
    exact ⟨a, rfl⟩

/-! ## Lemmas on the truncation -/

theorem frees_exactly_refl (P : Nat → Prop) (fb : Nat → allocation_state_t)
    (h : ∀ n, ¬ P n) : frees_exactly P fb fb := by
  intro n
  exact ⟨fun hp => absurd hp (h n), fun _ => rfl⟩

theorem frees_exactly_trans (P Q : Nat → Prop) (fb fb1 fb2 : Nat → allocation_state_t)
    (h1 : frees_exactly P fb fb1) (h2 : frees_exactly Q fb1 fb2) :
    frees_exactly (fun n => P n ∨ Q n) fb fb2 := by
  intro n
  constructor
  · intro hpq
    by_cases hq : Q n
    · exact (h2 n).1 hq
    · rw [(h2 n).2 hq]
      rcases hpq with hp | hq'
      · exact (h1 n).1 hp
      · exact absurd hq' hq
  · intro hpq
    rw [(h2 n).2 (fun hq => hpq (Or.inr hq)), (h1 n).2 (fun hp => hpq (Or.inl hp))]

theorem frees_exactly_congr (P Q : Nat → Prop) (fb fb1 : Nat → allocation_state_t)
    (h : frees_exactly P fb fb1) (hpq : ∀ n, P n ↔ Q n) : frees_exactly Q fb fb1 := by
  intro n
  constructor
  · intro hq; exact (h n).1 ((hpq n).2 hq)
  · intro hq; exact (h n).2 (fun hp => hq ((hpq n).1 hp))

theorem data_block_free_state (c : Config) (s : State) (v : Int) :
    (data_block_free c s v).1 = { s with free_blocks := (data_block_free c s v).1.free_blocks } := by
  unfold data_block_free
  split <;> rfl

theorem data_block_free_frees (c : Config) (s : State) (v : Int) :
    frees_exactly (fun n => n < c.DATA_BLOCKS ∧ (n : Int) = v) s.free_blocks
      (data_block_free c s v).1.free_blocks := by
  unfold data_block_free
  split
  · rename_i hv
    simp [valid_block_number] at hv
    intro n
    constructor
    · rintro ⟨_, h2⟩
      have : n = v.toNat := by omega
      simp [setAt, this]
    · intro h
      have : n ≠ v.toNat := by
        intro he
        apply h
        constructor <;> omega
      simp [setAt, this]
  · rename_i hv
    simp [valid_block_number] at hv
    apply frees_exactly_refl
    rintro n ⟨h1, h2⟩
    omega

/-- The indirect phase of the truncation loop frees exactly the listed blocks. -/
theorem truncate_loop_indirect (c : Config) (inode : inode_t) :
    ∀ fuel (s : State) (i j p : Nat) (s1 : State) (i1 : Nat),
      i > c.MAX_DIRECT_BLOCKS →
      truncate_loop c inode fuel s i j (some p) = some (s1, i1) →
      s1 = { s with free_blocks := s1.free_blocks } ∧ i1 > c.MAX_DIRECT_BLOCKS ∧
      frees_exactly (fun n => n < c.DATA_BLOCKS ∧ indirect_from c s.fs_data p j n)
        s.free_blocks s1.free_blocks := by
  intro fuel
  induction fuel with
  | zero => intro s i j p s1 i1 _ h; simp [truncate_loop] at h
  | succ fuel ih =>
    intro s i j p s1 i1 hi h
    rw [truncate_loop] at h
    split at h
    · rename_i hj
      try rw [if_pos hi] at h
      split at h
      · cases h
      · rename_i v hv
        have hv2 : readInt s.fs_data (p + sizeof_int * j) = v := by
          unfold readIntAt at hv
          simp only [] at hv
          split at hv
          · exact Option.some.inj hv
          · cases hv
        split at h
        · rename_i hv1
          simp only [Option.some.injEq, Prod.mk.injEq] at h
          obtain ⟨hs, hi1⟩ := h
          subst hs
          subst hi1
          refine ⟨rfl, hi, ?_⟩
          apply frees_exactly_refl
          rintro n ⟨_, j1, h1, _, h3, _⟩
          exact h3 j (Nat.le_refl j) h1 (by rw [hv2]; exact hv1)
        · rename_i hv1
          have hst := data_block_free_state c s v
          obtain ⟨e1, e2, e3⟩ := ih (data_block_free c s v).1 (i + 1) (j + 1) p s1 i1
            (by omega) h
          have hfs : (data_block_free c s v).1.fs_data = s.fs_data := by rw [hst]
          refine ⟨?_, e2, ?_⟩
          · rw [e1, hst]
          · rw [hfs] at e3
            apply frees_exactly_congr _ _ _ _
              (frees_exactly_trans _ _ _ _ _ (data_block_free_frees c s v) e3)
            intro n
            constructor
            · rintro (⟨h1, h2⟩ | ⟨h1, j1, h2, h3, h4, h5⟩)
              · refine ⟨h1, j, Nat.le_refl j, hj, ?_, ?_⟩
                · intro j2 hj2 hj3
                  have : j2 = j := by omega
                  subst this
                  rw [hv2]; exact hv1
                · rw [hv2]; exact h2.symm
              · refine ⟨h1, j1, by omega, h3, ?_, h5⟩
                intro j2 hj2 hj3
                by_cases hjj : j2 = j
                · subst hjj; rw [hv2]; exact hv1
                · exact h4 j2 (by omega) hj3
            · rintro ⟨h1, j1, h2, h3, h4, h5⟩
              by_cases hjj : j1 = j
              · subst hjj
                left
                exact ⟨h1, by rw [← hv2]; exact h5.symm⟩
              · right
                exact ⟨h1, j1, by omega, h3, fun j2 hj2 hj3 => h4 j2 (by omega) hj3, h5⟩
    · rename_i hj
      simp only [Option.some.injEq, Prod.mk.injEq] at h
      obtain ⟨hs, hi1⟩ := h
      subst hs
      subst hi1
      refine ⟨rfl, hi, ?_⟩
      apply frees_exactly_refl
      rintro n ⟨_, j1, h1, h2, _, _⟩
      omega

theorem truncate_loop_null (c : Config) (inode : inode_t) (fuel : Nat) (s : State) (i j : Nat)
    (hi : i > c.MAX_DIRECT_BLOCKS) (hj : j < c.BLOCK_SIZE / sizeof_int) :
    truncate_loop c inode fuel s i j none = none := by
  cases fuel with
  | zero => rfl
  | succ fuel =>
    rw [truncate_loop, if_pos hj, if_pos hi]
    rfl

/-- The direct phase of the truncation loop, and the indirect phase after it,
    free exactly the blocks of the used direct slots and the listed blocks. -/
theorem truncate_loop_direct (c : Config) (inode : inode_t) (hBS : 4 ≤ c.BLOCK_SIZE) :
    ∀ fuel (s : State) (i : Nat) (pointer : Option Nat) (s1 : State) (i1 : Nat),
      i ≤ c.MAX_DIRECT_BLOCKS →
      truncate_loop c inode fuel s i 0 pointer = some (s1, i1) →
      s1 = { s with free_blocks := s1.free_blocks } ∧
      (i1 ≥ c.MAX_DIRECT_BLOCKS ↔
        ∀ i2, i ≤ i2 → i2 < c.MAX_DIRECT_BLOCKS → inode.i_data_block i2 ≠ -1) ∧
      frees_exactly (fun n => n < c.DATA_BLOCKS ∧
          (direct_from c inode i n ∨
            ((∀ i2, i ≤ i2 → i2 ≤ c.MAX_DIRECT_BLOCKS → inode.i_data_block i2 ≠ -1) ∧
              ∃ p, data_block_get c (inode.i_data_block c.MAX_DIRECT_BLOCKS) = some p ∧
                indirect_from c s.fs_data p 0 n)))
        s.free_blocks s1.free_blocks := by
  have hsize : 0 < c.BLOCK_SIZE / sizeof_int := Nat.div_pos hBS (by decide)
  intro fuel
  induction fuel with
  | zero => intro s i pointer s1 i1 _ h; simp [truncate_loop] at h
  | succ fuel ih =>
    intro s i pointer s1 i1 hi h
    rw [truncate_loop, if_pos hsize, if_neg (by omega)] at h
    by_cases hslot : inode.i_data_block i = -1
    · rw [if_pos hslot] at h
      simp only [Option.some.injEq, Prod.mk.injEq] at h
      obtain ⟨hs, hi1⟩ := h
      subst hs
      subst hi1
      refine ⟨rfl, ?_, ?_⟩
      · constructor
        · intro hge i2 h1 h2
          omega
        · intro hall
          by_contra hlt
          exact hall i (Nat.le_refl i) (by omega) hslot
      · apply frees_exactly_refl
        rintro n ⟨_, ⟨i1, h1, _, h3, _⟩ | ⟨h1, _⟩⟩
        · exact h3 i (Nat.le_refl i) h1 hslot
        · exact h1 i (Nat.le_refl i) hi hslot
    · rw [if_neg hslot] at h
      by_cases hmax : i = c.MAX_DIRECT_BLOCKS
      · rw [if_pos hmax] at h
        subst hmax
        cases hp : data_block_get c (inode.i_data_block c.MAX_DIRECT_BLOCKS) with
        | none =>
          rw [hp, truncate_loop_null c inode fuel s _ 0 (by omega) hsize] at h
          cases h
        | some p =>
          rw [hp] at h
          obtain ⟨e1, e2, e3⟩ := truncate_loop_indirect c inode fuel s _ 0 p s1 i1 (by omega) h
          refine ⟨e1, ?_, ?_⟩
          · constructor
            · intro _ i2 h1 h2; omega
            · intro _; omega
          · apply frees_exactly_congr _ _ _ _ e3
            intro n
            constructor
            · rintro ⟨h1, h2⟩
              refine ⟨h1, Or.inr ⟨?_, p, rfl, h2⟩⟩
              intro i2 h3 h4
              have : i2 = c.MAX_DIRECT_BLOCKS := by omega
              subst this
              exact hslot
            · rintro ⟨h1, ⟨i1, h2, h3, _⟩ | ⟨_, p1, hp1, h4⟩⟩
              · omega
              · cases hp1
                exact ⟨h1, h4⟩
      · rw [if_neg hmax] at h
        have hst := data_block_free_state c s (inode.i_data_block i)
        obtain ⟨e1, e2, e3⟩ := ih (data_block_free c s (inode.i_data_block i)).1 (i + 1)
          pointer s1 i1 (by omega) h
        have hfs : (data_block_free c s (inode.i_data_block i)).1.fs_data = s.fs_data := by
          rw [hst]
        refine ⟨?_, ?_, ?_⟩
        · rw [e1, hst]
        · rw [e2]
          constructor
          · intro hall i2 h1 h2
            by_cases hii : i2 = i
            · subst hii; exact hslot
            · exact hall i2 (by omega) h2
          · intro hall i2 h1 h2
            exact hall i2 (by omega) h2
        · rw [hfs] at e3
          apply frees_exactly_congr _ _ _ _
            (frees_exactly_trans _ _ _ _ _
              (data_block_free_frees c s (inode.i_data_block i)) e3)
          intro n
          constructor
          · rintro (⟨h1, h2⟩ | ⟨h1, ⟨i1, h2, h3, h4, h5⟩ | ⟨h2, h3⟩⟩)
            · refine ⟨h1, Or.inl ⟨i, Nat.le_refl i, by omega, ?_, h2.symm⟩⟩
              intro i2 h3 h4
              have : i2 = i := by omega
              subst this
              exact hslot
            · refine ⟨h1, Or.inl ⟨i1, by omega, h3, ?_, h5⟩⟩
              intro i2 h6 h7
              by_cases hii : i2 = i
              · subst hii; exact hslot
              · exact h4 i2 (by omega) h7
            · refine ⟨h1, Or.inr ⟨?_, h3⟩⟩
              intro i2 h6 h7
              by_cases hii : i2 = i
              · subst hii; exact hslot
              · exact h2 i2 (by omega) h7
          · rintro ⟨h1, ⟨i1, h2, h3, h4, h5⟩ | ⟨h2, h3⟩⟩
            · by_cases hii : i1 = i
              · subst hii
                left
                exact ⟨h1, h5.symm⟩
              · right
                exact ⟨h1, Or.inl ⟨i1, by omega, h3, fun i2 h6 h7 => h4 i2 (by omega) h7, h5⟩⟩
            · right
              exact ⟨h1, Or.inr ⟨fun i2 h6 h7 => h2 i2 (by omega) h7, h3⟩⟩

theorem add_to_open_file_table_keeps (c : Config) (s : State) (inumber : Int) (offset : Nat) :
    (add_to_open_file_table c s inumber offset).1.free_blocks = s.free_blocks ∧
    (add_to_open_file_table c s inumber offset).1.inode_table = s.inode_table ∧
    (add_to_open_file_table c s inumber offset).1.freeinode_ts = s.freeinode_ts ∧
    (add_to_open_file_table c s inumber offset).1.fs_data = s.fs_data := by
  unfold add_to_open_file_table
  rcases add_to_open_file_table_loop_cases s inumber offset c.MAX_OPEN_FILES 0 with
    ⟨_, hr⟩ | ⟨k, _, _, _, _, hr⟩
  · rw [hr]; exact ⟨rfl, rfl, rfl, rfl⟩
  · rw [hr]; exact ⟨rfl, rfl, rfl, rfl⟩

/-- The truncation block of `tfs_open` sets `i_size` to 0 and frees exactly the
    blocks of the i-node. -/
theorem tfs_truncate_frees (c : Config) (s : State) (k : Nat) (hBS : 4 ≤ c.BLOCK_SIZE)
    (hsize : (s.inode_table k).i_size > 0) (st : State) (h : tfs_truncate c s k = some st) :
    (st.inode_table k).i_size = 0 ∧
    frees_exactly (fun n => n < c.DATA_BLOCKS ∧ owns_block c s k n) s.free_blocks
      st.free_blocks := by
  unfold tfs_truncate at h
  rw [if_pos hsize] at h
  split at h
  · cases h
  · rename_i sa i hloop
    obtain ⟨e1, e2, e3⟩ := truncate_loop_direct c (s.inode_table k) hBS (walk_fuel c) s 0 none
      sa i (Nat.zero_le _) hloop
    simp only [Option.some.injEq] at h
    subst h
    have hit : sa.inode_table = s.inode_table := by rw [e1]
    constructor
    · simp [setAt_same]
    · by_cases hi : i ≥ c.MAX_DIRECT_BLOCKS
      · simp only [if_pos hi]
        rw [hit]
        have hall := e2.1 hi
        apply frees_exactly_congr _ _ _ _
          (frees_exactly_trans _ _ _ _ _ e3
            (data_block_free_frees c sa ((s.inode_table k).i_data_block c.MAX_DIRECT_BLOCKS)))
        intro n
        unfold owns_block
        constructor
        · rintro (⟨h1, h2 | h2⟩ | ⟨h1, h2⟩)
          · exact ⟨h1, Or.inl h2⟩
          · refine ⟨h1, Or.inr (Or.inr ⟨fun i2 hi2 => h2.1 i2 (Nat.zero_le _) hi2, h2.2⟩)⟩
          · exact ⟨h1, Or.inr (Or.inl ⟨fun i2 hi2 => hall i2 (Nat.zero_le _) hi2, h2.symm⟩)⟩
        · rintro ⟨h1, h2 | h2 | h2⟩
          · exact Or.inl ⟨h1, Or.inl h2⟩
          · exact Or.inr ⟨h1, h2.2.symm⟩
          · exact Or.inl ⟨h1, Or.inr ⟨fun i2 _ hi2 => h2.1 i2 hi2, h2.2⟩⟩
      · simp only [if_neg hi]
        have hnall : ¬ ∀ i2, 0 ≤ i2 → i2 < c.MAX_DIRECT_BLOCKS →
            (s.inode_table k).i_data_block i2 ≠ -1 := fun hx => hi (e2.2 hx)
        apply frees_exactly_congr _ _ _ _ e3
        intro n
        unfold owns_block
        constructor
        · rintro ⟨h1, h2 | h2⟩
          · exact ⟨h1, Or.inl h2⟩
          · exact ⟨h1, Or.inr (Or.inr ⟨fun i2 hi2 => h2.1 i2 (Nat.zero_le _) hi2, h2.2⟩)⟩
        · rintro ⟨h1, h2 | h2 | h2⟩
          · exact ⟨h1, Or.inl h2⟩
          · exact absurd (fun i2 _ hi2 => h2.1 i2 hi2) hnall
          · exact ⟨h1, Or.inr ⟨fun i2 _ hi2 => h2.1 i2 hi2, h2.2⟩⟩

/-! ## Lemmas on initialisation and allocation -/

/-- The scan of `data_block_alloc` either finds no free block and changes
    nothing, or takes the lowest free block of the scanned range. -/
theorem data_block_alloc_loop_cases (s : State) :
    ∀ n i,
      ((∀ j, i ≤ j → j < i + n → s.free_blocks j ≠ FREE) ∧
        data_block_alloc_loop s n i = (s, -1)) ∨
      ∃ k, i ≤ k ∧ k < i + n ∧ s.free_blocks k = FREE ∧
        (∀ j, i ≤ j → j < k → s.free_blocks j ≠ FREE) ∧
        data_block_alloc_loop s n i =
          ({ s with free_blocks := setAt s.free_blocks k TAKEN }, (k : Int)) := by
  intro n
  induction n with
  | zero =>
    intro i
    left
    exact ⟨fun j h1 h2 => by omega, rfl⟩
  | succ n ih =>
    intro i
    by_cases hf : s.free_blocks i = FREE
    · right
      refine ⟨i, Nat.le_refl i, by omega, hf, fun j h1 h2 => by omega, ?_⟩
      rw [data_block_alloc_loop, if_pos hf]
    · rcases ih (i + 1) with ⟨hall, hr⟩ | ⟨k, hk1, hk2, hk3, hk4, hr⟩
      · left
        refine ⟨?_, ?_⟩
        · intro j h1 h2
          by_cases hji : j = i
          · subst hji; exact hf
          · exact hall j (by omega) (by omega)
        · rw [data_block_alloc_loop, if_neg hf]; exact hr
      · right
        refine ⟨k, by omega, by omega, hk3, ?_, ?_⟩
        · intro j h1 h2
          by_cases hji : j = i
          · subst hji; exact hf
          · exact hk4 j (by omega) h2
        · rw [data_block_alloc_loop, if_neg hf]; exact hr

/-- `data_block_alloc` takes the block `b` when `b` is the lowest free one. -/
theorem data_block_alloc_first (c : Config) (s : State) (b : Nat) (hb : b < c.DATA_BLOCKS)
    (hfree : s.free_blocks b = FREE) (hlow : ∀ j, j < b → s.free_blocks j ≠ FREE) :
    data_block_alloc c s = ({ s with free_blocks := setAt s.free_blocks b TAKEN }, (b : Int)) := by
  unfold data_block_alloc
  rcases data_block_alloc_loop_cases s c.DATA_BLOCKS 0 with ⟨hall, _⟩ | ⟨k, _, _, hk3, hk4, hr⟩
  · exact absurd hfree (hall b (Nat.zero_le _) (by omega))
  · have hkb : k = b := by
      rcases Nat.lt_trichotomy k b with h | h | h
      · exact absurd hk3 (hlow k h)
      · exact h
      · exact absurd hfree (hk4 b (Nat.zero_le _) h)
    subst hkb
    exact hr

theorem init_dir_entries_outside (c : Config) (base : Nat) :
    ∀ n i (m : Nat → Byte) (x : Nat),
      (∀ j, i ≤ j → j < i + n → x < d_inumber_at c base j ∨ d_inumber_at c base j + 4 ≤ x) →
      init_dir_entries c base n i m x = m x := by
  intro n
  induction n with
  | zero => intro i m x _; rfl
  | succ n ih =>
    intro i m x h
    rw [init_dir_entries, ih (i + 1) _ x (fun j h1 h2 => h j (by omega) (by omega))]
    unfold writeInt
    rw [if_neg]
    have := h i (Nat.le_refl i) (by omega)
    omega

theorem d_inumber_at_apart (c : Config) (base i j : Nat) (h : i < j) :
    d_inumber_at c base i + 4 ≤ d_inumber_at c base j := by
  have := entry_before c base j i h
  simp only [d_inumber_at, d_name_at, sizeof_dir_entry, sizeof_int] at *
  omega

theorem init_dir_entries_empty (c : Config) (base : Nat) :
    ∀ n i (m : Nat → Byte) (j : Nat), i ≤ j → j < i + n →
      readInt (init_dir_entries c base n i m) (d_inumber_at c base j) = -1 := by
  intro n
  induction n with
  | zero => intro i m j h1 h2; omega
  | succ n ih =>
    intro i m j h1 h2
    rw [init_dir_entries]
    by_cases hji : j = i
    · subst hji
      rw [readInt_congr (writeInt m (d_inumber_at c base j) (-1))]
      · exact readInt_writeInt m _ (-1) (by omega) (by omega)
      · intro x hx1 hx2
        apply init_dir_entries_outside
        intro j2 hj1 hj2
        have := d_inumber_at_apart c base j j2 (by omega)
        omega
    · exact ih (i + 1) _ j (by omega) (by omega)

/-- `data_block_alloc` on a state given by its fields. -/
theorem data_block_alloc_fields (c : Config) (b : Nat) (hb : b < c.DATA_BLOCKS)
    (it : Nat → inode_t) (ft : Nat → allocation_state_t) (fd : Nat → Byte)
    (fb : Nat → allocation_state_t) (oft : Nat → open_file_entry_t)
    (fofe : Nat → allocation_state_t)
    (hfree : fb b = FREE) (hlow : ∀ j, j < b → fb j ≠ FREE) :
    data_block_alloc c ⟨it, ft, fd, fb, oft, fofe⟩ =
      (⟨it, ft, fd, setAt fb b TAKEN, oft, fofe⟩, (b : Int)) :=
  data_block_alloc_first c ⟨it, ft, fd, fb, oft, fofe⟩ b hb hfree hlow

/-- `inode_create(T_DIRECTORY)` when i-node 0 and block 0 are free. -/
theorem inode_create_directory (c : Config) (s : State) (hN : 1 ≤ c.INODE_TABLE_SIZE)
    (hD : 1 ≤ c.DATA_BLOCKS) (h0 : s.freeinode_ts 0 = FREE) (hb0 : s.free_blocks 0 = FREE) :
    ∃ s1, inode_create c s T_DIRECTORY = (s1, 0) ∧
      s1.freeinode_ts = setAt s.freeinode_ts 0 TAKEN ∧
      s1.free_blocks = setAt s.free_blocks 0 TAKEN ∧
      (s1.inode_table 0).i_node_type = T_DIRECTORY ∧
      (s1.inode_table 0).i_size = c.BLOCK_SIZE ∧
      (s1.inode_table 0).i_data_block 0 = 0 ∧
      s1.fs_data = init_dir_entries c 0 (MAX_DIR_ENTRIES c) 0 s.fs_data ∧
      s1.free_open_file_entries = s.free_open_file_entries ∧
      s1.open_file_table = s.open_file_table := by
  obtain ⟨n, hn⟩ : ∃ n, c.INODE_TABLE_SIZE = n + 1 := ⟨c.INODE_TABLE_SIZE - 1, by omega⟩
  have hget : data_block_get c ((0 : Nat) : Int) = some 0 := by
    simp [data_block_get, valid_block_number]; omega
  unfold inode_create
  rw [hn, inode_create_loop, if_pos h0]
  simp only [inode_create_at]
  rw [data_block_alloc_fields c 0 (by omega) _ _ _ _ _ _ hb0 (fun j hj => by omega)]
  simp only []
  rw [if_neg (by omega), hget]
  simp only []
  refine ⟨_, rfl, rfl, rfl, ?_, ?_, ?_, rfl, rfl, rfl⟩
  · simp [setAt_same]
  · simp [setAt_same]
  · simp [setAt]

/-- `tfs_init` returns 0 and leaves the tables fresh, whatever they held. -/
theorem tfs_init_fresh (c : Config) (hc : c.WF) (s0 : State) :
    ∃ s1, tfs_init c s0 = (s1, 0) ∧ Fresh c s1 := by
  have hN := hc.inodes
  have hD := hc.blocks
  obtain ⟨s1, e, e1, e2, e3, e4, e5, e6, e7, _⟩ := inode_create_directory c (state_init c s0).1
    (by omega) (by omega) (by simp [state_init]; omega) (by simp [state_init]; omega)
  unfold tfs_init
  have h1 : (state_init c s0).2 = 0 := rfl
  simp only [h1]
  rw [if_neg (by omega), e]
  simp only [hc.root]
  refine ⟨s1, rfl, ?_⟩
  constructor
  · rw [e1]; simp [setAt_same]
  · intro i h1 h2
    rw [e1]
    simp [setAt, state_init, h2]
    omega
  · rw [e2]; simp [setAt_same]
  · intro i h1 h2
    rw [e2]
    simp [setAt, state_init, h2]
    omega
  · exact e3
  · exact e4
  · exact e5
  · intro i hi
    rw [e6]
    exact init_dir_entries_empty c 0 (MAX_DIR_ENTRIES c) 0 _ i (Nat.zero_le _) (by omega)
  · intro i hi
    rw [e7]
    simp [state_init, hi]

/-! ## Lemmas on a write that fits one block -/

theorem usub_zero (n : Nat) (h : n < SIZE_MOD) : usub n 0 = n := by
  unfold usub SIZE_MOD at *
  omega

theorem uadd_zero (n : Nat) (h : n < SIZE_MOD) : uadd n 0 = n := by
  unfold uadd SIZE_MOD at *
  omega

theorem zero_uadd (n : Nat) (h : n < SIZE_MOD) : uadd 0 n = n := by
  unfold uadd SIZE_MOD at *
  omega

/-- After one block the loop variable `aux` is 0 or has wrapped above `n`. -/
theorem usub_block_exit (n bs : Nat) (h1 : n ≤ bs) (h2 : bs < SIZE_MOD) :
    ¬ (usub n bs > 0 ∧ usub n bs ≤ n) := by
  unfold usub SIZE_MOD at *
  omega

theorem block_size_small (c : Config) (hc : c.WF) : c.BLOCK_SIZE < 1073741824 := by
  have h1 := hc.fits
  have h2 := hc.blocks
  have : c.BLOCK_SIZE * 2 ≤ c.BLOCK_SIZE * c.DATA_BLOCKS := Nat.mul_le_mul_left _ h2
  omega

theorem block_in_range (c : Config) (b n : Nat) (hb : b < c.DATA_BLOCKS)
    (hn : n ≤ c.BLOCK_SIZE) : b * c.BLOCK_SIZE + n ≤ fs_size c := by
  unfold fs_size
  have : (b + 1) * c.BLOCK_SIZE ≤ c.DATA_BLOCKS * c.BLOCK_SIZE := Nat.mul_le_mul_right _ hb
  rw [Nat.add_mul, Nat.one_mul] at this
  rw [Nat.mul_comm c.BLOCK_SIZE]
  omega

theorem capacity_value (c : Config) (hc : c.WF) :
    umul c.BLOCK_SIZE (uadd (c.BLOCK_SIZE / sizeof_int) c.MAX_DIRECT_BLOCKS) =
      c.BLOCK_SIZE * (c.BLOCK_SIZE / sizeof_int + c.MAX_DIRECT_BLOCKS) := by
  have h1 := block_size_small c hc
  have h2 := hc.direct_int
  have h3 : c.BLOCK_SIZE / sizeof_int + c.MAX_DIRECT_BLOCKS < 4294967296 := by
    unfold sizeof_int; omega
  have h4 : c.BLOCK_SIZE * (c.BLOCK_SIZE / sizeof_int + c.MAX_DIRECT_BLOCKS) <
      1073741824 * 4294967296 := Nat.mul_lt_mul'' h1 h3
  have e1 : (c.BLOCK_SIZE / sizeof_int + c.MAX_DIRECT_BLOCKS) % 18446744073709551616 =
      c.BLOCK_SIZE / sizeof_int + c.MAX_DIRECT_BLOCKS := Nat.mod_eq_of_lt (by omega)
  unfold umul uadd SIZE_MOD
  rw [e1]
  exact Nat.mod_eq_of_lt (by omega)

theorem to_alloc_single (c : Config) (s : State) (n b : Nat) (hn1 : 1 ≤ n)
    (hn2 : n ≤ c.BLOCK_SIZE) (hb : b < c.DATA_BLOCKS) (hfree : s.free_blocks b = FREE)
    (hlow : ∀ j, j < b → s.free_blocks j ≠ FREE) :
    to_alloc c s n =
      ({ s with free_blocks := setAt s.free_blocks b TAKEN }, some [(b : Int), -1]) := by
  unfold to_alloc
  simp only [if_neg (show ¬ n > c.BLOCK_SIZE by omega), if_neg (show ¬ n = 0 by omega)]
  simp only [Nat.mod_one, ne_eq, not_true_eq_false, if_false]
  rw [to_alloc_loop]
  simp only [data_block_alloc_first c s b hb hfree hlow]
  rw [if_neg (by omega)]
  rfl

theorem write_prepare_empty (c : Config) (hc : c.WF) (s : State) (k off n b : Nat)
    (hsize : (s.inode_table k).i_size = 0) (hn1 : 1 ≤ n) (hn2 : n ≤ c.BLOCK_SIZE)
    (hb : b < c.DATA_BLOCKS) (hfree : s.free_blocks b = FREE)
    (hlow : ∀ j, j < b → s.free_blocks j ≠ FREE) :
    write_prepare c s k off n =
      some ⟨n, 0, 0, none, { s with free_blocks := setAt s.free_blocks b TAKEN },
        some [(b : Int), -1]⟩ := by
  have hcap : ¬ n > c.BLOCK_SIZE * (c.BLOCK_SIZE / sizeof_int + c.MAX_DIRECT_BLOCKS) := by
    have h1 := hc.direct
    have : c.BLOCK_SIZE * 1 ≤ c.BLOCK_SIZE * (c.BLOCK_SIZE / sizeof_int + c.MAX_DIRECT_BLOCKS) :=
      Nat.mul_le_mul_left _ (by unfold sizeof_int; omega)
    omega
  unfold write_prepare
  simp only [hsize, if_true, capacity_value c hc, if_neg hcap]
  rw [to_alloc_single c s n b hn1 hn2 hb hfree hlow]

theorem write_attach_single (c : Config) (hc : c.WF) (s : State) (k b : Nat) :
    write_attach c s k [(b : Int), -1] 0 0 none =
      some ⟨{ s with
          inode_table := setAt s.inode_table k
            { s.inode_table k with
              i_data_block := setAt (setAt (s.inode_table k).i_data_block 0 b) 1 (-1) } },
        0, 0, none⟩ := by
  have hd := hc.direct
  have hg : give_size [(b : Int), -1] = 1 := by
    simp [give_size]
  unfold write_attach
  simp only [hg]
  have ha : assign_direct c [(b : Int), -1] 1 1 (s.inode_table k).i_data_block 0 0 =
      (setAt (s.inode_table k).i_data_block 0 b, 1, 1) := by
    rw [assign_direct, if_pos ⟨by omega, by omega⟩]
    rfl
  simp only [ha]
  have hne : (1 : Nat) ≠ c.MAX_DIRECT_BLOCKS := by omega
  have hlt : (1 : Nat) < c.MAX_DIRECT_BLOCKS := by omega
  have hgt : ¬ (1 : Nat) > c.MAX_DIRECT_BLOCKS := by omega
  simp [hne, hlt, hgt]

theorem data_block_get_valid (c : Config) (b : Nat) (hb : b < c.DATA_BLOCKS) :
    data_block_get c (b : Int) = some (b * c.BLOCK_SIZE) := by
  simp [data_block_get, valid_block_number]
  omega

theorem single_chunk (c : Config) (n : Nat) (hn : n ≤ c.BLOCK_SIZE) :
    (if n / c.BLOCK_SIZE > 1 then c.BLOCK_SIZE else n) = n := by
  rw [if_neg]
  intro h
  have h1 : n / c.BLOCK_SIZE ≤ 1 := by
    rcases Nat.eq_zero_or_pos c.BLOCK_SIZE with h0 | h0
    · rw [h0, Nat.div_zero]; omega
    · exact (Nat.div_le_iff_le_mul_add_pred h0).2 (by omega)
  omega

/-- The copy loop of `tfs_write` for `n <= BLOCK_SIZE` bytes at cursor 0 into
    the block of direct slot 0: one `memcpy`, then the loop ends. -/
theorem write_loop_single (c : Config) (hc : c.WF) (s : State) (k b n fuel : Nat)
    (buf : Nat → Byte) (hslot : (s.inode_table k).i_data_block 0 = (b : Int))
    (hb : b < c.DATA_BLOCKS) (hn1 : 1 ≤ n) (hn2 : n ≤ c.BLOCK_SIZE) :
    write_loop c k buf n 0 (fuel + 2) s n 0 0 none =
      some ({ s with
        fs_data := memcpy_in s.fs_data (b * c.BLOCK_SIZE) buf n
        inode_table := setAt s.inode_table k
          { s.inode_table k with i_size := uadd (s.inode_table k).i_size n } }, 0) := by
  have hBS := block_size_small c hc
  have hentry := hc.entry
  have hd := hc.direct
  have hsz : 0 < c.BLOCK_SIZE / sizeof_int := Nat.div_pos (by unfold sizeof_int; omega) (by decide)
  have hnM : n < SIZE_MOD := by unfold SIZE_MOD; omega
  rw [write_loop, if_pos ⟨by omega, Nat.le_refl n, hsz⟩]
  simp only [single_chunk c n hn2]
  rw [if_pos (by omega), hslot, data_block_get_valid c b hb]
  simp only [write_copy, if_true, usub_zero n hnM, uadd_zero n hnM, Nat.add_zero]
  rw [if_pos (block_in_range c b n hb hn2)]
  simp only []
  rw [write_loop, if_neg]
  intro h
  exact usub_block_exit n c.BLOCK_SIZE hn2 (by unfold SIZE_MOD; omega) ⟨h.1, h.2.1⟩

theorem to_ssize_small (n : Nat) (h : n < 9223372036854775808) : to_ssize n = (n : Int) := by
  unfold to_ssize SIZE_MOD
  have e : n % 18446744073709551616 = n := Nat.mod_eq_of_lt (by omega)
  rw [e, if_pos h]

/-- A `tfs_write` of `1 <= n <= BLOCK_SIZE` bytes through a handle with cursor 0
    on an empty file takes the lowest free block `b`, copies the bytes to its
    start and returns `n`. -/
theorem tfs_write_single_block (c : Config) (hc : c.WF) (s : State) (h k b n : Nat)
    (buf : Nat → Byte) (hh : h < c.MAX_OPEN_FILES)
    (hentry : s.open_file_table h = ⟨(k : Int), 0⟩) (hk : k < c.INODE_TABLE_SIZE)
    (hsize : (s.inode_table k).i_size = 0) (hn1 : 1 ≤ n) (hn2 : n ≤ c.BLOCK_SIZE)
    (hb : b < c.DATA_BLOCKS) (hfree : s.free_blocks b = FREE)
    (hlow : ∀ j, j < b → s.free_blocks j ≠ FREE) :
    ∃ s1, tfs_write c s (h : Int) buf n = some (s1, (n : Int)) ∧
      s1.fs_data = memcpy_in s.fs_data (b * c.BLOCK_SIZE) buf n ∧
      (s1.inode_table k).i_size = n ∧ (s1.inode_table k).i_data_block 0 = (b : Int) ∧
      (∀ j, j ≠ k → s1.inode_table j = s.inode_table j) ∧
      s1.free_open_file_entries = s.free_open_file_entries ∧
      s1.freeinode_ts = s.freeinode_ts ∧
      s1.free_blocks = setAt s.free_blocks b TAKEN ∧
      s1.open_file_table = setAt s.open_file_table h ⟨(k : Int), n % c.BLOCK_SIZE⟩ := by
  have hBS := block_size_small c hc
  have hvh : valid_file_handle c (h : Int) = true := by
    simp [valid_file_handle]; omega
  have hvk : valid_inumber c (k : Int) = true := by
    simp [valid_inumber]; omega
  have hfuel : n + walk_fuel c = (n + c.MAX_DIRECT_BLOCKS + c.BLOCK_SIZE / sizeof_int) + 2 := by
    unfold walk_fuel; omega
  unfold tfs_write
  simp only [get_open_file_entry, hvh, if_true, Int.toNat_ofNat, hentry, inode_get, hvk]
  rw [if_pos (by omega), write_prepare_empty c hc s k 0 n b hsize hn1 hn2 hb hfree hlow]
  simp only []
  rw [write_attach_single c hc]
  simp only []
  rw [hfuel, write_loop_single c hc _ k b n _ buf (by simp [setAt]) hb hn1 hn2]
  simp only []
  rw [if_neg (by omega), to_ssize_small n (by omega)]
  refine ⟨_, rfl, rfl, ?_, ?_, ?_, rfl, rfl, rfl, ?_⟩
  · simp [setAt_same, hsize, zero_uadd n (by unfold SIZE_MOD; omega)]
  · simp [setAt_same, setAt]
  · intro j hj
    simp [setAt, hj]
  · simp [hentry]

/-- A `tfs_read` through a handle with cursor 0 that asks for at most one block
    copies the start of the block of direct slot 0 and returns
    `min(len, i_size)`. -/
theorem tfs_read_single_block (c : Config) (hc : c.WF) (s : State) (h k b len : Nat)
    (out : Nat → Byte) (hh : h < c.MAX_OPEN_FILES)
    (hentry : s.open_file_table h = ⟨(k : Int), 0⟩) (hk : k < c.INODE_TABLE_SIZE)
    (hslot : (s.inode_table k).i_data_block 0 = (b : Int)) (hb : b < c.DATA_BLOCKS)
    (hsz : (s.inode_table k).i_size < SIZE_MOD)
    (hr1 : 1 ≤ min len (s.inode_table k).i_size)
    (hr2 : min len (s.inode_table k).i_size ≤ c.BLOCK_SIZE) :
    tfs_read c s (h : Int) out len =
      some (memcpy_out out s.fs_data (b * c.BLOCK_SIZE) (min len (s.inode_table k).i_size),
        ((min len (s.inode_table k).i_size : Nat) : Int)) := by
  have hBS := block_size_small c hc
  have hd := hc.direct
  have hvh : valid_file_handle c (h : Int) = true := by
    simp [valid_file_handle]; omega
  have hvk : valid_inumber c (k : Int) = true := by
    simp [valid_inumber]; omega
  generalize hrdef : min len (s.inode_table k).i_size = r at *
  have hto : (if usub (s.inode_table k).i_size 0 > len then len
      else usub (s.inode_table k).i_size 0) = r := by
    rw [usub_zero _ hsz, ← hrdef]
    split <;> omega
  have hrM : r < SIZE_MOD := by unfold SIZE_MOD; omega
  have hfuel : r + fs_size c + walk_fuel c =
      (r + fs_size c + c.MAX_DIRECT_BLOCKS + c.BLOCK_SIZE / sizeof_int) + 2 := by
    unfold walk_fuel; omega
  unfold tfs_read
  simp only [get_open_file_entry, hvh, if_true, Int.toNat_ofNat, hentry, inode_get, hvk, hto]
  rw [if_pos (by omega), hfuel, read_loop, if_pos ⟨by omega, Nat.le_refl r⟩]
  simp only [single_chunk c r hr2, if_pos (show 0 < c.MAX_DIRECT_BLOCKS by omega), hslot,
    data_block_get_valid c b hb, if_true, usub_zero r hrM, uadd_zero r hrM, Nat.add_zero]
  rw [if_pos (block_in_range c b r hb hr2), read_loop, if_neg]
  · simp only []
    rw [if_neg (by omega), to_ssize_small r (by omega)]
  · exact usub_block_exit r c.BLOCK_SIZE hr2 (by unfold SIZE_MOD; omega)

/-! ## Scenario A, step by step -/

theorem inode_create_first (c : Config) (s : State) (t : inode_type) (k : Nat)
    (hk : k < c.INODE_TABLE_SIZE) (hfree : s.freeinode_ts k = FREE)
    (hlow : ∀ j, j < k → s.freeinode_ts j ≠ FREE) :
    inode_create c s t = inode_create_at c s t k := by
  unfold inode_create
  rcases inode_create_loop_cases c s t c.INODE_TABLE_SIZE 0 with
    ⟨hall, _⟩ | ⟨k1, _, _, hk3, hk4, hr⟩
  · exact absurd hfree (hall k (Nat.zero_le _) (by omega))
  · have hkb : k1 = k := by
      rcases Nat.lt_trichotomy k1 k with h | h | h
      · exact absurd hk3 (hlow k1 h)
      · exact h
      · exact absurd hfree (hk4 k (Nat.zero_le _) h)
    subst hkb
    exact hr

theorem add_to_open_file_table_first (c : Config) (s : State) (inumber : Int) (offset k : Nat)
    (hk : k < c.MAX_OPEN_FILES) (hfree : s.free_open_file_entries k = FREE)
    (hlow : ∀ j, j < k → s.free_open_file_entries j ≠ FREE) :
    add_to_open_file_table c s inumber offset =
      ({ s with
          free_open_file_entries := setAt s.free_open_file_entries k TAKEN
          open_file_table := setAt s.open_file_table k ⟨inumber, offset⟩ }, (k : Int)) := by
  unfold add_to_open_file_table
  rcases add_to_open_file_table_loop_cases s inumber offset c.MAX_OPEN_FILES 0 with
    ⟨hall, _⟩ | ⟨k1, _, _, hk3, hk4, hr⟩
  · exact absurd hfree (hall k (Nat.zero_le _) (by omega))
  · have hkb : k1 = k := by
      rcases Nat.lt_trichotomy k1 k with h | h | h
      · exact absurd hk3 (hlow k1 h)
      · exact h
      · exact absurd hfree (hk4 k (Nat.zero_le _) h)
    subst hkb
    exact hr

theorem add_dir_entry_first (c : Config) (s : State) (base : Nat) (inum : Int)
    (name : List Byte) (k : Nat) (hroot : root_dir_base c s = some base)
    (hv : valid_inumber c inum = true) (hname : strlen name ≠ 0)
    (hk : k < MAX_DIR_ENTRIES c) (hfree : readInt s.fs_data (d_inumber_at c base k) = -1)
    (hlow : ∀ j, j < k → readInt s.fs_data (d_inumber_at c base j) ≠ -1) :
    add_dir_entry c s c.ROOT_DIR_INUM inum name =
      ({ s with fs_data := filled_entry c s.fs_data base k inum name }, 0) := by
  unfold root_dir_base at hroot
  split at hroot
  · rename_i hcond
    unfold add_dir_entry
    rw [if_neg (by simp [hcond.1, hv]), if_neg (by simp [hcond.2]), if_neg hname, hroot]
    simp only []
    rcases add_dir_entry_loop_cases c s base inum name (MAX_DIR_ENTRIES c) 0 with
      ⟨hall, _⟩ | ⟨k1, _, _, hk3, hk4, hr⟩
    · exact absurd hfree (hall k (Nat.zero_le _) (by omega))
    · have hkb : k1 = k := by
        rcases Nat.lt_trichotomy k1 k with h | h | h
        · exact absurd hk3 (hlow k1 h)
        · exact h
        · exact absurd hfree (hk4 k (Nat.zero_le _) h)
      subst hkb
      exact hr
  · cases hroot

theorem add_dir_entry_fields (c : Config) (base : Nat) (inum : Int) (name : List Byte) (k : Nat)
    (it : Nat → inode_t) (ft : Nat → allocation_state_t) (fd : Nat → Byte)
    (fb : Nat → allocation_state_t) (oft : Nat → open_file_entry_t)
    (fofe : Nat → allocation_state_t)
    (hroot : root_dir_base c ⟨it, ft, fd, fb, oft, fofe⟩ = some base)
    (hv : valid_inumber c inum = true) (hname : strlen name ≠ 0)
    (hk : k < MAX_DIR_ENTRIES c) (hfree : readInt fd (d_inumber_at c base k) = -1)
    (hlow : ∀ j, j < k → readInt fd (d_inumber_at c base j) ≠ -1) :
    add_dir_entry c ⟨it, ft, fd, fb, oft, fofe⟩ c.ROOT_DIR_INUM inum name =
      (⟨it, ft, filled_entry c fd base k inum name, fb, oft, fofe⟩, 0) :=
  add_dir_entry_first c ⟨it, ft, fd, fb, oft, fofe⟩ base inum name k hroot hv hname hk hfree hlow

theorem add_to_open_file_table_fields (c : Config) (inumber : Int) (offset k : Nat)
    (it : Nat → inode_t) (ft : Nat → allocation_state_t) (fd : Nat → Byte)
    (fb : Nat → allocation_state_t) (oft : Nat → open_file_entry_t)
    (fofe : Nat → allocation_state_t)
    (hk : k < c.MAX_OPEN_FILES) (hfree : fofe k = FREE) (hlow : ∀ j, j < k → fofe j ≠ FREE) :
    add_to_open_file_table c ⟨it, ft, fd, fb, oft, fofe⟩ inumber offset =
      (⟨it, ft, fd, fb, setAt oft k ⟨inumber, offset⟩, setAt fofe k TAKEN⟩, (k : Int)) :=
  add_to_open_file_table_first c ⟨it, ft, fd, fb, oft, fofe⟩ inumber offset k hk hfree hlow

theorem root_dir_base_zero (c : Config) (hc : c.WF) (s : State)
    (ht : (s.inode_table 0).i_node_type = T_DIRECTORY)
    (hb : (s.inode_table 0).i_data_block 0 = 0) : root_dir_base c s = some 0 := by
  have h1 := hc.inodes
  have h2 := hc.blocks
  unfold root_dir_base
  rw [hc.root]
  simp [valid_inumber, ht, hb, data_block_get, valid_block_number]
  omega

theorem entry_matches_congr (c : Config) (m m1 : Nat → Byte) (base i : Nat) (name : List Byte)
    (h : ∀ x, d_name_at c base i ≤ x → x < d_name_at c base i + sizeof_dir_entry c →
      m1 x = m x) :
    entry_matches c m1 base name i ↔ entry_matches c m base name i := by
  have hi : d_inumber_at c base i = d_name_at c base i + c.MAX_FILE_NAME := rfl
  have hs : sizeof_dir_entry c = c.MAX_FILE_NAME + 4 := rfl
  unfold entry_matches
  rw [readInt_congr m m1 (d_inumber_at c base i) (fun x hx1 hx2 => h x (by omega) (by omega))]
  rw [strncmp_eq_congr m m1 (d_name_at c base i) name c.MAX_FILE_NAME 0
    (fun x hx1 hx2 => h x (by omega) (by omega))]

/-- On fresh tables `tfs_open("/f1", TFS_O_CREAT)` takes i-node 1, directory
    entry 0 and handle 0. -/
theorem tfs_open_create_fresh (c : Config) (hc : c.WF) (s : State) (hf : Fresh c s) :
    ∃ s1, tfs_open c s (some path_f1) c.TFS_O_CREAT = some (s1, 0) ∧
      s1.fs_data = filled_entry c s.fs_data 0 0 1 (path_f1.drop 1) ∧
      s1.inode_table 0 = s.inode_table 0 ∧ (s1.inode_table 1).i_size = 0 ∧
      s1.free_blocks = s.free_blocks ∧ s1.open_file_table 0 = ⟨1, 0⟩ ∧
      s1.free_open_file_entries = setAt s.free_open_file_entries 0 TAKEN ∧
      s1.freeinode_ts = setAt s.freeinode_ts 1 TAKEN := by
  have hN := hc.inodes
  have hvp : valid_pathname (some path_f1) = true := by decide
  have hroot := root_dir_base_zero c hc s hf.root_type hf.root_block
  have hentries : 0 < MAX_DIR_ENTRIES c :=
    Nat.div_pos (by unfold sizeof_dir_entry sizeof_int; exact hc.entry)
      (by unfold sizeof_dir_entry sizeof_int; omega)
  have hlook : tfs_lookup c s (some path_f1) = -1 := by
    apply tfs_lookup_unresolvable
    right
    refine ⟨path_f1, rfl, Or.inr (Or.inr ?_)⟩
    rintro ⟨base, hb, i, hi, hm⟩
    rw [hroot] at hb
    cases hb
    exact hm.1 (hf.entries i hi)
  have hflag : c.TFS_O_CREAT &&& c.TFS_O_CREAT ≠ 0 := by
    rw [Nat.and_self]; exact hc.creat
  have hv1 : valid_inumber c ((1 : Nat) : Int) = true := by
    simp [valid_inumber]; omega
  unfold tfs_open
  simp only [hvp, not_true_eq_false, if_false, hlook]
  rw [if_neg (by omega), if_pos hflag,
    inode_create_first c s T_FILE 1 (by omega) (hf.inodes 1 (by omega) (by omega))
      (fun j hj => by
        have : j = 0 := by omega
        subst this
        rw [hf.inode0]
        decide)]
  simp only [inode_create_at]
  rw [if_neg (by omega),
    add_dir_entry_fields c 0 ((1 : Nat) : Int) (path_f1.drop 1) 0 _ _ _ _ _ _ ?_
      hv1 (by decide) hentries (hf.entries 0 hentries) (fun j hj => by omega)]
  · simp only []
    rw [if_neg (by omega),
      add_to_open_file_table_fields c ((1 : Nat) : Int) 0 0 _ _ _ _ _ _
        (by have := hc.handles; omega) (hf.handles 0 (by have := hc.handles; omega))
        (fun j hj => by omega)]
    refine ⟨_, rfl, rfl, ?_, ?_, rfl, ?_, rfl, rfl⟩
    · simp [setAt]
    · simp [setAt]
    · simp [setAt]
  · exact root_dir_base_zero c hc _ (by simp [setAt]; exact hf.root_type)
      (by simp [setAt]; exact hf.root_block)

/-- `tfs_open` with flags 0 on a path that resolves to the i-node `k` installs
    `(k, 0)` in the lowest free handle `h` and changes nothing else. -/
theorem tfs_open_existing_plain (c : Config) (s : State) (str : List Byte) (k h : Nat)
    (hvp : valid_pathname (some str) = true) (hlook : tfs_lookup c s (some str) = (k : Int))
    (hk : k < c.INODE_TABLE_SIZE) (hh : h < c.MAX_OPEN_FILES)
    (hfree : s.free_open_file_entries h = FREE)
    (hlow : ∀ j, j < h → s.free_open_file_entries j ≠ FREE) :
    tfs_open c s (some str) 0 =
      some ({ s with
          free_open_file_entries := setAt s.free_open_file_entries h TAKEN
          open_file_table := setAt s.open_file_table h ⟨(k : Int), 0⟩ }, (h : Int)) := by
  have hvk : valid_inumber c (k : Int) = true := by
    simp [valid_inumber]; omega
  unfold tfs_open
  simp only [hvp, not_true_eq_false, if_false, hlook, inode_get, hvk, if_true, Nat.zero_and,
    ne_eq, Int.toNat_ofNat]
  rw [if_pos (by omega)]
  simp only [add_to_open_file_table_first c s (k : Int) 0 h hh hfree hlow]

theorem tfs_close_open_handle (c : Config) (s : State) (h : Nat) (hh : h < c.MAX_OPEN_FILES)
    (ht : s.free_open_file_entries h = TAKEN) :
    tfs_close c s (h : Int) =
      ({ s with free_open_file_entries := setAt s.free_open_file_entries h FREE }, 0) := by
  have hvh : valid_file_handle c (h : Int) = true := by
    simp [valid_file_handle]; omega
  unfold tfs_close remove_from_open_file_table
  rw [if_neg (by simp [hvh, ht])]
  rfl

theorem stdConfig_wf : stdConfig.WF :=
  ⟨by decide, by decide, by decide, by decide, by decide, by decide, by decide, by decide,
    by decide, by decide, by decide⟩

/-! ## Lemmas on the free maps and the i-node table -/

theorem not_free_iff_taken (a : allocation_state_t) : a ≠ FREE ↔ a = TAKEN := by
  cases a <;> simp

theorem inode_create_file_cases (c : Config) (s : State) :
    ((∀ i, i < c.INODE_TABLE_SIZE → s.freeinode_ts i = TAKEN) ∧
      inode_create c s T_FILE = (s, -1)) ∨
    ∃ k, k < c.INODE_TABLE_SIZE ∧ s.freeinode_ts k = FREE ∧
      (∀ j, j < k → s.freeinode_ts j = TAKEN) ∧
      inode_create c s T_FILE =
        ({ s with
            freeinode_ts := setAt s.freeinode_ts k TAKEN
            inode_table := setAt s.inode_table k
              { i_node_type := T_FILE, i_size := 0,
                i_data_block := setAt (s.inode_table k).i_data_block 0 (-1) } }, (k : Int)) := by
  unfold inode_create
  rcases inode_create_loop_cases c s T_FILE c.INODE_TABLE_SIZE 0 with
    ⟨hall, hr⟩ | ⟨k, _, hk, hfree, hlow, hr⟩
  · exact Or.inl ⟨fun i hi => (not_free_iff_taken _).1 (hall i (Nat.zero_le i) (by omega)), hr⟩
  · refine Or.inr ⟨k, by omega, hfree,
      fun j hj => (not_free_iff_taken _).1 (hlow j (Nat.zero_le j) hj), ?_⟩
    rw [hr]
    rfl

theorem inode_delete_empty_cases (c : Config) (s : State) (inumber : Int)
    (hinv : taken_inodes_empty c s) :
    inode_delete c s inumber = some (s, -1) ∨
    ∃ k, k < c.INODE_TABLE_SIZE ∧ s.freeinode_ts k = TAKEN ∧
      inode_delete c s inumber =
        some ({ s with freeinode_ts := setAt s.freeinode_ts k FREE }, 0) := by
  unfold inode_delete
  by_cases h : ¬ valid_inumber c inumber = true ∨ s.freeinode_ts inumber.toNat = FREE
  · left
    rw [if_pos h]
  · right
    rw [if_neg h]
    have hv : valid_inumber c inumber = true := by
      by_contra hx
      exact h (Or.inl hx)
    have ht : s.freeinode_ts inumber.toNat = TAKEN :=
      (not_free_iff_taken _).1 (fun hx => h (Or.inr hx))
    have hr : 0 ≤ inumber ∧ inumber < (c.INODE_TABLE_SIZE : Int) := by
      simpa [valid_inumber] using hv
    have hk : inumber.toNat < c.INODE_TABLE_SIZE := by omega
    refine ⟨inumber.toNat, hk, ht, ?_⟩
    have hz := hinv inumber.toNat hk ht
    simp only []
    rw [if_neg (by omega)]

theorem inode_calls_total (c : Config) (s0 : State) :
    ∀ (calls : List inode_call) (s : State), taken_inodes_empty c s →
      (∀ i, c.INODE_TABLE_SIZE ≤ i → s.freeinode_ts i = s0.freeinode_ts i) →
      ∃ s1, inode_calls c calls s = some s1 ∧ taken_inodes_empty c s1 ∧
        ∀ i, c.INODE_TABLE_SIZE ≤ i → s1.freeinode_ts i = s0.freeinode_ts i := by
  intro calls
  induction calls with
  | nil => intro s h1 h2; exact ⟨s, rfl, h1, h2⟩
  | cons call rest ih =>
    intro s h1 h2
    cases call with
    | create =>
      simp only [inode_calls]
      apply ih
      · rcases inode_create_file_cases c s with ⟨_, hr⟩ | ⟨k, hk, _, _, hr⟩
        · rw [hr]; exact h1
        · rw [hr]
          intro i hi ht
          by_cases hik : i = k
          · subst hik
            simp [setAt_same]
          · simp only [] at ht ⊢
            rw [setAt_other _ _ _ _ hik] at ht ⊢
            exact h1 i hi ht
      · rcases inode_create_file_cases c s with ⟨_, hr⟩ | ⟨k, hk, _, _, hr⟩
        · rw [hr]; exact h2
        · rw [hr]
          intro i hi
          simp only []
          rw [setAt_other _ _ _ _ (by omega)]
          exact h2 i hi
    | delete inumber =>
      simp only [inode_calls]
      rcases inode_delete_empty_cases c s inumber h1 with hr | ⟨k, hk, _, hr⟩
      · rw [hr]
        exact ih s h1 h2
      · rw [hr]
        apply ih
        · intro i hi ht
          by_cases hik : i = k
          · subst hik
            simp [setAt_same] at ht
          · simp only [] at ht ⊢
            rw [setAt_other _ _ _ _ hik] at ht
            exact h1 i hi ht
        · intro i hi
          simp only []
          rw [setAt_other _ _ _ _ (by omega)]
          exact h2 i hi

theorem fresh_lookup (c : Config) (hc : c.WF) (s : State) (hf : Fresh c s)
    (path : Option (List Byte)) : tfs_lookup c s path = -1 := by
  apply tfs_lookup_unresolvable
  cases path with
  | none => exact Or.inl rfl
  | some str =>
    refine Or.inr ⟨str, rfl, Or.inr (Or.inr ?_)⟩
    rintro ⟨base, hb, i, hi, hm⟩
    rw [root_dir_base_zero c hc s hf.root_type hf.root_block] at hb
    cases hb
    exact hm.1 (hf.entries i hi)

/-! ## Lemmas on the end of the truncation walk -/

theorem data_block_free_keeps (c : Config) (s : State) (v : Int) :
    (data_block_free c s v).1.inode_table = s.inode_table ∧
    (data_block_free c s v).1.freeinode_ts = s.freeinode_ts ∧
    (data_block_free c s v).1.fs_data = s.fs_data ∧
    (data_block_free c s v).1.open_file_table = s.open_file_table ∧
    (data_block_free c s v).1.free_open_file_entries = s.free_open_file_entries := by
  unfold data_block_free
  split <;> simp

theorem truncate_loop_keeps (c : Config) (inode : inode_t) :
    ∀ fuel (s : State) (i j : Nat) (pointer : Option Nat) (s1 : State) (i1 : Nat),
      truncate_loop c inode fuel s i j pointer = some (s1, i1) →
      s1.inode_table = s.inode_table ∧ s1.freeinode_ts = s.freeinode_ts ∧
      s1.fs_data = s.fs_data ∧ s1.open_file_table = s.open_file_table ∧
      s1.free_open_file_entries = s.free_open_file_entries := by
  intro fuel
  induction fuel with
  | zero => intro s i j pointer s1 i1 h; simp [truncate_loop] at h
  | succ f ih =>
    intro s i j pointer s1 i1 h
    unfold truncate_loop at h
    split at h
    · split at h
      · split at h
        · cases h
        · split at h
          · cases h; exact ⟨rfl, rfl, rfl, rfl, rfl⟩
          · rename_i v _ _
            obtain ⟨a1, a2, a3, a4, a5⟩ := ih _ _ _ _ _ _ h
            obtain ⟨b1, b2, b3, b4, b5⟩ := data_block_free_keeps c s v
            exact ⟨a1.trans b1, a2.trans b2, a3.trans b3, a4.trans b4, a5.trans b5⟩
      · split at h
        · cases h; exact ⟨rfl, rfl, rfl, rfl, rfl⟩
        · split at h
          · exact ih _ _ _ _ _ _ h
          · obtain ⟨a1, a2, a3, a4, a5⟩ := ih _ _ _ _ _ _ h
            obtain ⟨b1, b2, b3, b4, b5⟩ := data_block_free_keeps c s (inode.i_data_block i)
            exact ⟨a1.trans b1, a2.trans b2, a3.trans b3, a4.trans b4, a5.trans b5⟩
    · cases h; exact ⟨rfl, rfl, rfl, rfl, rfl⟩

theorem readIntAt_block (c : Config) (m : Nat → Byte) (b j : Nat) (hb : b < c.DATA_BLOCKS)
    (hj : j < c.BLOCK_SIZE / sizeof_int) :
    readIntAt c m (some (b * c.BLOCK_SIZE)) j =
      some (readInt m (b * c.BLOCK_SIZE + sizeof_int * j)) := by
  have h4 : 4 * (j + 1) ≤ c.BLOCK_SIZE := by
    unfold sizeof_int at hj
    have := Nat.mul_div_le c.BLOCK_SIZE 4
    have h5 : 4 * (j + 1) ≤ 4 * (c.BLOCK_SIZE / 4) := Nat.mul_le_mul_left 4 hj
    omega
  have h6 := block_in_range c b (4 * (j + 1)) hb h4
  unfold readIntAt
  simp only []
  rw [if_pos (by unfold sizeof_int; omega)]

theorem truncate_loop_indirect_some (c : Config) (inode : inode_t) (b : Nat)
    (hb : b < c.DATA_BLOCKS) :
    ∀ fuel (s : State) (i j : Nat), i > c.MAX_DIRECT_BLOCKS →
      c.BLOCK_SIZE / sizeof_int + 1 ≤ j + fuel → 1 ≤ fuel →
      ∃ r, truncate_loop c inode fuel s i j (some (b * c.BLOCK_SIZE)) = some r := by
  intro fuel
  induction fuel with
  | zero => intro s i j _ _ h; omega
  | succ f ih =>
    intro s i j hi hf _
    unfold truncate_loop
    by_cases hj : j < c.BLOCK_SIZE / sizeof_int
    · rw [if_pos hj, if_pos hi, readIntAt_block c s.fs_data b j hb hj]
      simp only []
      split
      · exact ⟨_, rfl⟩
      · exact ih _ (i + 1) (j + 1) (by omega) (by omega) (by omega)
    · rw [if_neg hj]
      exact ⟨_, rfl⟩

theorem data_block_get_of_valid (c : Config) (v : Int) (hv : valid_block_number c v = true) :
    v.toNat < c.DATA_BLOCKS ∧ data_block_get c v = some (v.toNat * c.BLOCK_SIZE) := by
  have hr : 0 ≤ v ∧ v < (c.DATA_BLOCKS : Int) := by
    simpa [valid_block_number] using hv
  refine ⟨by omega, ?_⟩
  unfold data_block_get
  rw [if_pos hv]

theorem truncate_loop_direct_some (c : Config) (inode : inode_t) :
    ∀ fuel (s : State) (i : Nat) (pointer : Option Nat), i ≤ c.MAX_DIRECT_BLOCKS →
      ((∃ i0, i ≤ i0 ∧ i0 ≤ c.MAX_DIRECT_BLOCKS ∧ inode.i_data_block i0 = -1) ∨
        valid_block_number c (inode.i_data_block c.MAX_DIRECT_BLOCKS) = true) →
      (c.MAX_DIRECT_BLOCKS - i) + c.BLOCK_SIZE / sizeof_int + 2 ≤ fuel →
      ∃ r, truncate_loop c inode fuel s i 0 pointer = some r := by
  intro fuel
  induction fuel with
  | zero => intro s i pointer _ _ h; unfold sizeof_int at h; omega
  | succ f ih =>
    intro s i pointer hi hw hf
    unfold truncate_loop
    by_cases hj : 0 < c.BLOCK_SIZE / sizeof_int
    · rw [if_pos hj, if_neg (by omega)]
      by_cases hend : inode.i_data_block i = -1
      · rw [if_pos hend]
        exact ⟨_, rfl⟩
      · rw [if_neg hend]
        by_cases hlast : i = c.MAX_DIRECT_BLOCKS
        · rw [if_pos hlast]
          have hv : valid_block_number c (inode.i_data_block c.MAX_DIRECT_BLOCKS) = true := by
            rcases hw with ⟨i0, h1, h2, h3⟩ | hv
            · have : i0 = i := by omega
              subst this
              exact absurd h3 hend
            · exact hv
          obtain ⟨hb, hg⟩ := data_block_get_of_valid c _ hv
          rw [hlast, hg]
          exact truncate_loop_indirect_some c inode _ hb f s _ 0 (by omega) (by omega) (by omega)
        · rw [if_neg hlast]
          apply ih _ (i + 1) pointer (by omega) _ (by omega)
          rcases hw with ⟨i0, h1, h2, h3⟩ | hv
          · left
            refine ⟨i0, ?_, h2, h3⟩
            by_contra hx
            have : i0 = i := by omega
            subst this
            exact hend h3
          · exact Or.inr hv
    · rw [if_neg hj]
      exact ⟨_, rfl⟩

theorem tfs_truncate_some (c : Config) (s : State) (k : Nat)
    (hw : walk_ends c (s.inode_table k)) :
    ∃ st, tfs_truncate c s k = some st ∧ (st.inode_table k).i_size = 0 ∧
      st.freeinode_ts = s.freeinode_ts ∧ st.fs_data = s.fs_data ∧
      st.open_file_table = s.open_file_table ∧
      st.free_open_file_entries = s.free_open_file_entries := by
  unfold tfs_truncate
  by_cases hsize : (s.inode_table k).i_size > 0
  · rw [if_pos hsize]
    obtain ⟨⟨s1, i1⟩, hr⟩ := truncate_loop_direct_some c (s.inode_table k) (walk_fuel c) s 0 none
      (Nat.zero_le _)
      (by
        rcases hw with ⟨i0, h1, h2⟩ | hv
        · exact Or.inl ⟨i0, Nat.zero_le _, h1, h2⟩
        · exact Or.inr hv)
      (by unfold walk_fuel; omega)
    obtain ⟨a1, a2, a3, a4, a5⟩ := truncate_loop_keeps c _ _ _ _ _ _ _ _ hr
    rw [hr]
    simp only []
    refine ⟨_, rfl, by simp [setAt_same], ?_, ?_, ?_, ?_⟩
    · simp only []
      split
      · rw [(data_block_free_keeps c s1 _).2.1, a2]
      · exact a2
    · simp only []
      split
      · rw [(data_block_free_keeps c s1 _).2.2.1, a3]
      · exact a3
    · simp only []
      split
      · rw [(data_block_free_keeps c s1 _).2.2.2.1, a4]
      · exact a4
    · simp only []
      split
      · rw [(data_block_free_keeps c s1 _).2.2.2.2, a5]
      · exact a5
  · rw [if_neg hsize]
    exact ⟨s, rfl, by omega, rfl, rfl, rfl, rfl⟩

/-! ## Lemmas on repeated creation -/

/-- On fresh tables `tfs_open(path, TFS_O_CREAT)` takes i-node 1, directory
    entry 0 and handle 0, whatever the valid path. -/
theorem tfs_open_create_fresh_path (c : Config) (hc : c.WF) (s : State) (hf : Fresh c s)
    (str : List Byte) (hvalid : strlen str > 1 ∧ charAt str 0 = 47) :
    ∃ s1, tfs_open c s (some str) c.TFS_O_CREAT = some (s1, 0) ∧
      s1.fs_data = filled_entry c s.fs_data 0 0 1 (str.drop 1) ∧
      s1.inode_table 0 = s.inode_table 0 ∧ (s1.inode_table 1).i_size = 0 ∧
      s1.free_blocks = s.free_blocks ∧ s1.open_file_table 0 = ⟨1, 0⟩ ∧
      s1.free_open_file_entries = setAt s.free_open_file_entries 0 TAKEN ∧
      s1.freeinode_ts = setAt s.freeinode_ts 1 TAKEN := by
  have hN := hc.inodes
  have hvp : valid_pathname (some str) = true := by
    simp [valid_pathname]; exact hvalid
  have hroot := root_dir_base_zero c hc s hf.root_type hf.root_block
  have hentries : 0 < MAX_DIR_ENTRIES c :=
    Nat.div_pos (by unfold sizeof_dir_entry sizeof_int; exact hc.entry)
      (by unfold sizeof_dir_entry sizeof_int; omega)
  have hlook : tfs_lookup c s (some str) = -1 := by
    apply tfs_lookup_unresolvable
    right
    refine ⟨str, rfl, Or.inr (Or.inr ?_)⟩
    rintro ⟨base, hb, i, hi, hm⟩
    rw [hroot] at hb
    cases hb
    exact hm.1 (hf.entries i hi)
  have hflag : c.TFS_O_CREAT &&& c.TFS_O_CREAT ≠ 0 := by
    rw [Nat.and_self]; exact hc.creat
  have hv1 : valid_inumber c ((1 : Nat) : Int) = true := by
    simp [valid_inumber]; omega
  have hname : strlen (str.drop 1) ≠ 0 := by
    rw [strlen_drop_one str hvalid.1]; omega
  unfold tfs_open
  simp only [hvp, not_true_eq_false, if_false, hlook]
  rw [if_neg (by omega), if_pos hflag,
    inode_create_first c s T_FILE 1 (by omega) (hf.inodes 1 (by omega) (by omega))
      (fun j hj => by
        have : j = 0 := by omega
        subst this
        rw [hf.inode0]
        decide)]
  simp only [inode_create_at]
  rw [if_neg (by omega),
    add_dir_entry_fields c 0 ((1 : Nat) : Int) (str.drop 1) 0 _ _ _ _ _ _ ?_
      hv1 hname hentries (hf.entries 0 hentries) (fun j hj => by omega)]
  · simp only []
    rw [if_neg (by omega),
      add_to_open_file_table_fields c ((1 : Nat) : Int) 0 0 _ _ _ _ _ _
        (by have := hc.handles; omega) (hf.handles 0 (by have := hc.handles; omega))
        (fun j hj => by omega)]
    refine ⟨_, rfl, rfl, ?_, ?_, rfl, ?_, rfl, rfl⟩
    · simp [setAt]
    · simp [setAt]
    · simp [setAt]
  · exact root_dir_base_zero c hc _ (by simp [setAt]; exact hf.root_type)
      (by simp [setAt]; exact hf.root_block)

theorem one_file_after_create (c : Config) (s s1 : State) (hf : Fresh c s)
    (name : List Byte) (hlen : strlen name + 1 ≤ c.MAX_FILE_NAME)
    (h1 : s1.fs_data = filled_entry c s.fs_data 0 0 1 name)
    (h2 : s1.inode_table 0 = s.inode_table 0) (h3 : (s1.inode_table 1).i_size = 0)
    (h4 : s1.open_file_table 0 = ⟨1, 0⟩)
    (h5 : s1.free_open_file_entries = setAt s.free_open_file_entries 0 TAKEN) :
    OneFile c name s1 := by
  refine ⟨by rw [h2]; exact hf.root_type, by rw [h2]; exact hf.root_block, ?_, ?_, ?_, h3, ?_⟩
  · rw [h1]
    exact filled_entry_matches_self c s.fs_data 0 0 1 name hlen (by omega) (by omega) (by omega)
  · rw [h1]
    exact filled_entry_inumber c s.fs_data 0 0 1 name (by omega) (by omega) (by omega)
  · intro e he1 he2
    rw [h1, readInt_congr s.fs_data]
    · exact hf.entries e he2
    · intro x hx1 hx2
      apply filled_entry_outside
      right
      have := entry_before c 0 e 0 he1
      simp only [d_inumber_at, d_name_at] at *
      omega
  · intro h hh ht
    rw [h5] at ht
    by_cases h0 : h = 0
    · subst h0
      rw [h4]
    · rw [setAt_other _ _ _ _ h0, hf.handles h hh] at ht
      cases ht

theorem tfs_open_one_file (c : Config) (hc : c.WF) (s : State) (str : List Byte)
    (hvalid : strlen str > 1 ∧ charAt str 0 = 47) (hone : OneFile c (str.drop 1) s) :
    ∃ s1 h, tfs_open c s (some str) c.TFS_O_CREAT = some (s1, h) ∧
      OneFile c (str.drop 1) s1 ∧
      (∀ x, s.free_open_file_entries x = TAKEN → s1.free_open_file_entries x = TAKEN) ∧
      (0 ≤ h → h.toNat < c.MAX_OPEN_FILES ∧ s1.free_open_file_entries h.toNat = TAKEN) := by
  have hN := hc.inodes
  have hvp : valid_pathname (some str) = true := by
    simp [valid_pathname]; exact hvalid
  have hentries : 0 < MAX_DIR_ENTRIES c :=
    Nat.div_pos (by unfold sizeof_dir_entry sizeof_int; exact hc.entry)
      (by unfold sizeof_dir_entry sizeof_int; omega)
  have hlook : tfs_lookup c s (some str) = ((1 : Nat) : Int) := by
    unfold tfs_lookup
    simp only [hvp, not_true_eq_false, if_false]
    rw [find_in_dir_root c _ _ 0 (root_dir_base_zero c hc _ hone.root_type hone.root_block)]
    rw [find_in_dir_loop_found c s.fs_data 0 (str.drop 1) 0 hone.entry0 (MAX_DIR_ENTRIES c) 0
      (Nat.le_refl 0) (by omega) (fun j hj1 hj2 => by omega), hone.inum0]
    rfl
  have hv1 : valid_inumber c ((1 : Nat) : Int) = true := by
    simp [valid_inumber]; omega
  have htr : (if c.TFS_O_CREAT &&& c.TFS_O_TRUNC ≠ 0 then tfs_truncate c s 1 else some s)
      = some s := by
    split
    · unfold tfs_truncate
      rw [if_neg (by rw [hone.size]; omega)]
    · rfl
  have hoff : (if c.TFS_O_CREAT &&& c.TFS_O_APPEND ≠ 0 then
      (s.inode_table 1).i_size % c.BLOCK_SIZE else 0) = 0 := by
    rw [hone.size, Nat.zero_mod]
    split <;> rfl
  unfold tfs_open
  simp only [hvp, not_true_eq_false, if_false, hlook, inode_get, hv1, if_true, Int.toNat_ofNat]
  rw [if_pos (by omega), htr]
  simp only []
  rw [hoff]
  unfold add_to_open_file_table
  rcases add_to_open_file_table_loop_cases s ((1 : Nat) : Int) 0 c.MAX_OPEN_FILES 0 with
    ⟨_, hr⟩ | ⟨j, _, hj, hfree, _, hr⟩
  · rw [hr]
    exact ⟨s, -1, rfl, hone, fun x hx => hx, fun h0 => by omega⟩
  · rw [hr]
    refine ⟨_, _, rfl, ⟨hone.root_type, hone.root_block, hone.entry0, hone.inum0, hone.others,
      hone.size, ?_⟩, ?_, ?_⟩
    · intro h hh ht
      simp only [] at ht ⊢
      by_cases hx : h = j
      · subst hx
        rw [setAt_same]
        rfl
      · rw [setAt_other _ _ _ _ hx] at ht ⊢
        exact hone.handles h hh ht
    · intro x hx
      simp only []
      by_cases hxj : x = j
      · subst hxj
        exact setAt_same _ _ _
      · rw [setAt_other _ _ _ _ hxj]
        exact hx
    · intro _
      simp only [Int.toNat_ofNat]
      exact ⟨by omega, setAt_same _ _ _⟩

theorem open_repeat_one_file (c : Config) (hc : c.WF) (str : List Byte)
    (hvalid : strlen str > 1 ∧ charAt str 0 = 47) :
    ∀ (m : Nat) (s : State), OneFile c (str.drop 1) s →
      ∃ s1 hs, open_repeat c str c.TFS_O_CREAT m s = some (s1, hs) ∧
        OneFile c (str.drop 1) s1 ∧ hs.length = m ∧
        (∀ x, s.free_open_file_entries x = TAKEN → s1.free_open_file_entries x = TAKEN) ∧
        ∀ h, h ∈ hs → 0 ≤ h →
          h.toNat < c.MAX_OPEN_FILES ∧ s1.free_open_file_entries h.toNat = TAKEN := by
  intro m
  induction m with
  | zero =>
    intro s hone
    exact ⟨s, [], rfl, hone, rfl, fun x hx => hx, fun h hh => by cases hh⟩
  | succ m ih =>
    intro s hone
    obtain ⟨s1, h, e1, hone1, mono1, hh1⟩ := tfs_open_one_file c hc s str hvalid hone
    obtain ⟨s2, hs, e2, hone2, hl, mono2, hh2⟩ := ih s1 hone1
    refine ⟨s2, h :: hs, ?_, hone2, by simp [hl], fun x hx => mono2 x (mono1 x hx), ?_⟩
    · simp only [open_repeat, e1, e2]
    · intro h2 hmem hpos
      rcases List.mem_cons.1 hmem with heq | hin
      · subst heq
        exact ⟨(hh1 hpos).1, mono2 _ (hh1 hpos).2⟩
      · exact hh2 h2 hin hpos

/-! ## Lemmas on the directory calls and on the buffer of `tfs_read` -/

theorem add_dir_entry_empty_name (c : Config) (s : State) (inumber n : Int) (name : List Byte)
    (h : strlen name = 0) : add_dir_entry c s inumber n name = (s, -1) := by
  unfold add_dir_entry
  split
  · rfl
  · split
    · rfl
    · rfl

theorem read_loop_rel (c : Config) (s : State) (inode : inode_t) (off to_read : Nat)
    (b0 b1 : Nat → Byte) :
    ∀ fuel (b b2 : Nat → Byte) (aux i j : Nat) (pointer block : Option Nat),
      (∀ x, b x = b2 x ∨ (b x = b0 x ∧ b2 x = b1 x)) →
      (read_loop c s inode off to_read fuel b aux i j pointer block = none ∧
        read_loop c s inode off to_read fuel b2 aux i j pointer block = none) ∨
      ∃ o o2 r, read_loop c s inode off to_read fuel b aux i j pointer block = some (o, r) ∧
        read_loop c s inode off to_read fuel b2 aux i j pointer block = some (o2, r) ∧
        ∀ x, o x = o2 x ∨ (o x = b0 x ∧ o2 x = b1 x) := by
  intro fuel
  induction fuel with
  | zero =>
    intro b b2 aux i j pointer block _
    left
    simp [read_loop]
  | succ f ih =>
    intro b b2 aux i j pointer block hrel
    unfold read_loop
    by_cases hcond : aux > 0 ∧ aux ≤ to_read
    · simp only [if_pos hcond]
      repeat' split
      all_goals first
        | exact Or.inl ⟨rfl, rfl⟩
        | exact Or.inr ⟨b, b2, -1, rfl, rfl, hrel⟩
        | (apply ih
           intro x
           unfold memcpy_out
           split
           · left; rfl
           · exact hrel x)
    · simp only [if_neg hcond]
      right
      exact ⟨b, b2, 0, rfl, rfl, hrel⟩

theorem tfs_read_rel (c : Config) (s : State) (fhandle : Int) (len : Nat) (b b2 : Nat → Byte) :
    (tfs_read c s fhandle b len = none ∧ tfs_read c s fhandle b2 len = none) ∨
    ∃ o o2 r, tfs_read c s fhandle b len = some (o, r) ∧
      tfs_read c s fhandle b2 len = some (o2, r) ∧
      ∀ x, o x = o2 x ∨ (o x = b x ∧ o2 x = b2 x) := by
  unfold tfs_read
  cases get_open_file_entry c fhandle with
  | none => exact Or.inr ⟨b, b2, -1, rfl, rfl, fun x => Or.inr ⟨rfl, rfl⟩⟩
  | some h =>
    simp only []
    cases inode_get c (s.open_file_table h).of_inumber with
    | none => exact Or.inr ⟨b, b2, -1, rfl, rfl, fun x => Or.inr ⟨rfl, rfl⟩⟩
    | some k =>
      simp only []
      generalize (if usub (s.inode_table k).i_size (s.open_file_table h).of_offset > len then len
        else usub (s.inode_table k).i_size (s.open_file_table h).of_offset) = to_read
      by_cases hpos : to_read > 0
      · simp only [if_pos hpos]
        rcases read_loop_rel c s (s.inode_table k) (s.open_file_table h).of_offset to_read b b2
            (to_read + fs_size c + walk_fuel c) b b2 to_read 0 0 none none
            (fun x => Or.inr ⟨rfl, rfl⟩) with ⟨e1, e2⟩ | ⟨o, o2, r, e1, e2, hrel⟩
        · left
          rw [e1, e2]
          exact ⟨rfl, rfl⟩
        · right
          rw [e1, e2]
          simp only []
          by_cases hr : r = -1
          · simp only [if_pos hr]
            exact ⟨o, o2, -1, rfl, rfl, hrel⟩
          · simp only [if_neg hr]
            exact ⟨o, o2, _, rfl, rfl, hrel⟩
      · simp only [if_neg hpos]
        exact Or.inr ⟨b, b2, _, rfl, rfl, fun x => Or.inr ⟨rfl, rfl⟩⟩

/-! ## Lemmas on the effect of a truncation -/

/-- What a truncation that returns does to the block map: for a path that
    resolves to the i-node `k` with `i_size > 0`, the i-node has `i_size = 0`
    afterwards, every block it owned (each used direct slot, each block listed
    in the indirect block, the indirect block itself) is `FREE`, also one that
    another i-node owns as well, and every block it did not own keeps its
    state. -/
theorem truncate_frees_owned_blocks (c : Config) (s : State) (str : List Byte) (flags : Nat)
    (k : Nat) (hBS : 4 ≤ c.BLOCK_SIZE)
    (hflag : flags &&& c.TFS_O_TRUNC ≠ 0)
    (hk : inode_get c (tfs_lookup c s (some str)) = some k)
    (hsize : (s.inode_table k).i_size > 0)
    (s1 : State) (h : Int) (hopen : tfs_open c s (some str) flags = some (s1, h)) :
    (s1.inode_table k).i_size = 0 ∧
    (∀ n, n < c.DATA_BLOCKS → owns_block c s k n → s1.free_blocks n = FREE) ∧
    (∀ n, ¬ owns_block c s k n → s1.free_blocks n = s.free_blocks n) := by
  have hinum : tfs_lookup c s (some str) ≥ 0 := by
    unfold inode_get at hk
    split at hk
    · rename_i hv
      simp [valid_inumber] at hv
      exact hv.1
    · cases hk
  unfold tfs_open at hopen
  simp only [] at hopen
  split at hopen
  · rename_i hv
    unfold tfs_lookup at hinum hk
    simp only [hv, if_true] at hk
    cases hk
  · simp only [if_pos hinum, hk, if_pos hflag] at hopen
    split at hopen
    · cases hopen
    · rename_i st hst
      simp only [Option.some.injEq] at hopen
      obtain ⟨e1, e2, _, _⟩ := add_to_open_file_table_keeps c st (tfs_lookup c s (some str))
        (if flags &&& c.TFS_O_APPEND ≠ 0 then (st.inode_table k).i_size % c.BLOCK_SIZE else 0)
      rw [hopen] at e1 e2
      simp only [] at e1 e2
      obtain ⟨f1, f2⟩ := tfs_truncate_frees c s k hBS hsize st hst
      rw [e1, e2]
      refine ⟨f1, ?_, ?_⟩
      · intro n hn ho
        exact (f2 n).1 ⟨hn, ho⟩
      · intro n ho
        exact (f2 n).2 (fun hx => ho hx.2)

/-! ## The claims -/

/-- C1: single-block round trip.  On every build that satisfies `Config.WF`,
    from `tfs_init` on any prior content of the tables and for every buffer of
    `1 <= n <= BLOCK_SIZE` bytes: `tfs_open("/f1", TFS_O_CREAT)` returns a handle
    `h >= 0`, `tfs_write(h, buf, n)` returns `n`, `tfs_close(h)` returns 0,
    `tfs_open("/f1", 0)` returns a handle `h2 >= 0`, and `tfs_read(h2, out, n)`
    returns `n` with `out[0..n)` equal to `buf[0..n)`. -/
theorem single_block_round_trip (c : Config) (hc : c.WF) (s0 : State) (buf out : Nat → Byte)
    (n : Nat) (hn1 : 1 ≤ n) (hn2 : n ≤ c.BLOCK_SIZE) :
    ∃ s1 s2 h s3 s4 s5 h2 out1,
      tfs_init c s0 = (s1, 0) ∧
      tfs_open c s1 (some path_f1) c.TFS_O_CREAT = some (s2, h) ∧ 0 ≤ h ∧
      tfs_write c s2 h buf n = some (s3, (n : Int)) ∧
      tfs_close c s3 h = (s4, 0) ∧
      tfs_open c s4 (some path_f1) 0 = some (s5, h2) ∧ 0 ≤ h2 ∧
      tfs_read c s5 h2 out n = some (out1, (n : Int)) ∧
      ∀ i, i < n → out1 i = buf i := by
  have hN := hc.inodes
  have hD := hc.blocks
  have hH := hc.handles
  have hBS := block_size_small c hc
  obtain ⟨s1, e1, f1⟩ := tfs_init_fresh c hc s0
  obtain ⟨s2, e2, g_fs, g_root, g_size, g_fb, g_oft, g_fofe, g_ft⟩ :=
    tfs_open_create_fresh c hc s1 f1
  obtain ⟨s3, e3, w_fs, w_size, w_slot, w_it, w_fofe, w_ft, w_fb, w_oft⟩ :=
    tfs_write_single_block c hc s2 0 1 1 n buf (by omega) (by rw [g_oft]; rfl) (by omega)
      g_size hn1 hn2 (by omega) (by rw [g_fb]; exact f1.blocks 1 (by omega) (by omega))
      (fun j hj => by
        have : j = 0 := by omega
        subst this
        rw [g_fb, f1.block0]
        decide)
  have ht3 : s3.free_open_file_entries 0 = TAKEN := by
    rw [w_fofe, g_fofe]; simp [setAt]
  have e4 := tfs_close_open_handle c s3 0 (by omega) ht3
  have hroot0 : s3.inode_table 0 = s1.inode_table 0 := by
    rw [w_it 0 (by omega), g_root]
  have hname : path_f1.drop 1 = [102, 49] := rfl
  have hmatch : entry_matches c s3.fs_data 0 (path_f1.drop 1) 0 := by
    rw [entry_matches_congr c (filled_entry c s1.fs_data 0 0 1 (path_f1.drop 1)) s3.fs_data]
    · exact filled_entry_matches_self c s1.fs_data 0 0 1 (path_f1.drop 1)
        (by have := hc.name; rw [hname]; simp [strlen]; omega) (by omega) (by omega) (by omega)
    · intro x hx1 hx2
      rw [w_fs, g_fs]
      unfold memcpy_in
      rw [if_neg]
      have h3 := hc.entry
      simp only [d_name_at, sizeof_dir_entry, sizeof_int] at hx2
      omega
  have hinum : readInt s3.fs_data (d_inumber_at c 0 0) = 1 := by
    rw [readInt_congr (filled_entry c s1.fs_data 0 0 1 (path_f1.drop 1)) s3.fs_data]
    · exact filled_entry_inumber c s1.fs_data 0 0 1 (path_f1.drop 1)
        (by have := hc.name; omega) (by omega) (by omega)
    · intro x hx1 hx2
      rw [w_fs, g_fs]
      unfold memcpy_in
      rw [if_neg]
      have h3 := hc.entry
      simp only [d_inumber_at, sizeof_dir_entry, sizeof_int] at hx2
      omega
  have hentries : 0 < MAX_DIR_ENTRIES c :=
    Nat.div_pos (by unfold sizeof_dir_entry sizeof_int; exact hc.entry)
      (by unfold sizeof_dir_entry sizeof_int; omega)
  have hlook4 : tfs_lookup c
      { s3 with free_open_file_entries := setAt s3.free_open_file_entries 0 FREE }
      (some path_f1) = ((1 : Nat) : Int) := by
    unfold tfs_lookup
    simp only [show valid_pathname (some path_f1) = true by decide, not_true_eq_false, if_false]
    rw [find_in_dir_root c _ _ 0
      (root_dir_base_zero c hc _ (by simp only []; rw [hroot0]; exact f1.root_type)
        (by simp only []; rw [hroot0]; exact f1.root_block))]
    simp only []
    rw [find_in_dir_loop_found c s3.fs_data 0 (path_f1.drop 1) 0 hmatch (MAX_DIR_ENTRIES c) 0
      (Nat.le_refl 0) (by omega) (fun j hj1 hj2 => by omega), hinum]
    rfl
  have e5 := tfs_open_existing_plain c
    { s3 with free_open_file_entries := setAt s3.free_open_file_entries 0 FREE }
    path_f1 1 0 (by decide) hlook4 (by omega) (by omega) (by simp [setAt])
    (fun j hj => by omega)
  have e6 := tfs_read_single_block c hc
    { s3 with
      free_open_file_entries :=
        setAt (setAt s3.free_open_file_entries 0 FREE) 0 TAKEN
      open_file_table := setAt s3.open_file_table 0 ⟨((1 : Nat) : Int), 0⟩ }
    0 1 1 n out (by omega) (by simp [setAt]) (by omega) w_slot (by omega)
    (by simp only []; rw [w_size]; unfold SIZE_MOD; omega)
    (by simp only []; rw [w_size]; simp; omega)
    (by simp only []; rw [w_size]; simp; omega)
  simp only [w_size, Nat.min_self] at e6
  refine ⟨s1, s2, 0, s3, _, _, 0, _, e1, e2, Int.le_refl 0, e3, e4, e5, Int.le_refl 0, e6, ?_⟩
  intro i hi
  unfold memcpy_out
  rw [if_pos hi]
  show s3.fs_data (1 * c.BLOCK_SIZE + i) = buf i
  rw [w_fs]
  unfold memcpy_in
  rw [if_pos ⟨by omega, by omega⟩]
  congr 1
  omega

/-- Witness of C1: scenario A with 20 bytes on zeroed storage. -/
theorem single_block_round_trip_witness :
    (1 ≤ 20 ∧ 20 ≤ stdConfig.BLOCK_SIZE) ∧
    ∃ s1 s2 h s3 s4 s5 h2 out1,
      tfs_init stdConfig zeroState = (s1, 0) ∧
      tfs_open stdConfig s1 (some path_f1) stdConfig.TFS_O_CREAT = some (s2, h) ∧ 0 ≤ h ∧
      tfs_write stdConfig s2 h (const_buffer 65) 20 = some (s3, ((20 : Nat) : Int)) ∧
      tfs_close stdConfig s3 h = (s4, 0) ∧
      tfs_open stdConfig s4 (some path_f1) 0 = some (s5, h2) ∧ 0 ≤ h2 ∧
      tfs_read stdConfig s5 h2 (const_buffer 0) 20 = some (out1, ((20 : Nat) : Int)) ∧
      ∀ i, i < 20 → out1 i = const_buffer 65 i :=
  ⟨⟨by decide, by decide⟩,
    single_block_round_trip stdConfig stdConfig_wf zeroState (const_buffer 65) (const_buffer 0)
      20 (by decide) (by decide)⟩

/-- C2: the code on the failing input.  Two chunks `"A"` and `"B"` of one byte
    are written one after the other to a new file and read back after closing
    and reopening: both writes and both reads return 1, but the second read
    delivers `'A'` again, not `'B'`. -/
theorem sequential_chunks_second_read :
    two_chunks stdConfig 65 66 = some (1, 1, 1, 1, 65, 65) := by decide

/-- C3: the code on the failing input.  One `tfs_write` of 11264 bytes (11
    blocks, one more than the direct slots hold) to a new file returns `-1` and
    leaves `i_size` at 1024. -/
theorem indirect_write_fails : first_write stdConfig 11264 = some (-1, 1024) := by decide

/-- C4: the code on the failing input.  The second `tfs_write` of one byte
    through the handle of a new file returns 1 while `i_size` is 1 before the
    call and 1 after it. -/
theorem second_write_size_unchanged : second_write stdConfig 1 = some (1, 1, 1) := by decide

/-- C5: the code on the failing input.  One `tfs_write` of 2048 bytes to a new,
    empty file returns `-1` (and leaves `i_size` at 1024), not
    `min(2048, CAP - 0) = 2048`. -/
theorem two_block_write_fails : first_write stdConfig 2048 = some (-1, 1024) := by decide

/-- C6: the code on the failing input.  With the cursor of the handle at 5 and
    `i_size` at 0 after a truncation through another handle, `tfs_read` of 5
    bytes returns 5, not 0. -/
theorem read_past_truncated_size :
    read_after_truncate stdConfig 5 5 = some (5, 0, 5) := by decide

/-- C7: the code on the failing input.  After `tfs_init`, the creation of
    `"/f2"` and of `"/f1"` (i-node 2) and a `tfs_write` of 11264 bytes to
    `"/f1"`, the i-node 2 has `i_size = 1024` and its never assigned slot
    `MAX_DIRECT_BLOCKS` holds 0.  `tfs_open("/f1", TFS_O_TRUNC)` then returns
    the handle 2 and sets `i_size` to 0, but block 0 goes from `TAKEN` to `FREE`
    although it is the block of the root directory: i-node 0 is still `TAKEN`
    and its slot 0 still names block 0. -/
theorem truncate_frees_shared_block :
    truncate_shared_block stdConfig 11264 =
      some (2, [1024, 0], [0, 0], [TAKEN, TAKEN, FREE]) := by decide

/-- C8, counterexample: right after `tfs_init` the path `"/aaa...a"` with a name
    of 40 characters does not resolve (`tfs_lookup` gives `-1`);
    `tfs_open(path, TFS_O_CREAT)` returns the handle 0, whose entry holds i-node
    1, and `tfs_lookup(path)` still returns `-1` afterwards. -/
theorem long_name_not_resolved :
    create_then_lookup stdConfig long_path = some (-1, 0, 1, -1) := by decide

/-- C8 (amended): create then resolve.  For a valid path (leading `'/'`, length
    above 1) whose name has at most `MAX_FILE_NAME - 1` characters and which
    does not resolve, a call `tfs_open` with `TFS_O_CREAT` that returns a handle
    `h >= 0` leaves in open-file entry `h` the pair `(inum, 0)` for an i-node
    `inum` that was free before the call and is taken after it, of type `T_FILE`
    and size 0, and `tfs_lookup` of the path then returns `inum`.  (I-node
    numbers are values of `int`: `INODE_TABLE_SIZE <= 2 ^ 31`.) -/
theorem create_then_resolve (c : Config) (s : State) (str : List Byte) (flags : Nat)
    (hN : c.INODE_TABLE_SIZE ≤ 2147483648)
    (hvalid : strlen str > 1 ∧ charAt str 0 = 47)
    (hlen : strlen str ≤ c.MAX_FILE_NAME)
    (hres : tfs_lookup c s (some str) = -1)
    (hflag : flags &&& c.TFS_O_CREAT ≠ 0)
    (s1 : State) (h : Int) (hopen : tfs_open c s (some str) flags = some (s1, h))
    (hh : 0 ≤ h) :
    ∃ inum : Nat,
      s1.open_file_table h.toNat = ⟨(inum : Int), 0⟩ ∧
      s1.free_open_file_entries h.toNat = TAKEN ∧
      s.freeinode_ts inum = FREE ∧ s1.freeinode_ts inum = TAKEN ∧
      (s1.inode_table inum).i_node_type = T_FILE ∧ (s1.inode_table inum).i_size = 0 ∧
      tfs_lookup c s1 (some str) = (inum : Int) := by
  have hvp : valid_pathname (some str) = true := by
    simp [valid_pathname]; exact hvalid
  have hres2 : find_in_dir c s c.ROOT_DIR_INUM (str.drop 1) = -1 := by
    unfold tfs_lookup at hres
    simpa [hvp] using hres
  unfold tfs_open at hopen
  simp only [hvp, not_true_eq_false, if_false, hres] at hopen
  rw [if_neg (by omega), if_pos hflag] at hopen
  unfold inode_create at hopen
  rcases inode_create_loop_cases c s T_FILE c.INODE_TABLE_SIZE 0 with
    ⟨_, hr⟩ | ⟨k, _, hk2, hk3, _, hr⟩
  · rw [hr] at hopen
    simp at hopen
    omega
  · rw [hr] at hopen
    simp only [inode_create_at] at hopen
    have hk : ((k : Nat) : Int) ≠ -1 := by omega
    rw [if_neg hk] at hopen
    rcases add_dir_entry_root_cases c
        { s with
          freeinode_ts := setAt s.freeinode_ts k TAKEN
          inode_table := setAt s.inode_table k
            { i_node_type := T_FILE, i_size := 0,
              i_data_block := setAt (s.inode_table k).i_data_block 0 (-1) } }
        (k : Int) (str.drop 1) with
      hd | ⟨base, i0, hroot, hi0, _, hbefore, hd⟩
    · rw [hd] at hopen
      simp only [if_true] at hopen
      split at hopen
      · cases hopen
      · simp at hopen
        omega
    · rw [hd] at hopen
      simp only [] at hopen
      rw [if_neg (by omega)] at hopen
      simp only [Option.some.injEq] at hopen
      unfold add_to_open_file_table at hopen
      rcases add_to_open_file_table_loop_cases
          { s with
            freeinode_ts := setAt s.freeinode_ts k TAKEN
            inode_table := setAt s.inode_table k
              { i_node_type := T_FILE, i_size := 0,
                i_data_block := setAt (s.inode_table k).i_data_block 0 (-1) }
            fs_data := filled_entry c s.fs_data base i0 (k : Int) (str.drop 1) }
          (k : Int) 0 c.MAX_OPEN_FILES 0 with
        ⟨_, hr2⟩ | ⟨hd2, _, _, _, _, hr2⟩
      · rw [hr2] at hopen
        simp at hopen
        omega
      · rw [hr2] at hopen
        simp only [Prod.mk.injEq] at hopen
        obtain ⟨hs1, hh1⟩ := hopen
        subst hs1
        subst hh1
        have hrootk : c.ROOT_DIR_INUM.toNat ≠ k := by
          intro he
          unfold root_dir_base at hroot
          simp [he, setAt_same] at hroot
        have hroot0 : root_dir_base c s = some base := by
          rw [← hroot]
          symm
          apply root_dir_base_congr
          simp only []
          exact setAt_other _ _ _ _ hrootk
        have hnone := find_in_dir_loop_neg_one c s.fs_data base (str.drop 1)
          (MAX_DIR_ENTRIES c) 0 (by rw [← find_in_dir_root c s _ base hroot0]; exact hres2)
        refine ⟨k, ?_, ?_, hk3, ?_, ?_, ?_, ?_⟩
        · simp [setAt_same]
        · simp [setAt_same]
        · simp [setAt_same]
        · simp [setAt_same]
        · simp [setAt_same]
        · unfold tfs_lookup
          simp only [hvp, not_true_eq_false, if_false]
          rw [find_in_dir_root c _ _ base (by
            rw [← hroot]
            apply root_dir_base_congr
            rfl)]
          simp only []
          have hlen2 : strlen (str.drop 1) + 1 ≤ c.MAX_FILE_NAME := by
            rw [strlen_drop_one str hvalid.1]; omega
          rw [find_in_dir_loop_found c _ base (str.drop 1) i0
            (filled_entry_matches_self c s.fs_data base i0 (k : Int) (str.drop 1) hlen2 hk
              (by omega) (by omega))
            (MAX_DIR_ENTRIES c) 0 (by omega) (by omega)]
          · exact filled_entry_inumber c s.fs_data base i0 (k : Int) (str.drop 1) (by omega)
              (by omega) (by omega)
          · intro j _ hj hm
            rw [filled_entry_matches_other c s.fs_data base i0 j (k : Int) (str.drop 1)
              (str.drop 1) (by omega)] at hm
            exact hnone j (by omega) (by omega) hm

/-- Witness of C8 (amended): creating `"/f1"` right after `tfs_init`. -/
theorem create_then_resolve_witness :
    ∃ s1, tfs_open stdConfig (fresh_fs stdConfig) (some path_f1) stdConfig.TFS_O_CREAT
        = some (s1, 0) ∧
      ∃ inum : Nat,
        s1.open_file_table (0 : Int).toNat = ⟨(inum : Int), 0⟩ ∧
        s1.free_open_file_entries (0 : Int).toNat = TAKEN ∧
        (fresh_fs stdConfig).freeinode_ts inum = FREE ∧ s1.freeinode_ts inum = TAKEN ∧
        (s1.inode_table inum).i_node_type = T_FILE ∧ (s1.inode_table inum).i_size = 0 ∧
        tfs_lookup stdConfig s1 (some path_f1) = (inum : Int) := by
  obtain ⟨s1, hs1⟩ := option_pair_of_snd
    (tfs_open stdConfig (fresh_fs stdConfig) (some path_f1) stdConfig.TFS_O_CREAT) 0
    (by decide)
  exact ⟨s1, hs1, create_then_resolve stdConfig (fresh_fs stdConfig) path_f1
    stdConfig.TFS_O_CREAT (by decide) (by decide) (by decide) (by decide) (by decide) s1 0 hs1
    (by decide)⟩

/-- C9: an unresolvable path is rejected without side effects.  For a path that
    is `NULL`, has length at most 1, does not start with `'/'` or names no entry
    of the root directory: `tfs_lookup` returns
    `-1`, `tfs_open` without `TFS_O_CREAT` returns `-1`,
    `tfs_copy_to_external_fs` returns `-1` without touching the host file, and
    the state after each call is the state before it. -/
theorem unresolvable_path_rejected (c : Config) (s : State) (path : Option (List Byte))
    (h : path = none ∨ ∃ str, path = some str ∧
      (strlen str ≤ 1 ∨ charAt str 0 ≠ 47 ∨ ¬ name_in_root c s (str.drop 1))) :
    tfs_lookup c s path = -1 ∧
    (∀ flags, flags &&& c.TFS_O_CREAT = 0 → tfs_open c s path flags = some (s, -1)) ∧
    (∀ fopen_ok array, tfs_copy_to_external_fs c s path fopen_ok array = some (s, -1, none)) := by
  have hl := tfs_lookup_unresolvable c s path h
  refine ⟨hl, ?_, ?_⟩
  · intro flags hf
    exact tfs_open_unresolved_no_creat c s path flags (by omega) hf
  · intro fopen_ok array
    exact tfs_copy_unresolved c s path fopen_ok array hl

/-- Witness of C9 on the file system right after `tfs_init`, with the path
    `"/f2"`. -/
theorem unresolvable_path_rejected_witness :
    tfs_lookup stdConfig (fresh_fs stdConfig) (some path_f2) = -1 ∧
    (∀ flags, flags &&& stdConfig.TFS_O_CREAT = 0 →
      tfs_open stdConfig (fresh_fs stdConfig) (some path_f2) flags
        = some (fresh_fs stdConfig, -1)) ∧
    (∀ fopen_ok array,
      tfs_copy_to_external_fs stdConfig (fresh_fs stdConfig) (some path_f2) fopen_ok array
        = some (fresh_fs stdConfig, -1, none)) :=
  unresolvable_path_rejected stdConfig (fresh_fs stdConfig) (some path_f2)
    (Or.inr ⟨path_f2, rfl, Or.inr (Or.inr fresh_fs_f2_absent)⟩)

/-- C10: create is atomic when the directory is full.  When no entry of the
    root directory is empty and `path` does not resolve, `tfs_open` with
    `TFS_O_CREAT` returns `-1` and leaves the i-node free
    map, the block free map, the data blocks (hence every directory entry) and
    the open-file table as they were. -/
theorem create_atomic_when_directory_full (c : Config) (s : State)
    (path : Option (List Byte)) (flags : Nat) (base : Nat)
    (hroot : root_dir_base c s = some base)
    (hfull : ∀ i, i < MAX_DIR_ENTRIES c → readInt s.fs_data (d_inumber_at c base i) ≠ -1)
    (hres : tfs_lookup c s path < 0) (hflag : flags &&& c.TFS_O_CREAT ≠ 0) :
    ∃ s1, tfs_open c s path flags = some (s1, -1) ∧
      s1.freeinode_ts = s.freeinode_ts ∧ s1.free_blocks = s.free_blocks ∧
      s1.fs_data = s.fs_data ∧ s1.open_file_table = s.open_file_table ∧
      s1.free_open_file_entries = s.free_open_file_entries := by
  apply tfs_open_create_full c s path flags _ hres hflag
  intro b hb i hi
  rw [hroot] at hb
  cases hb
  exact hfull i hi

/-- Witness of C10: in the small build, whose root directory is full once
    `"/f1"` exists, `tfs_open("/f2", TFS_O_CREAT)` fails and restores the tables. -/
theorem create_atomic_when_directory_full_witness :
    ∃ s1, tfs_open tinyConfig full_dir_fs (some path_f2) tinyConfig.TFS_O_CREAT = some (s1, -1) ∧
      s1.freeinode_ts = full_dir_fs.freeinode_ts ∧ s1.free_blocks = full_dir_fs.free_blocks ∧
      s1.fs_data = full_dir_fs.fs_data ∧ s1.open_file_table = full_dir_fs.open_file_table ∧
      s1.free_open_file_entries = full_dir_fs.free_open_file_entries :=
  create_atomic_when_directory_full tinyConfig full_dir_fs (some path_f2)
    tinyConfig.TFS_O_CREAT 0 full_dir_fs_root full_dir_fs_full full_dir_fs_lookup_f2
    tinyConfig_creat

/-- C11: opening an existing file.  On a build with `BLOCK_SIZE > 0` (the cursor
    is computed by `%`), for a path that `tfs_lookup` resolves to the
    i-node `k` of the table and for every flag set (with `TFS_O_TRUNC`, provided
    the walk over the i-node's blocks ends, see `walk_ends`), `tfs_open` returns:
    with a free open-file entry it returns the lowest free handle `j`, marks it
    `TAKEN` and installs `(k, cursor)` there, where `cursor` is
    `i_size mod BLOCK_SIZE` if `TFS_O_APPEND` is set, `i_size` being the size
    after the call (0 after `TFS_O_TRUNC`, the size before otherwise), and 0 if
    it is not set; with every entry `TAKEN` it returns `-1` and leaves the
    open-file table as it was. -/
theorem open_existing_file (c : Config) (s : State) (str : List Byte) (flags k : Nat)
    (_hBS : 0 < c.BLOCK_SIZE)
    (hres : tfs_lookup c s (some str) = (k : Int)) (hk : k < c.INODE_TABLE_SIZE)
    (hwalk : flags &&& c.TFS_O_TRUNC ≠ 0 → walk_ends c (s.inode_table k)) :
    ∃ s1 h, tfs_open c s (some str) flags = some (s1, h) ∧
      (flags &&& c.TFS_O_TRUNC ≠ 0 → (s1.inode_table k).i_size = 0) ∧
      (flags &&& c.TFS_O_TRUNC = 0 →
        s1.inode_table = s.inode_table ∧ s1.free_blocks = s.free_blocks) ∧
      (((∀ j, j < c.MAX_OPEN_FILES → s.free_open_file_entries j = TAKEN) ∧ h = -1 ∧
          s1.open_file_table = s.open_file_table ∧
          s1.free_open_file_entries = s.free_open_file_entries) ∨
        ∃ j, j < c.MAX_OPEN_FILES ∧ s.free_open_file_entries j = FREE ∧
          (∀ i, i < j → s.free_open_file_entries i = TAKEN) ∧ h = (j : Int) ∧
          s1.free_open_file_entries = setAt s.free_open_file_entries j TAKEN ∧
          s1.open_file_table = setAt s.open_file_table j
            ⟨(k : Int), if flags &&& c.TFS_O_APPEND ≠ 0 then
              (s1.inode_table k).i_size % c.BLOCK_SIZE else 0⟩) := by
  have hvp : valid_pathname (some str) = true := by
    cases hv : valid_pathname (some str) with
    | true => rfl
    | false =>
      unfold tfs_lookup at hres
      simp [hv] at hres
  have hvk : valid_inumber c (k : Int) = true := by
    simp [valid_inumber]; omega
  have htr : ∃ st, (if flags &&& c.TFS_O_TRUNC ≠ 0 then tfs_truncate c s k else some s) = some st ∧
      (flags &&& c.TFS_O_TRUNC ≠ 0 → (st.inode_table k).i_size = 0) ∧
      (flags &&& c.TFS_O_TRUNC = 0 → st = s) ∧
      st.open_file_table = s.open_file_table ∧
      st.free_open_file_entries = s.free_open_file_entries := by
    by_cases hf : flags &&& c.TFS_O_TRUNC ≠ 0
    · obtain ⟨st, e, a1, _, _, a4, a5⟩ := tfs_truncate_some c s k (hwalk hf)
      rw [if_pos hf]
      exact ⟨st, e, fun _ => a1, fun h0 => absurd h0 hf, a4, a5⟩
    · rw [if_neg hf]
      exact ⟨s, rfl, fun h0 => absurd h0 hf, fun _ => rfl, rfl, rfl⟩
  obtain ⟨st, e, t1, t2, t3, t4⟩ := htr
  unfold tfs_open
  simp only [hvp, not_true_eq_false, if_false, hres, inode_get, hvk, if_true, Int.toNat_ofNat]
  rw [if_pos (by omega), e]
  simp only []
  unfold add_to_open_file_table
  rcases add_to_open_file_table_loop_cases st (k : Int)
      (if flags &&& c.TFS_O_APPEND ≠ 0 then (st.inode_table k).i_size % c.BLOCK_SIZE else 0)
      c.MAX_OPEN_FILES 0 with ⟨hall, hr⟩ | ⟨j, _, hj, hfree, hlow, hr⟩
  · rw [hr]
    refine ⟨st, -1, rfl, t1, fun h0 => by rw [t2 h0]; exact ⟨rfl, rfl⟩, Or.inl ⟨?_, rfl, t3, t4⟩⟩
    intro j hj
    rw [← t4]
    exact (not_free_iff_taken _).1 (hall j (Nat.zero_le j) (by omega))
  · rw [hr]
    refine ⟨_, _, rfl, t1, fun h0 => by rw [t2 h0]; exact ⟨rfl, rfl⟩,
      Or.inr ⟨j, by omega, by rw [← t4]; exact hfree, ?_, rfl, by rw [← t4], by rw [← t3]⟩⟩
    intro i hi
    rw [← t4]
    exact (not_free_iff_taken _).1 (hlow i (Nat.zero_le i) hi)

/-- Witness of C11: `"/f1"` holds one byte and its first handle is still open;
    it is opened again with `TFS_O_TRUNC | TFS_O_APPEND` (flags 6). -/
theorem open_existing_file_witness :
    ∃ s1 h, tfs_open stdConfig (written_f1 stdConfig) (some path_f1) 6 = some (s1, h) ∧
      (6 &&& stdConfig.TFS_O_TRUNC ≠ 0 → (s1.inode_table 1).i_size = 0) ∧
      (6 &&& stdConfig.TFS_O_TRUNC = 0 →
        s1.inode_table = (written_f1 stdConfig).inode_table ∧
        s1.free_blocks = (written_f1 stdConfig).free_blocks) ∧
      (((∀ j, j < stdConfig.MAX_OPEN_FILES →
            (written_f1 stdConfig).free_open_file_entries j = TAKEN) ∧ h = -1 ∧
          s1.open_file_table = (written_f1 stdConfig).open_file_table ∧
          s1.free_open_file_entries = (written_f1 stdConfig).free_open_file_entries) ∨
        ∃ j, j < stdConfig.MAX_OPEN_FILES ∧
          (written_f1 stdConfig).free_open_file_entries j = FREE ∧
          (∀ i, i < j → (written_f1 stdConfig).free_open_file_entries i = TAKEN) ∧
          h = (j : Int) ∧
          s1.free_open_file_entries =
            setAt (written_f1 stdConfig).free_open_file_entries j TAKEN ∧
          s1.open_file_table = setAt (written_f1 stdConfig).open_file_table j
            ⟨((1 : Nat) : Int), if 6 &&& stdConfig.TFS_O_APPEND ≠ 0 then
              (s1.inode_table 1).i_size % stdConfig.BLOCK_SIZE else 0⟩) :=
  open_existing_file stdConfig (written_f1 stdConfig) path_f1 6 1 (by decide) (by decide)
    (by decide) (fun _ => Or.inl ⟨1, by decide, by decide⟩)

/-- C12: `tfs_close(h)` returns 0 if and only if `0 <= h < MAX_OPEN_FILES` and
    entry `h` of `free_open_file_entries` is `TAKEN`; when it returns 0 the state
    after the call is the state before it with entry `h` set to `FREE`, and a
    second `tfs_close(h)` right after it returns `-1` and changes nothing; when
    it does not return 0 it returns `-1` and the state is unchanged. -/
theorem close_only_open_handle (c : Config) (s : State) (h : Int) :
    ((tfs_close c s h).2 = 0 ↔
      (0 ≤ h ∧ h < (c.MAX_OPEN_FILES : Int) ∧ s.free_open_file_entries h.toNat = TAKEN)) ∧
    ((tfs_close c s h).2 = 0 →
      (tfs_close c s h).1 =
        { s with free_open_file_entries := setAt s.free_open_file_entries h.toNat FREE } ∧
      tfs_close c (tfs_close c s h).1 h = ((tfs_close c s h).1, -1)) ∧
    ((tfs_close c s h).2 ≠ 0 → tfs_close c s h = (s, -1)) := by
  unfold tfs_close remove_from_open_file_table
  by_cases hv : valid_file_handle c h = true
  · by_cases ht : s.free_open_file_entries h.toNat = TAKEN
    · have hr : (0 ≤ h ∧ h < (c.MAX_OPEN_FILES : Int)) := by
        simpa [valid_file_handle] using hv
      simp [hv, ht, hr.1, hr.2, setAt_same]
    · simp [hv, ht]
  · have hr : ¬ (0 ≤ h ∧ h < (c.MAX_OPEN_FILES : Int)) := by
      simpa [valid_file_handle] using hv
    simp [hv]
    intro h1 h2
    exact absurd ⟨h1, h2⟩ hr

/-- C13: the code on the failing input.  After `tfs_close(0)` has returned 0 for
    the handle 0 of a new file `"/f1"`, `tfs_read(0, out, 1)` returns 0 and
    `tfs_write(0, "A", 1)` returns 1, sets `i_size` of the file to 1 and takes
    block 1.  Right after `tfs_init` on zeroed storage, `tfs_write(1, "A", 1)`
    through the handle 1, which is `FREE` and was never opened, returns 1,
    stores `'A'` in the first byte of the root directory's block and sets
    `i_size` of i-node 0 to 1025. -/
theorem closed_handle_accepted :
    use_after_close stdConfig = some (0, 0, 0, 1, 1, TAKEN) ∧
    write_unopened stdConfig = some (FREE, 1, 65, 1025) :=
  ⟨by decide, by decide⟩

/-- C14: initialisation.  On a build that satisfies `Config.WF` and from any
    prior state of the tables, `tfs_init` returns 0; afterwards the i-node
    `ROOT_DIR_INUM` is the only one `TAKEN`, it has type `T_DIRECTORY` and size
    `BLOCK_SIZE`, the block its slot 0 names is the only one `TAKEN`, each of
    the `MAX_DIR_ENTRIES` entries of that block has `d_inumber = -1`, every
    open-file entry is `FREE`, and `tfs_lookup` returns `-1` for every path. -/
theorem init_leaves_root_only (c : Config) (hc : c.WF) (s0 : State) :
    ∃ s1, tfs_init c s0 = (s1, 0) ∧
      (∀ i, i < c.INODE_TABLE_SIZE → (s1.freeinode_ts i = TAKEN ↔ (i : Int) = c.ROOT_DIR_INUM)) ∧
      (s1.inode_table c.ROOT_DIR_INUM.toNat).i_node_type = T_DIRECTORY ∧
      (s1.inode_table c.ROOT_DIR_INUM.toNat).i_size = c.BLOCK_SIZE ∧
      (∃ b, b < c.DATA_BLOCKS ∧
        (s1.inode_table c.ROOT_DIR_INUM.toNat).i_data_block 0 = (b : Int) ∧
        (∀ i, i < c.DATA_BLOCKS → (s1.free_blocks i = TAKEN ↔ i = b)) ∧
        ∀ e, e < MAX_DIR_ENTRIES c →
          readInt s1.fs_data (d_inumber_at c (b * c.BLOCK_SIZE) e) = -1) ∧
      (∀ h, h < c.MAX_OPEN_FILES → s1.free_open_file_entries h = FREE) ∧
      ∀ path, tfs_lookup c s1 path = -1 := by
  obtain ⟨s1, e1, f1⟩ := tfs_init_fresh c hc s0
  have hD := hc.blocks
  refine ⟨s1, e1, ?_, ?_, ?_, ⟨0, by omega, ?_, ?_, ?_⟩, f1.handles, fresh_lookup c hc s1 f1⟩
  · intro i hi
    rw [hc.root]
    constructor
    · intro ht
      by_cases h0 : i = 0
      · subst h0; rfl
      · rw [f1.inodes i (by omega) hi] at ht
        cases ht
    · intro h0
      have : i = 0 := by omega
      subst this
      exact f1.inode0
  · rw [hc.root]; exact f1.root_type
  · rw [hc.root]; exact f1.root_size
  · rw [hc.root]; exact f1.root_block
  · intro i hi
    constructor
    · intro ht
      by_cases h0 : i = 0
      · exact h0
      · rw [f1.blocks i (by omega) hi] at ht
        cases ht
    · intro h0
      subst h0
      exact f1.block0
  · intro e he
    rw [Nat.zero_mul]
    exact f1.entries e he

/-- Witness of C14: `tfs_init` on the base build, the prior state being a file
    system in use (one file of one byte, its handle open). -/
theorem init_leaves_root_only_witness :
    ∃ s1, tfs_init stdConfig (written_f1 stdConfig) = (s1, 0) ∧
      (∀ i, i < stdConfig.INODE_TABLE_SIZE →
        (s1.freeinode_ts i = TAKEN ↔ (i : Int) = stdConfig.ROOT_DIR_INUM)) ∧
      (s1.inode_table stdConfig.ROOT_DIR_INUM.toNat).i_node_type = T_DIRECTORY ∧
      (s1.inode_table stdConfig.ROOT_DIR_INUM.toNat).i_size = stdConfig.BLOCK_SIZE ∧
      (∃ b, b < stdConfig.DATA_BLOCKS ∧
        (s1.inode_table stdConfig.ROOT_DIR_INUM.toNat).i_data_block 0 = (b : Int) ∧
        (∀ i, i < stdConfig.DATA_BLOCKS → (s1.free_blocks i = TAKEN ↔ i = b)) ∧
        ∀ e, e < MAX_DIR_ENTRIES stdConfig →
          readInt s1.fs_data (d_inumber_at stdConfig (b * stdConfig.BLOCK_SIZE) e) = -1) ∧
      (∀ h, h < stdConfig.MAX_OPEN_FILES → s1.free_open_file_entries h = FREE) ∧
      ∀ path, tfs_lookup stdConfig s1 path = -1 :=
  init_leaves_root_only stdConfig stdConfig_wf (written_f1 stdConfig)

/-- C15: first-fit block allocation.  For every block map, `data_block_alloc`
    returns `-1` exactly when each of the `DATA_BLOCKS` entries is `TAKEN`, and
    then the state is unchanged; otherwise it returns the smallest index `k`
    whose entry is `FREE` (so never an index that was `TAKEN`), sets that entry
    to `TAKEN` and leaves every other entry and every other table as it was. -/
theorem data_block_alloc_first_fit (c : Config) (s : State) :
    ((data_block_alloc c s).2 = -1 ↔ ∀ i, i < c.DATA_BLOCKS → s.free_blocks i = TAKEN) ∧
    (((∀ i, i < c.DATA_BLOCKS → s.free_blocks i = TAKEN) ∧ data_block_alloc c s = (s, -1)) ∨
      ∃ k, k < c.DATA_BLOCKS ∧ s.free_blocks k = FREE ∧
        (∀ j, j < k → s.free_blocks j = TAKEN) ∧
        data_block_alloc c s = ({ s with free_blocks := setAt s.free_blocks k TAKEN }, (k : Int)) ∧
        (data_block_alloc c s).1.free_blocks k = TAKEN ∧
        ∀ j, j ≠ k → (data_block_alloc c s).1.free_blocks j = s.free_blocks j) := by
  unfold data_block_alloc
  rcases data_block_alloc_loop_cases s c.DATA_BLOCKS 0 with ⟨hall, hr⟩ | ⟨k, _, hk, hfree, hlow, hr⟩
  · have hall2 : ∀ i, i < c.DATA_BLOCKS → s.free_blocks i = TAKEN := fun i hi =>
      (not_free_iff_taken _).1 (hall i (Nat.zero_le i) (by omega))
    rw [hr]
    exact ⟨⟨fun _ => hall2, fun _ => rfl⟩, Or.inl ⟨hall2, rfl⟩⟩
  · rw [hr]
    refine ⟨⟨fun h => ?_, fun h => ?_⟩, Or.inr ⟨k, by omega, hfree, fun j hj =>
      (not_free_iff_taken _).1 (hlow j (Nat.zero_le j) hj), rfl, setAt_same _ _ _,
      fun j hj => setAt_other _ _ _ _ hj⟩⟩
    · simp only [] at h
      omega
    · have := h k (by omega)
      rw [hfree] at this
      cases this

/-- C16: i-node table invariant.  Every sequence of `inode_create(T_FILE)` and
    `inode_delete` calls run from `state_init` (on any prior state `s0`) comes
    to a state `s` in which at most `INODE_TABLE_SIZE` i-nodes are `TAKEN`, no
    entry of `freeinode_ts` outside the table was written, and the next
    `inode_create(T_FILE)` returns `-1` exactly when no i-node is `FREE` (and
    then changes nothing), and otherwise returns the lowest i-number `k` that is
    `FREE` in `s`, marks it `TAKEN` and leaves i-node `k` with type `T_FILE`,
    `i_size = 0` and the end mark `-1` in slot 0. -/
theorem inode_table_invariant (c : Config) (s0 : State) (calls : List inode_call) :
    ∃ s, inode_calls c calls (state_init c s0).1 = some s ∧
      taken_inodes c s ≤ c.INODE_TABLE_SIZE ∧
      (∀ i, c.INODE_TABLE_SIZE ≤ i → s.freeinode_ts i = s0.freeinode_ts i) ∧
      ((inode_create c s T_FILE).2 = -1 ↔
        ∀ i, i < c.INODE_TABLE_SIZE → s.freeinode_ts i = TAKEN) ∧
      (inode_create c s T_FILE = (s, -1) ∨
        ∃ k, k < c.INODE_TABLE_SIZE ∧ (inode_create c s T_FILE).2 = (k : Int) ∧
          s.freeinode_ts k = FREE ∧ (∀ j, j < k → s.freeinode_ts j = TAKEN) ∧
          (inode_create c s T_FILE).1.freeinode_ts = setAt s.freeinode_ts k TAKEN ∧
          ((inode_create c s T_FILE).1.inode_table k).i_node_type = T_FILE ∧
          ((inode_create c s T_FILE).1.inode_table k).i_size = 0 ∧
          ((inode_create c s T_FILE).1.inode_table k).i_data_block 0 = -1) := by
  obtain ⟨s, hs, _, hout⟩ := inode_calls_total c s0 calls (state_init c s0).1
    (by
      intro i hi ht
      simp [state_init, hi] at ht)
    (by
      intro i hi
      simp [state_init]
      intro hx
      omega)
  refine ⟨s, hs, ?_, hout, ?_, ?_⟩
  · unfold taken_inodes
    exact (List.length_filter_le _ _).trans (by rw [List.length_range])
  · rcases inode_create_file_cases c s with ⟨hall, hr⟩ | ⟨k, hk, hfree, _, hr⟩
    · rw [hr]
      exact ⟨fun _ => hall, fun _ => rfl⟩
    · rw [hr]
      constructor
      · intro h
        simp only [] at h
        omega
      · intro h
        have := h k hk
        rw [hfree] at this
        cases this
  · rcases inode_create_file_cases c s with ⟨_, hr⟩ | ⟨k, hk, hfree, hlow, hr⟩
    · exact Or.inl hr
    · rw [hr]
      exact Or.inr ⟨k, hk, rfl, hfree, hlow, rfl, by simp [setAt_same], by simp [setAt_same],
        by simp [setAt_same]⟩

/-- C17: the code on the failing input.  In `indirect_file_fs` the file i-node 1
    owns the blocks 1 to 10 (direct slots), 12 (listed in the indirect block) and
    11 (the indirect block itself).  `inode_delete(1)` returns 0, marks the
    i-node `FREE` and frees the blocks 1 to 10 and 12, but block 11 stays
    `TAKEN`. -/
theorem delete_keeps_indirect_block :
    owns_block stdConfig indirect_file_fs 1 11 ∧
    delete_indirect_file = some (0, FREE,
      [TAKEN, FREE, FREE, FREE, FREE, FREE, FREE, FREE, FREE, FREE, FREE, TAKEN, FREE, FREE]) :=
  ⟨Or.inr (Or.inl ⟨by decide, by decide⟩), by decide⟩

/-- C18: the code on the failing input.  After `tfs_init`,
    `tfs_open("/f1", TFS_O_CREAT)` and two `tfs_write` calls of 1024 bytes each
    through the returned handle, both of which return 1024, the i-node 1 is
    `TAKEN` with `i_size = 2048`, its slot 0 names block 1 and its slot 1 holds
    the end mark `-1`: the second of its `ceil(2048 / 1024) = 2` block indices is
    not a valid index. -/
theorem size_exceeds_block_list :
    two_full_writes stdConfig = some (1024, 1024, TAKEN, 2048, 1, -1) := by decide

/-- C19: the code on the failing input.  On the small build (8 blocks of 16
    bytes) a file `"/f1"` holds 5 bytes in block 1 and the blocks 2 to 7 are
    `FREE`.  A `tfs_write` of 200 bytes through its handle asks `to_alloc` for 7
    blocks and returns `-1`; `i_size` (5) and the slots of the i-node are
    unchanged, but the blocks 2 to 7 are `TAKEN` after the call. -/
theorem failed_allocation_keeps_blocks :
    exhausting_write tinyConfig 5 200 =
      some (-1, [[TAKEN, TAKEN, FREE, FREE, FREE, FREE, FREE, FREE],
          [TAKEN, TAKEN, TAKEN, TAKEN, TAKEN, TAKEN, TAKEN, TAKEN]],
        [(5, [1, -1, 0]), (5, [1, -1, 0])]) := by
  decide

/-- C20, counterexample: right after `tfs_init`, two calls
    `tfs_open(path, TFS_O_CREAT)` for the path `"/aaa...a"` with a name of 40
    characters return the handles 0 and 1, which refer to the i-nodes 1 and 2;
    the directory entries 0 and 1 hold the i-numbers 1 and 2 and the same bytes
    in `d_name`. -/
theorem long_name_created_twice :
    create_twice stdConfig long_path = some ([0, 1], [1, 2], [1, 2], true) := by decide

/-- C20 (amended): no duplicate names, for calls run one after the other.  On a
    build that satisfies `Config.WF`, for a valid path (leading `'/'`, length
    above 1) whose name has at most `MAX_FILE_NAME - 1` characters and every
    `m >= 1`, `m` calls `tfs_open(path, TFS_O_CREAT)` right after `tfs_init` all
    return and the first returns the handle 0; afterwards one entry of the root
    directory is in use under that name, every other entry is empty (so no two
    entries in use share a name), and the open-file entry of every handle
    `h >= 0` that was returned refers to the i-number of that entry. -/
theorem repeated_create_one_entry (c : Config) (hc : c.WF) (s0 : State) (str : List Byte)
    (m : Nat) (hvalid : strlen str > 1 ∧ charAt str 0 = 47)
    (hlen : strlen str ≤ c.MAX_FILE_NAME) (hm : 1 ≤ m) :
    ∃ s hs, open_repeat c str c.TFS_O_CREAT m (tfs_init c s0).1 = some (s, hs) ∧
      hs.length = m ∧ hs.head? = some 0 ∧
      ∃ base e0 inum, root_dir_base c s = some base ∧ e0 < MAX_DIR_ENTRIES c ∧
        entry_matches c s.fs_data base (str.drop 1) e0 ∧
        readInt s.fs_data (d_inumber_at c base e0) = inum ∧
        (∀ e, e < MAX_DIR_ENTRIES c → e ≠ e0 →
          readInt s.fs_data (d_inumber_at c base e) = -1) ∧
        ∀ h, h ∈ hs → 0 ≤ h → (s.open_file_table h.toNat).of_inumber = inum := by
  obtain ⟨sf, e0, hf⟩ := tfs_init_fresh c hc s0
  have hsf : (tfs_init c s0).1 = sf := by rw [e0]
  obtain ⟨m1, rfl⟩ : ∃ m1, m = m1 + 1 := ⟨m - 1, by omega⟩
  obtain ⟨s1, e1, a1, a2, a3, _, a5, a6, _⟩ := tfs_open_create_fresh_path c hc sf hf str hvalid
  have hlen1 : strlen (str.drop 1) + 1 ≤ c.MAX_FILE_NAME := by
    rw [strlen_drop_one str hvalid.1]; omega
  have hone1 := one_file_after_create c sf s1 hf (str.drop 1) hlen1 a1 a2 a3 a5 a6
  obtain ⟨s2, hs, e2, hone2, hl, mono, hh⟩ := open_repeat_one_file c hc str hvalid m1 s1 hone1
  have hentries : 0 < MAX_DIR_ENTRIES c :=
    Nat.div_pos (by unfold sizeof_dir_entry sizeof_int; exact hc.entry)
      (by unfold sizeof_dir_entry sizeof_int; omega)
  have hH := hc.handles
  refine ⟨s2, 0 :: hs, ?_, by simp [hl], rfl, 0, 0, 1,
    root_dir_base_zero c hc s2 hone2.root_type hone2.root_block, hentries, hone2.entry0,
    hone2.inum0, fun e he1 he2 => hone2.others e (by omega) he1, ?_⟩
  · rw [hsf]
    simp only [open_repeat, e1, e2]
  · intro h hmem hpos
    rcases List.mem_cons.1 hmem with heq | hin
    · subst heq
      apply hone2.handles 0 (by omega)
      apply mono
      rw [a6]
      exact setAt_same _ _ _
    · obtain ⟨b1, b2⟩ := hh h hin hpos
      exact hone2.handles _ b1 b2

/-- Witness of C20 (amended): three calls `tfs_open("/f1", TFS_O_CREAT)` after
    `tfs_init` on zeroed storage. -/
theorem repeated_create_one_entry_witness :
    ∃ s hs, open_repeat stdConfig path_f1 stdConfig.TFS_O_CREAT 3 (tfs_init stdConfig zeroState).1
        = some (s, hs) ∧
      hs.length = 3 ∧ hs.head? = some 0 ∧
      ∃ base e0 inum, root_dir_base stdConfig s = some base ∧ e0 < MAX_DIR_ENTRIES stdConfig ∧
        entry_matches stdConfig s.fs_data base (path_f1.drop 1) e0 ∧
        readInt s.fs_data (d_inumber_at stdConfig base e0) = inum ∧
        (∀ e, e < MAX_DIR_ENTRIES stdConfig → e ≠ e0 →
          readInt s.fs_data (d_inumber_at stdConfig base e) = -1) ∧
        ∀ h, h ∈ hs → 0 ≤ h → (s.open_file_table h.toNat).of_inumber = inum :=
  repeated_create_one_entry stdConfig stdConfig_wf zeroState path_f1 3 (by decide) (by decide)
    (by decide)

/-- C21: the code on the failing input.  For the file `"/f1"` (i-node 1):
    `tfs_open("/f1", TFS_O_TRUNC)` on the file of one byte acquires the i-node's
    `rwlock` while it holds `lock_datablocks`, and so does `inode_delete(1)`;
    `tfs_write` and `tfs_read` acquire `lock_datablocks` while they hold the
    i-node's `rwlock`.  The lists are those of the truncation, the write, the
    read and the deletion. -/
theorem lock_order_differs :
    lock_orders stdConfig = some [[(lock_datablocks, rwlock 1)],
      [(rwlock 1, lock_datablocks), (rwlock 1, lock_datablocks)],
      [(rwlock 1, lock_datablocks)], [(lock_datablocks, rwlock 1)]] := by decide

/-- C22: directory insert and lookup.  On a build whose i-numbers are values of
    `int` and with `MAX_FILE_NAME >= 1`, for every state whose root directory has
    its entry array at `base`, every valid i-number `n` and every name:
    `add_dir_entry(ROOT_DIR_INUM, n, name)` returns `-1` and changes nothing when
    the name is empty or no entry is empty; for a non-empty name and the lowest
    empty entry `k` it returns 0 and changes only the bytes of entry `k`, whose
    `d_inumber` becomes `n` and whose `d_name` holds the first
    `MAX_FILE_NAME - 1` characters of the name followed by NULs.
    `find_in_dir(ROOT_DIR_INUM, name)` returns the `d_inumber` of the lowest
    entry that is in use and whose stored name equals the name, byte by byte up
    to the first NUL of `d_name` or `MAX_FILE_NAME` characters
    (`stored_name_equals`), and `-1` when no entry is such. -/
theorem directory_insert_lookup (c : Config) (s : State) (base : Nat) (n : Int)
    (name : List Byte) (hN : c.INODE_TABLE_SIZE ≤ 2147483648) (hmax : 1 ≤ c.MAX_FILE_NAME)
    (hroot : root_dir_base c s = some base) (hv : valid_inumber c n = true) :
    (strlen name = 0 → add_dir_entry c s c.ROOT_DIR_INUM n name = (s, -1)) ∧
    ((∀ i, i < MAX_DIR_ENTRIES c → readInt s.fs_data (d_inumber_at c base i) ≠ -1) →
      add_dir_entry c s c.ROOT_DIR_INUM n name = (s, -1)) ∧
    (∀ k, strlen name ≠ 0 → k < MAX_DIR_ENTRIES c →
      readInt s.fs_data (d_inumber_at c base k) = -1 →
      (∀ j, j < k → readInt s.fs_data (d_inumber_at c base j) ≠ -1) →
      ∃ m, add_dir_entry c s c.ROOT_DIR_INUM n name = ({ s with fs_data := m }, 0) ∧
        readInt m (d_inumber_at c base k) = n ∧
        (∀ x, x < c.MAX_FILE_NAME → m (d_name_at c base k + x) =
          if x < c.MAX_FILE_NAME - 1 ∧ x < strlen name then charAt name x else 0) ∧
        ∀ x, x < d_name_at c base k ∨ d_name_at c base k + sizeof_dir_entry c ≤ x →
          m x = s.fs_data x) ∧
    ((∀ i, i < MAX_DIR_ENTRIES c → readInt s.fs_data (d_inumber_at c base i) = -1 ∨
        ¬ stored_name_equals c s.fs_data base i name) →
      find_in_dir c s c.ROOT_DIR_INUM name = -1) ∧
    (∀ k, k < MAX_DIR_ENTRIES c → readInt s.fs_data (d_inumber_at c base k) ≠ -1 →
      stored_name_equals c s.fs_data base k name →
      (∀ j, j < k → readInt s.fs_data (d_inumber_at c base j) = -1 ∨
        ¬ stored_name_equals c s.fs_data base j name) →
      find_in_dir c s c.ROOT_DIR_INUM name = readInt s.fs_data (d_inumber_at c base k)) := by
  have hr : 0 ≤ n ∧ n < (c.INODE_TABLE_SIZE : Int) := by
    simpa [valid_inumber] using hv
  have hcmp : ∀ (a cnt k0 : Nat), strncmp_eq s.fs_data a name cnt k0 = true ↔
      ∀ k, k0 ≤ k → k < k0 + cnt → (∀ j, k0 ≤ j → j < k → s.fs_data (a + j) ≠ 0) →
        s.fs_data (a + k) = charAt name k := by
    intro a cnt
    induction cnt with
    | zero =>
      intro k0
      simp only [strncmp_eq, true_iff]
      intro k h1 h2
      omega
    | succ cnt ih =>
      intro k0
      unfold strncmp_eq
      by_cases hne : s.fs_data (a + k0) ≠ charAt name k0
      · rw [if_pos hne]
        constructor
        · intro h; cases h
        · intro h
          exact absurd (h k0 (Nat.le_refl _) (by omega) (fun j h1 h2 => by omega)) hne
      · rw [if_neg hne]
        have heq : s.fs_data (a + k0) = charAt name k0 := by
          by_contra hx
          exact hne hx
        by_cases hz : s.fs_data (a + k0) = 0
        · rw [if_pos hz]
          simp only [true_iff]
          intro k h1 h2 hpre
          by_cases hk : k = k0
          · subst hk; exact heq
          · exact absurd hz (hpre k0 (Nat.le_refl _) (by omega))
        · rw [if_neg hz, ih (k0 + 1)]
          constructor
          · intro h k h1 h2 hpre
            by_cases hk : k = k0
            · subst hk; exact heq
            · exact h k (by omega) (by omega) (fun j hj1 hj2 => hpre j (by omega) hj2)
          · intro h k h1 h2 hpre
            apply h k (by omega) (by omega)
            intro j hj1 hj2
            by_cases hj : j = k0
            · subst hj; exact hz
            · exact hpre j (by omega) hj2
  have hiff : ∀ i, entry_matches c s.fs_data base name i ↔
      readInt s.fs_data (d_inumber_at c base i) ≠ -1 ∧
        stored_name_equals c s.fs_data base i name := by
    intro i
    unfold entry_matches stored_name_equals
    rw [hcmp (d_name_at c base i) c.MAX_FILE_NAME 0]
    constructor
    · rintro ⟨h1, h2⟩
      exact ⟨h1, fun k hk hpre => h2 k (Nat.zero_le k) (by omega) (fun j _ hj => hpre j hj)⟩
    · rintro ⟨h1, h2⟩
      exact ⟨h1, fun k _ hk hpre => h2 k (by omega) (fun j hj => hpre j (Nat.zero_le j) hj)⟩
  have hno : ∀ i, (readInt s.fs_data (d_inumber_at c base i) = -1 ∨
      ¬ stored_name_equals c s.fs_data base i name) → ¬ entry_matches c s.fs_data base name i := by
    intro i h hm
    rw [hiff] at hm
    rcases h with h | h
    · exact hm.1 h
    · exact h hm.2
  refine ⟨add_dir_entry_empty_name c s _ n name, ?_, ?_, ?_, ?_⟩
  · intro hfull
    apply add_dir_entry_full
    intro b hb i hi
    rw [hroot] at hb
    cases hb
    exact hfull i hi
  · intro k hname hk hfree hlow
    refine ⟨filled_entry c s.fs_data base k n name,
      add_dir_entry_first c s base n name k hroot hv hname hk hfree hlow,
      filled_entry_inumber c s.fs_data base k n name hmax (by omega) (by omega),
      fun x hx => filled_entry_name c s.fs_data base k n name x hx,
      fun x hx => filled_entry_outside c s.fs_data base k n name x hx⟩
  · intro hnone
    rw [find_in_dir_root c s name base hroot]
    exact find_in_dir_loop_none c s.fs_data base name (MAX_DIR_ENTRIES c) 0
      (fun j _ hj => hno j (hnone j (by omega)))
  · intro k hk huse hname hlow
    rw [find_in_dir_root c s name base hroot]
    exact find_in_dir_loop_found c s.fs_data base name k
      ((hiff k).2 ⟨huse, hname⟩) (MAX_DIR_ENTRIES c) 0
      (Nat.zero_le k) (by omega) (fun j _ hj => hno j (hlow j hj))

/-- Witness of C22: the root directory that holds `"f1"` as i-node 1 in entry
    0.  The lookup of `"f1"` returns 1, the lookup of `"f2"` returns `-1`, and the
    insertion of `("f2", 2)` fills entry 1. -/
theorem directory_insert_lookup_witness :
    find_in_dir stdConfig (written_f1 stdConfig) stdConfig.ROOT_DIR_INUM [102, 49] = 1 ∧
    find_in_dir stdConfig (written_f1 stdConfig) stdConfig.ROOT_DIR_INUM [102, 50] = -1 ∧
    ∃ m, add_dir_entry stdConfig (written_f1 stdConfig) stdConfig.ROOT_DIR_INUM 2 [102, 50]
        = ({ written_f1 stdConfig with fs_data := m }, 0) ∧
      readInt m (d_inumber_at stdConfig 0 1) = 2 ∧
      (∀ x, x < stdConfig.MAX_FILE_NAME → m (d_name_at stdConfig 0 1 + x) =
        if x < stdConfig.MAX_FILE_NAME - 1 ∧ x < strlen [102, 50] then charAt [102, 50] x
        else 0) ∧
      ∀ x, x < d_name_at stdConfig 0 1 ∨ d_name_at stdConfig 0 1 + sizeof_dir_entry stdConfig ≤ x →
        m x = (written_f1 stdConfig).fs_data x :=
  ⟨((directory_insert_lookup stdConfig (written_f1 stdConfig) 0 2 [102, 49] (by decide)
      (by decide) (by decide) (by decide)).2.2.2.2 0 (by decide) (by decide) (by decide)
      (fun j hj => absurd hj (Nat.not_lt_zero j))).trans (by decide),
    (directory_insert_lookup stdConfig (written_f1 stdConfig) 0 2 [102, 50] (by decide)
      (by decide) (by decide) (by decide)).2.2.2.1 (by decide),
    (directory_insert_lookup stdConfig (written_f1 stdConfig) 0 2 [102, 50] (by decide)
      (by decide) (by decide) (by decide)).2.2.1 1 (by decide) (by decide) (by decide)
      (by decide)⟩

/-- C23: the code on the failing inputs.  A `tfs_write` of 1500 bytes `'B'` to a
    new file, whose only block is block 1, returns `-1` with `i_size = 1500`:
    its first `memcpy` copies 1500 bytes from offset 0 of block 1, so the first
    byte of block 2, a `FREE` block, changes from 0 to `'B'`.  A `tfs_read` of
    1500 bytes through a second handle then returns `-1` after delivering that
    byte of block 2 at index 1024 of the buffer.  After a write of 5 bytes the
    cursor is 5, and in a second write of one byte through the same handle the
    byte count `temp - of_offset` is `1 - 5 = 2 ^ 64 - 4` in `size_t`: the call
    ends in undefined behaviour. -/
theorem copy_leaves_block :
    spilling_write stdConfig 1500 = some (-1, 1500, FREE, 0, 66) ∧
    spilling_read stdConfig 1500 = some (-1, 66) ∧
    short_second_write stdConfig 5 1 = some (5, 18446744073709551612, true) :=
  ⟨by decide, by decide, by decide⟩

/-- C24: `tfs_read` is a pure observer.  In the embedding `tfs_read` yields the
    caller's buffer and the count only, as the source stores through `buffer`
    and into its locals and nowhere else: every table after the call is the
    table before it, the cursor included.  Hence, when a call returns the count
    `r` and the buffer `out`, a second call with the same handle and length on
    that buffer returns `r` and leaves every byte of `out` as it is, and a call
    on any other buffer `buf2` returns `r` and delivers at each index the byte
    the first call delivered there, or leaves the index untouched as the first
    call did. -/
theorem read_is_pure_observer (c : Config) (s : State) (fhandle : Int) (len : Nat)
    (buf out : Nat → Byte) (r : Int) (hread : tfs_read c s fhandle buf len = some (out, r)) :
    tfs_read c s fhandle out len = some (out, r) ∧
    ∀ buf2, ∃ out2, tfs_read c s fhandle buf2 len = some (out2, r) ∧
      ∀ x, out2 x = out x ∨ (out2 x = buf2 x ∧ out x = buf x) := by
  have key : ∀ buf2, ∃ out2, tfs_read c s fhandle buf2 len = some (out2, r) ∧
      ∀ x, out2 x = out x ∨ (out2 x = buf2 x ∧ out x = buf x) := by
    intro buf2
    rcases tfs_read_rel c s fhandle len buf buf2 with ⟨e1, _⟩ | ⟨o, o2, r1, e1, e2, hrel⟩
    · rw [e1] at hread
      cases hread
    · rw [e1] at hread
      cases hread
      refine ⟨o2, e2, fun x => ?_⟩
      rcases hrel x with h1 | ⟨h1, h2⟩
      · exact Or.inl h1.symm
      · exact Or.inr ⟨h2, h1⟩
  refine ⟨?_, key⟩
  obtain ⟨out2, e, hrel⟩ := key out
  have : out2 = out := by
    funext x
    rcases hrel x with h1 | ⟨h1, _⟩
    · exact h1
    · exact h1
  rw [this] at e
  exact e
/-- Witness of C24: reading one byte of `"/f1"` through the handle 1, whose
    cursor is 0. -/
theorem read_is_pure_observer_witness :
    ∃ out, tfs_read stdConfig (reopened_f1 stdConfig) 1 (const_buffer 0) 1 = some (out, 1) ∧
      tfs_read stdConfig (reopened_f1 stdConfig) 1 out 1 = some (out, 1) ∧
      ∀ buf2, ∃ out2, tfs_read stdConfig (reopened_f1 stdConfig) 1 buf2 1 = some (out2, 1) ∧
        ∀ x, out2 x = out x ∨ (out2 x = buf2 x ∧ out x = const_buffer 0 x) := by
  obtain ⟨out, hout⟩ := option_pair_of_snd
    (tfs_read stdConfig (reopened_f1 stdConfig) 1 (const_buffer 0) 1) 1 (by decide)
  exact ⟨out, hout, read_is_pure_observer stdConfig (reopened_f1 stdConfig) 1 1 (const_buffer 0)
    out 1 hout⟩

/-- C25: the code on the failing inputs.  `tfs_open("/f1", TFS_O_TRUNC)` on the
    new, empty file `"/f1"` unlocks the `rwlock` of i-node 1 and then
    `lock_datablocks` without having locked either.  On the small build the
    `tfs_write` of 200 bytes that fails in `to_alloc` returns `-1` while the
    `rwlock` of i-node 1, locked by its first lock call, is still held. -/
theorem lock_balance_broken :
    truncate_empty_locks stdConfig =
      some ([wrlock lock_datablocks, unlock lock_datablocks, unlock (rwlock 1),
        unlock lock_datablocks, wrlock lock_openfiletable, unlock lock_openfiletable], none) ∧
    exhausting_write_locks tinyConfig 5 200 =
      some (-1,
        [wrlock (rwlock 1), rdlock lock_datablocks, unlock lock_datablocks,
          wrlock lock_datablocks, unlock lock_datablocks,
          wrlock lock_datablocks, unlock lock_datablocks,
          wrlock lock_datablocks, unlock lock_datablocks,
          wrlock lock_datablocks, unlock lock_datablocks,
          wrlock lock_datablocks, unlock lock_datablocks,
          wrlock lock_datablocks, unlock lock_datablocks,
          wrlock lock_datablocks, unlock lock_datablocks], some [rwlock 1]) :=
  ⟨by decide, by decide⟩

end TecnicoFS
